import Mathlib

/-!
The SDL console of DFHack: line store, prompt editing, history recall and
the blocking read.

A shallow embedding of `library/SDL_console.cpp`, of the facade in
`library/Console-sdl.cpp` and of `Materials::getDescription` in
`dfhack/modules/Materials.cpp`.

* Text is a sequence of code points (`std::u32string`), here `List Char`.
* `Console_Line` objects live on the free store.  The free store is a list of
  cells indexed by address; `new` takes the next address, `delete` empties the
  cell, and reading or writing through a null or released pointer is undefined
  behaviour, which the embedding reports as `none`.
* `size_t` arithmetic wraps modulo `2^64`; `int` values (scroll offset, result
  codes) are integers, and an `int` result of the scroll arithmetic outside
  the range of `int` is undefined behaviour (`none`).
* Rendering (textures, glyph layout, window geometry) is outside the model, and
  so is the size of the stack.
* Threads are interleavings of steps: a step is what a thread does between two
  points at which another thread can see or change what it works on (a
  critical section under a mutex, or a wait on an atomic flag).
-/

namespace SDLConsole

/-- A `std::u32string`: a sequence of code points. -/
abbrev U32String := List Char

/-- The number of values of a `size_t` (64 bit). -/
def SIZE_MOD : Nat := 18446744073709551616

/-- Addition on `size_t`. -/
def size_add (a b : Nat) : Nat := (a + b) % SIZE_MOD

/-- The `default_max_lines` constant. -/
def default_max_lines : Nat := 512

/-- The `default_prompt` constant. -/
def default_prompt : U32String := ['>', ' ']

inductive NavDirection where
  | up | down | page_up | page_down
  deriving DecidableEq

inductive State where
  | claimed | shutdown | unclaimed
  deriving DecidableEq

inductive LineType where
  | input | output
  deriving DecidableEq

/-- The `Console_Line` struct without its render extent; `next` and `prev` are
addresses on the free store, `none` is `nullptr`. -/
structure Console_Line where
  text : U32String
  type : LineType
  selected : Bool
  next : Option Nat
  prev : Option Nat
  deriving DecidableEq

/-- The `Console_Prompt` struct without its textures. -/
structure Console_Prompt where
  prompt_text : U32String
  input : U32String
  rebuild : Bool
  cursor : Nat
  deriving DecidableEq

/-- The key codes that `console_on_key_down` distinguishes. -/
inductive SDL_Keycode where
  | TAB | BACKSPACE | RETURN | c | v | UP | DOWN | PAGEUP | PAGEDOWN | LEFT | RIGHT
  | other
  deriving DecidableEq

/-- The closures that the API functions push on the call queue. -/
inductive ApiCall where
  /-- The closure of `Console_SetPrompt`. -/
  | set_prompt (str : U32String)
  /-- The closure of `Console_AddLine`. -/
  | add_line (str : U32String)
  /-- The closure of `Console_Clear`. -/
  | clear
  /-- The closure of `Console_Shutdown`. -/
  | shutdown
  deriving DecidableEq

/-- The events that `console_process_sdl_event` distinguishes; text input is
carried decoded. -/
inductive SDL_Event where
  | window_resized
  | mousewheel (y : Int)
  | mousebuttondown (right : Bool) (y : Int)
  | keydown (sym : SDL_Keycode)
  | textinput (text : U32String)
  | other
  deriving DecidableEq

/-- The `EventQueue` class: two FIFOs and the `got_some` flag. -/
structure EventQueue where
  sdl_queue : List SDL_Event
  api_queue : List ApiCall
  got_some : Bool
  deriving DecidableEq

/-- The free store of `Console_Line` objects: cell `p` holds the object at
address `p`, or `none` once it has been deleted. -/
abbrev Heap := List (Option Console_Line)

/-- The core fields of `_SDL_console_tty`. -/
structure Console_tty where
  prompt : Console_Prompt
  heap : Heap
  lines_head : Option Nat
  lines_tail : Option Nat
  curr_history : Option Nat
  scroll_offset : Int
  num_lines : Nat
  max_lines : Nat
  input_complete_q : List U32String
  cv_input_completed : Bool
  event_q : EventQueue
  status : State
  deriving DecidableEq

/-- What the window system answers when asked: the Ctrl modifier, the
clipboard text, the number of rows of the window, and whether the extent that
the renderer recorded for the line at an address covers the height of a click. -/
structure SDL_Env where
  ctrl : Bool
  clipboard : U32String
  rows : Int
  covers : Nat → Int → Bool := fun _ _ => false

/-- Read through a pointer; `none` for a released or unallocated address. -/
def deref (heap : Heap) (p : Nat) : Option Console_Line :=
  heap[p]?.join

/-- Write through a pointer: the object at `p` becomes `f` of itself. -/
def assign (heap : Heap) (p : Nat) (f : Console_Line → Console_Line) : Option Heap :=
  (deref heap p).map fun l => heap.set p (some (f l))

/-- The `delete` operator. -/
def release (heap : Heap) (p : Nat) : Heap :=
  heap.set p none

/-- A default-constructed `_SDL_console_tty`, with an empty free store. -/
def Console_tty.init : Console_tty where
  prompt := { prompt_text := [], input := [], rebuild := true, cursor := 0 }
  heap := []
  lines_head := none
  lines_tail := none
  curr_history := none
  scroll_offset := 0
  num_lines := 0
  max_lines := default_max_lines
  input_complete_q := []
  cv_input_completed := false
  event_q := { sdl_queue := [], api_queue := [], got_some := false }
  status := State.unclaimed

/-- The `EventQueue::push_api` method. -/
def EventQueue.push_api (q : EventQueue) (func : ApiCall) : EventQueue :=
  { q with api_queue := q.api_queue ++ [func], got_some := true }

/-- The `EventQueue::push_sdl` method. -/
def EventQueue.push_sdl (q : EventQueue) (event : SDL_Event) : EventQueue :=
  { q with sdl_queue := q.sdl_queue ++ [event], got_some := true }

/-- The scan loop of `console_update_prompt_from_history`: from `line`, follow
`next` (up) or `prev` (any other direction) to the first input line with text.
`some none` is the loop leaving with `line == nullptr`; `none` is a read
through a dangling pointer, or the fuel running out. -/
def history_scan (heap : Heap) (dir : NavDirection) : Nat → Option Nat → Option (Option Nat)
  | 0, _ => none
  | _ + 1, none => some none
  | fuel + 1, some p =>
    match deref heap p with
    | none => none
    | some l =>
      if l.type = LineType.input ∧ l.text ≠ [] then some (some p)
      else history_scan heap dir fuel (if dir = NavDirection.up then l.next else l.prev)

/-- The function `console_update_prompt_from_history`.  The loop visits each
live line at most once in a list without cycles, so one step per cell of the
free store and one more is enough fuel. -/
def console_update_prompt_from_history (tty : Console_tty) (dir : NavDirection) :
    Option Console_tty :=
  match tty.curr_history with
  | none => some tty
  | some cur =>
    (deref tty.heap cur).bind fun c =>
    (history_scan tty.heap dir (tty.heap.length + 1)
        (if dir = NavDirection.up then c.next else c.prev)).bind fun found =>
    match found with
    | none => some tty
    | some line =>
      (deref tty.heap line).map fun l =>
        { tty with
          curr_history := some line
          prompt := { tty.prompt with input := l.text, cursor := l.text.length, rebuild := true } }

/-- The insertion step of `console_create_line` (the `if` on `lines_head`):
the new line at address `line` is linked in front of the head. -/
def console_create_line_insert (tty : Console_tty) (line : Nat) : Option Console_tty :=
  match tty.lines_head with
  | none => do
    let heap ← assign tty.heap line fun l => { l with next := none, prev := none }
    pure { tty with heap := heap, lines_head := some line, lines_tail := some line,
                    num_lines := 0 }
  | some head => do
    let heap ← assign tty.heap line fun l => { l with prev := none, next := some head }
    let heap ← assign heap head fun l => { l with prev := some line }
    pure { tty with heap := heap, lines_head := some line }

/-- The eviction step of `console_create_line` (the `if` on `num_lines`): when
the count equals `max_lines` the tail is unlinked and deleted, otherwise the
count goes up by one. -/
def console_create_line_chop (tty : Console_tty) : Option Console_tty :=
  if tty.num_lines = tty.max_lines then do
    let tail ← tty.lines_tail
    let tail_line ← deref tty.heap tail
    -- tty->lines_tail = tty->lines_tail->prev
    let tail ← tail_line.prev
    let tail_line ← deref tty.heap tail
    -- glDeleteTextures(1, &tty->lines_tail->next->texture); delete tty->lines_tail->next
    let victim ← tail_line.next
    let _ ← deref tty.heap victim
    -- tty->lines_tail->next = nullptr
    let heap ← assign (release tty.heap victim) tail fun l => { l with next := none }
    pure { tty with lines_tail := some tail, heap := heap }
  else
    pure { tty with num_lines := size_add tty.num_lines 1 }

/-- The function `console_create_line`; returns the address of the new line
and the new state.  `new` is taken to succeed, and `new Console_Line()` gives a
line whose links are null. -/
def console_create_line (tty : Console_tty) (line_type : LineType) (text : U32String) :
    Option (Nat × Console_tty) := do
  let line := tty.heap.length
  let tty : Console_tty := { tty with
    heap := tty.heap ++
      [some { text := text, type := line_type, selected := false, next := none, prev := none }] }
  let tty ← console_create_line_insert tty line
  let tty ← console_create_line_chop tty
  -- make sure the current line becomes the new line
  pure (line, { tty with curr_history := tty.lines_head })

/-- The call `console_update_io_texture`, when it returns: it sizes and draws
the texture of a line and returns 0, and none of the fields modelled here
changes.  Fonts, textures and the stack are outside the model: the array of
`w * h` bytes that `console_update_line_texture` puts on the stack for the
line, which a very long line makes larger than the stack, is not carried. -/
def console_update_io_texture (_tty : Console_tty) (_line : Nat) : Int := 0

/-- The function `console_on_new_input_line`: the line is created from `text`,
the queue receives `tty->prompt.input`. -/
def console_on_new_input_line (tty : Console_tty) (text : U32String) :
    Option (Int × Console_tty) :=
  (console_create_line tty LineType.input text).map fun (l, tty) =>
    if console_update_io_texture tty l ≠ 0 then (1, tty)
    else
      (0, { tty with
        input_complete_q := tty.input_complete_q ++ [tty.prompt.input]
        cv_input_completed := true
        prompt := { tty.prompt with input := [], cursor := 0, rebuild := true } })

/-- The function `console_on_new_output_line`. -/
def console_on_new_output_line (tty : Console_tty) (text : U32String) :
    Option (Int × Console_tty) :=
  (console_create_line tty LineType.output text).map fun (l, tty) =>
    if console_update_io_texture tty l ≠ 0 then (1, tty) else (0, tty)

/-- The function `console_on_new_input`, on the decoded text `str`.
`std::u32string::insert` throws for a position beyond the end: `none`. -/
def console_on_new_input (tty : Console_tty) (str : U32String) : Option Console_tty :=
  let input : Option U32String :=
    if tty.prompt.cursor = tty.prompt.input.length then
      some (tty.prompt.input ++ str)
    else if tty.prompt.cursor > tty.prompt.input.length then none
    else some (tty.prompt.input.take tty.prompt.cursor ++ str ++
                 tty.prompt.input.drop tty.prompt.cursor)
  input.map fun input =>
    { tty with prompt := { tty.prompt with
        input := input
        cursor := size_add tty.prompt.cursor str.length
        rebuild := true } }

/-- The function `console_on_remove_input`.  `std::u32string::erase` throws
for a position beyond the end: `none`. -/
def console_on_remove_input (tty : Console_tty) : Option Console_tty :=
  if tty.prompt.cursor = 0 ∨ tty.prompt.input.length = 0 then some tty
  else
    let input : Option U32String :=
      if tty.prompt.input.length = tty.prompt.cursor then
        some tty.prompt.input.dropLast
      else if tty.prompt.cursor > tty.prompt.input.length then none
      else some (tty.prompt.input.eraseIdx tty.prompt.cursor)
    input.map fun input =>
      { tty with prompt := { tty.prompt with
          input := input
          cursor := tty.prompt.cursor - 1
          rebuild := true } }

/-- The smallest value of an `int` (32 bit). -/
def INT_MIN : Int := -2147483648

/-- The largest value of an `int` (32 bit). -/
def INT_MAX : Int := 2147483647

/-- The result of an addition or subtraction on `int`: a result outside the
range of `int` is undefined behaviour, `none`. -/
def int_result (x : Int) : Option Int :=
  if INT_MIN ≤ x ∧ x ≤ INT_MAX then some x else none

/-- The function `console_on_scroll`; `rows` is what `Console_GetRows`
answers.  The offset is an `int`. -/
def console_on_scroll (tty : Console_tty) (rows : Int) (dir : NavDirection) :
    Option Console_tty :=
  (int_result
    (match dir with
      | NavDirection.up => tty.scroll_offset + 1
      | NavDirection.down => tty.scroll_offset - 1
      | NavDirection.page_up => tty.scroll_offset + rows.tdiv 2
      | NavDirection.page_down => tty.scroll_offset - rows.tdiv 2)).map fun offset =>
    { tty with scroll_offset := max 0 offset }

/-- The function `console_on_key_down`.  Copying (Ctrl-C) writes the system
clipboard only, which is not part of the state. -/
def console_on_key_down (env : SDL_Env) (tty : Console_tty) (sym : SDL_Keycode) :
    Option Console_tty :=
  match sym with
  | SDL_Keycode.TAB =>
    (console_on_new_input_line tty ['(', 't', 'a', 'b', ')']).map Prod.snd
  | SDL_Keycode.BACKSPACE => console_on_remove_input tty
  | SDL_Keycode.RETURN => (console_on_new_input_line tty tty.prompt.input).map Prod.snd
  | SDL_Keycode.c => some tty
  | SDL_Keycode.v =>
    if env.ctrl ∧ env.clipboard ≠ [] then console_on_new_input tty env.clipboard
    else some tty
  | SDL_Keycode.UP => console_update_prompt_from_history tty NavDirection.up
  | SDL_Keycode.DOWN => console_update_prompt_from_history tty NavDirection.down
  | SDL_Keycode.PAGEUP => console_on_scroll tty env.rows NavDirection.page_up
  | SDL_Keycode.PAGEDOWN => console_on_scroll tty env.rows NavDirection.page_down
  | SDL_Keycode.LEFT =>
    if tty.prompt.cursor > 0 then
      some { tty with prompt := { tty.prompt with
        cursor := tty.prompt.cursor - 1, rebuild := true } }
    else some tty
  | SDL_Keycode.RIGHT =>
    if tty.prompt.cursor < tty.prompt.input.length then
      some { tty with prompt := { tty.prompt with
        cursor := size_add tty.prompt.cursor 1, rebuild := true } }
    else some tty
  | SDL_Keycode.other => some tty

/-- The function `Console_SetPrompt`, on the decoded prompt. -/
def Console_SetPrompt (tty : Console_tty) (str : U32String) : Console_tty :=
  { tty with event_q := tty.event_q.push_api (ApiCall.set_prompt str) }

/-- The function `Console_SetMaxLines`. -/
def Console_SetMaxLines (tty : Console_tty) (max_lines : Nat) : Console_tty :=
  { tty with max_lines := max_lines }

/-- The function `Console_Shutdown`. -/
def Console_Shutdown (tty : Console_tty) : Console_tty :=
  { tty with
    status := State.shutdown
    event_q := tty.event_q.push_api ApiCall.shutdown
    cv_input_completed := true }

/-- Conversion of a `size_t` to `int` (32 bit, two's complement). -/
def size_to_int (n : Nat) : Int :=
  if n % 4294967296 < 2147483648 then (n % 4294967296 : Nat)
  else ((n % 4294967296 : Nat) : Int) - 4294967296

/-- The function `to_utf8`; a `std::string` is a Lean `String`, whose
`utf8ByteSize` is its `length()`. -/
def to_utf8 (u_str : U32String) : String := String.mk u_str

/-- The function `from_utf8` on `s.c_str()`: a C string ends at the first NUL. -/
def from_utf8 (s : String) : U32String :=
  s.toList.takeWhile fun ch => ch ≠ Char.ofNat 0

/-- Where a call of `Console_ReadLine` or of `lineedit` stands: it has
returned `ret` with output buffer `buf`, or it waits in
`cv_input_completed.wait(false)` with the mutex released. -/
inductive Call (σ : Type) where
  | returned (st : σ) (buf : String) (ret : Int)
  | waiting (st : σ) (buf : String)

/-- The code that a call has returned; `none` while it waits. -/
def Call.ret {σ : Type} : Call σ → Option Int
  | Call.returned _ _ ret => some ret
  | Call.waiting _ _ => none

/-- The part of `Console_ReadLine` that runs once the wait is over and the
mutex is taken again. -/
def Console_ReadLine_wake (tty : Console_tty) (buf : String) : Call Console_tty :=
  match tty.input_complete_q with
  | [] => Call.returned tty buf 0
  | front :: rest =>
    Call.returned { tty with cv_input_completed := false, input_complete_q := rest }
      (to_utf8 front) (size_to_int (to_utf8 front).utf8ByteSize)

/-- The function `Console_ReadLine` up to the point where it returns or has to
wait.  `wait(false)` returns at once when the flag is already set. -/
def Console_ReadLine (tty : Console_tty) (buf : String) : Call Console_tty :=
  if tty.status ≠ State.claimed then Call.returned tty buf 0
  else
    match tty.input_complete_q with
    | [] =>
      if tty.cv_input_completed then Console_ReadLine_wake tty buf
      else Call.waiting tty buf
    | front :: rest =>
      Call.returned { tty with input_complete_q := rest }
        (to_utf8 front) (size_to_int (to_utf8 front).utf8ByteSize)

/-- The method `EventQueue::pop_sdl`; `none` is the answer `false`. -/
def EventQueue.pop_sdl (q : EventQueue) : Option (SDL_Event × EventQueue) :=
  match q.sdl_queue with
  | [] => none
  | event :: rest => some (event, { q with sdl_queue := rest })

/-- The method `EventQueue::pop_api`; `none` is the answer `false`. -/
def EventQueue.pop_api (q : EventQueue) : Option (ApiCall × EventQueue) :=
  match q.api_queue with
  | [] => none
  | func :: rest => some (func, { q with api_queue := rest })

/-- The method `EventQueue::wait_for_events`: while `got_some` is clear the
consumer stays blocked (`none`); otherwise the wait returns and clears it. -/
def EventQueue.wait_for_events (q : EventQueue) : Option EventQueue :=
  if q.got_some then some { q with got_some := false } else none

/-- The loop of `console_clear`: at each line the predecessor is deleted, and
the line itself once it has no successor. -/
def console_clear_loop (heap : Heap) : Nat → Option Nat → Option Heap
  | 0, _ => none
  | _ + 1, none => some heap
  | fuel + 1, some line =>
    (deref heap line).bind fun l =>
    (match l.prev with
      | none => some heap
      | some prev => (deref heap prev).map fun _ => release heap prev).bind fun heap =>
    (deref heap line).bind fun l =>
    match l.next with
    | none => some (release heap line)
    | some next => console_clear_loop heap fuel (some next)

/-- The function `console_clear`.  The loop visits each line once, so one
step per cell of the free store and one more is enough fuel. -/
def console_clear (tty : Console_tty) : Option Console_tty :=
  (console_clear_loop tty.heap (tty.heap.length + 1) tty.lines_head).map fun heap =>
    { tty with heap := heap, lines_head := none, lines_tail := none, num_lines := 0 }

/-- The right-button loop of `console_on_mouse_button_down`: every line from
`l` on is deselected. -/
def deselect_loop (heap : Heap) : Nat → Option Nat → Option Heap
  | 0, _ => none
  | _ + 1, none => some heap
  | fuel + 1, some p =>
    (deref heap p).bind fun l =>
    (assign heap p fun l => { l with selected := false }).bind fun heap =>
    deselect_loop heap fuel l.next

/-- The left-button loop of `console_on_mouse_button_down`: the first line
from `l` on whose extent covers the click has its selection toggled. -/
def toggle_loop (covers : Nat → Bool) (heap : Heap) : Nat → Option Nat → Option Heap
  | 0, _ => none
  | _ + 1, none => some heap
  | fuel + 1, some p =>
    (deref heap p).bind fun l =>
    if covers p then assign heap p fun l => { l with selected := !l.selected }
    else toggle_loop covers heap fuel l.next

/-- The function `console_on_mouse_button_down` for the right (`right`) and
the left button; other buttons are events of kind `other`. -/
def console_on_mouse_button_down (env : SDL_Env) (tty : Console_tty) (right : Bool)
    (y : Int) : Option Console_tty :=
  (if right then deselect_loop tty.heap (tty.heap.length + 1) tty.lines_head
   else toggle_loop (fun p => env.covers p y) tty.heap (tty.heap.length + 1)
     tty.lines_head).map fun heap => { tty with heap := heap }

/-- The function `console_process_sdl_event`.  A resize only lays out and
draws again (`console_on_view_update`). -/
def console_process_sdl_event (env : SDL_Env) (tty : Console_tty) (e : SDL_Event) :
    Option Console_tty :=
  match e with
  | SDL_Event.window_resized => some tty
  | SDL_Event.mousewheel y =>
    if y > 0 then console_on_scroll tty env.rows NavDirection.up
    else if y < 0 then console_on_scroll tty env.rows NavDirection.down
    else some tty
  | SDL_Event.mousebuttondown right y => console_on_mouse_button_down env tty right y
  | SDL_Event.keydown sym => console_on_key_down env tty sym
  | SDL_Event.textinput text => console_on_new_input tty text
  | SDL_Event.other => some tty

/-- Running a queued closure (`f()` in `Console_Draw`). -/
def ApiCall.run (f : ApiCall) (tty : Console_tty) : Option Console_tty :=
  match f with
  | ApiCall.set_prompt str =>
    some { tty with prompt := { tty.prompt with prompt_text := str, rebuild := true } }
  | ApiCall.add_line str => (console_on_new_output_line tty str).map Prod.snd
  | ApiCall.clear => console_clear tty
  | ApiCall.shutdown => some { tty with status := State.shutdown }

/-- The function `Console_AddLine`, on the decoded text. -/
def Console_AddLine (tty : Console_tty) (str : U32String) : Console_tty :=
  { tty with event_q := tty.event_q.push_api (ApiCall.add_line str) }

/-- The function `Console_Clear`. -/
def Console_Clear (tty : Console_tty) : Console_tty :=
  { tty with event_q := tty.event_q.push_api ApiCall.clear }

/-- The core of `Console_Create` on `tty_list[0]`: when the window, the GL
context, the font and the shaders could be set up (`surface`), the prompt text
becomes `default_prompt` and the status `claimed`; otherwise the result is
`nullptr`.  The argument `prompt` is not used by the function. -/
def Console_Create (tty : Console_tty) (_title _prompt : String) (_font_size : Int)
    (surface : Bool) : Option Console_tty :=
  if surface then
    some { tty with
      prompt := { tty.prompt with prompt_text := default_prompt }
      status := State.claimed }
  else none

/-- The function `console_render` as far as the state goes: a prompt marked
for rebuild is drawn again and the mark is cleared; the result is 0. -/
def console_render (tty : Console_tty) : Console_tty :=
  if tty.prompt.rebuild then { tty with prompt := { tty.prompt with rebuild := false } }
  else tty

/-- The loop `while (tty->event_q.pop_sdl(event))` of `Console_Draw`. -/
def drain_sdl (env : SDL_Env) : Nat → Console_tty → Option Console_tty
  | 0, _ => none
  | fuel + 1, tty =>
    match tty.event_q.pop_sdl with
    | none => some tty
    | some (event, q) =>
      (console_process_sdl_event env { tty with event_q := q } event).bind
        (drain_sdl env fuel)

/-- The loop `while (tty->event_q.pop_api(f))` of `Console_Draw`. -/
def drain_api : Nat → Console_tty → Option Console_tty
  | 0, _ => none
  | fuel + 1, tty =>
    match tty.event_q.pop_api with
    | none => some tty
    | some (f, q) => (f.run { tty with event_q := q }).bind (drain_api fuel)

/-- The block of `Console_Draw` under the mutex: all raw events, then all
calls.  No handler and no closure pushes on a queue, so each loop runs once
per queued item and once more. -/
def Console_Draw_drain (env : SDL_Env) (tty : Console_tty) : Option Console_tty :=
  (drain_sdl env (tty.event_q.sdl_queue.length + 1) tty).bind fun tty =>
    drain_api (tty.event_q.api_queue.length + 1) tty

/-- Where one pass of the loop of `Console_Draw` ends. -/
inductive Pass where
  /-- The consumer waits in `wait_for_events`. -/
  | blocked (tty : Console_tty)
  /-- A handler ran into undefined behaviour. -/
  | undefined
  /-- The loop goes on and renders again. -/
  | again (tty : Console_tty)
  /-- The function `Console_Draw` returns. -/
  | exit (tty : Console_tty) (ret : Int)

/-- The loop of `Console_Draw` from `wait_for_events` to the end of the body:
wait, drain, and leave the loop when the status is `shutdown`. -/
def Console_Draw_resume (env : SDL_Env) (tty : Console_tty) : Pass :=
  match tty.event_q.wait_for_events with
  | none => Pass.blocked tty
  | some q =>
    match Console_Draw_drain env { tty with event_q := q } with
    | none => Pass.undefined
    | some tty => if tty.status = State.shutdown then Pass.exit tty 0 else Pass.again tty

/-- One pass of the loop of `Console_Draw`; `err` says whether the error
string holds a message. -/
def Console_Draw_pass (env : SDL_Env) (err : Bool) (tty : Console_tty) : Pass :=
  if err then Pass.exit tty (-1) else Console_Draw_resume env (console_render tty)

/-! ## Observations used to state the properties -/

/-- The predicate `Chain heap pv p as`: following `next` from `p` visits
exactly the addresses `as` and then `nullptr`, and every visited line points
back with `prev` to the one before it (to `pv` for the first). -/
def Chain (heap : Heap) : Option Nat → Option Nat → List Nat → Prop
  | _, p, [] => p = none
  | pv, p, a :: as =>
    p = some a ∧ ∃ l, deref heap a = some l ∧ l.prev = pv ∧ Chain heap (some a) l.next as

/-- The line store of `tty` is a well-formed doubly linked list over the
addresses `as`, newest first: the head starts the chain, the tail is its last
line, no line occurs twice and `num_lines` counts the lines. -/
structure Linked (tty : Console_tty) (as : List Nat) : Prop where
  chain : Chain tty.heap none tty.lines_head as
  tail : tty.lines_tail = as.getLast?
  nodup : as.Nodup
  count : tty.num_lines = as.length

/-- What a cell holds apart from its links: text, kind and selection. -/
def content (heap : Heap) (p : Nat) : Option (U32String × LineType × Bool) :=
  (deref heap p).map fun l => (l.text, l.type, l.selected)

/-- The addresses met by following `next` from `p`, as the loops
`for (l = tty->lines_head; l; l = l->next)` do. -/
def walk (heap : Heap) : Nat → Option Nat → List Nat
  | 0, _ => []
  | _ + 1, none => []
  | fuel + 1, some p =>
    match deref heap p with
    | none => []
    | some l => p :: walk heap fuel l.next

/-- The addresses of the stored lines, from the head. -/
def lines (tty : Console_tty) : List Nat :=
  walk tty.heap tty.heap.length tty.lines_head

/-- Kind and text of the line at address `p`. -/
def entry (heap : Heap) (p : Nat) : Option (LineType × U32String) :=
  (content heap p).map fun c => (c.2.1, c.1)

/-- Kind and text of the stored lines, from the head. -/
def entries (tty : Console_tty) : List (LineType × U32String) :=
  (lines tty).filterMap (entry tty.heap)

/-- A sequence of `console_create_line` calls, each on the state left by the
one before. -/
def create_lines (tty : Console_tty) : List (LineType × U32String) → Option Console_tty
  | [] => some tty
  | (k, t) :: rest => (console_create_line tty k t).bind fun r => create_lines r.2 rest

/-! ## History navigation: observations -/

/-- The pointer that the history scan follows from a line: `next` for up,
`prev` for every other direction. -/
def history_step (dir : NavDirection) (l : Console_Line) : Option Nat :=
  if dir = NavDirection.up then l.next else l.prev

/-- The predicate `Path heap dir p as`: following the pointer of direction
`dir` from `p` visits exactly the live lines `as` and then `nullptr`. -/
def Path (heap : Heap) (dir : NavDirection) : Option Nat → List Nat → Prop
  | p, [] => p = none
  | p, a :: as => p = some a ∧ ∃ l, deref heap a = some l ∧ Path heap dir (history_step dir l) as

/-- The line at `a` is an input line with text in it. -/
def qualifies (heap : Heap) (a : Nat) : Bool :=
  match deref heap a with
  | some l => decide (l.type = LineType.input ∧ l.text ≠ [])
  | none => false

/-- The lines strictly beyond the line between `pre` and `post` (in store order,
newest first), nearest first: the older ones for up, the newer ones otherwise. -/
def beyond (dir : NavDirection) (pre post : List Nat) : List Nat :=
  if dir = NavDirection.up then post else pre.reverse

/-- A sequence of history recalls, each on the state left by the one before. -/
def recalls (tty : Console_tty) : List NavDirection → Option Console_tty
  | [] => some tty
  | dir :: rest => (console_update_prompt_from_history tty dir).bind fun s => recalls s rest

/-- The state after a recall that lands on `line`, whose text is `text`. -/
def recalled (tty : Console_tty) (line : Nat) (text : U32String) : Console_tty :=
  { tty with
    curr_history := some line
    prompt := { tty.prompt with input := text, cursor := text.length, rebuild := true } }

/-- The history cursor of `s` stands on an input line with text, and the prompt
holds that text with the cursor at its end. -/
def on_recalled_line (s : Console_tty) : Prop :=
  ∃ a l, s.curr_history = some a ∧ deref s.heap a = some l ∧
    l.type = LineType.input ∧ l.text ≠ [] ∧
    s.prompt.input = l.text ∧ s.prompt.cursor = l.text.length ∧ s.prompt.rebuild = true

/-- Whether `Chain` holds is found by running along the list. -/
def Chain.decide (heap : Heap) : ∀ (as : List Nat) (pv p : Option Nat),
    Decidable (Chain heap pv p as)
  | [], _, p => inferInstanceAs (Decidable (p = none))
  | a :: as, pv, p =>
    match h : deref heap a with
    | none => isFalse fun ⟨_, l, hl, _⟩ => by rw [h] at hl; cases hl
    | some l =>
      match Chain.decide heap as (some a) l.next with
      | isTrue hc =>
        if hp : p = some a ∧ l.prev = pv then isTrue ⟨hp.1, l, h, hp.2, hc⟩
        else isFalse fun ⟨h1, l2, hl2, h2, _⟩ => by
          rw [h] at hl2
          cases hl2
          exact hp ⟨h1, h2⟩
      | isFalse hc => isFalse fun ⟨_, l2, hl2, _, h3⟩ => by
          rw [h] at hl2
          cases hl2
          exact hc h3

instance (heap : Heap) (as : List Nat) (pv p : Option Nat) : Decidable (Chain heap pv p as) :=
  Chain.decide heap as pv p

instance (tty : Console_tty) (as : List Nat) : Decidable (Linked tty as) :=
  decidable_of_iff
    (Chain tty.heap none tty.lines_head as ∧ tty.lines_tail = as.getLast? ∧
      as.Nodup ∧ tty.num_lines = as.length)
    ⟨fun h => ⟨h.1, h.2.1, h.2.2.1, h.2.2.2⟩, fun h => ⟨h.chain, h.tail, h.nodup, h.count⟩⟩

/-- The store of the history scenario: the input lines "help", "", "ls", "" committed
in this order, so that they are stored newest first as "", "ls", "", "help" at the
addresses 3, 2, 1, 0, with the history cursor on the head as the last insertion
leaves it. -/
def history_example : Console_tty :=
  (create_lines Console_tty.init
    [(LineType.input, "help".toList), (LineType.input, []), (LineType.input, "ls".toList),
     (LineType.input, [])]).getD Console_tty.init

/-- A prompt holding the input "abd" with the cursor at 2, before the `d`. -/
def prompt_example : Console_tty :=
  { Console_tty.init with
    prompt := { Console_tty.init.prompt with input := "abd".toList, cursor := 2 } }

/-- The state `s` agrees with `tty` on everything but the line store (free
store, head, tail, count) and the history cursor. -/
structure StoreOnly (tty s : Console_tty) : Prop where
  prompt : s.prompt = tty.prompt
  scroll_offset : s.scroll_offset = tty.scroll_offset
  max_lines : s.max_lines = tty.max_lines
  input_complete_q : s.input_complete_q = tty.input_complete_q
  cv_input_completed : s.cv_input_completed = tty.cv_input_completed
  event_q : s.event_q = tty.event_q
  status : s.status = tty.status

/-- The raw events `es` applied in order, each to the state in which the queue holds the
events after it. -/
def apply_events (env : SDL_Env) : List SDL_Event → Console_tty → Option Console_tty
  | [], tty => some tty
  | e :: rest, tty =>
    (console_process_sdl_event env
      { tty with event_q := { tty.event_q with sdl_queue := rest } } e).bind
      (apply_events env rest)

/-- The calls `fs` run in order, each on the state in which the queue holds the calls
after it. -/
def apply_calls : List ApiCall → Console_tty → Option Console_tty
  | [], tty => some tty
  | f :: rest, tty =>
    (f.run { tty with event_q := { tty.event_q with api_queue := rest } }).bind
      (apply_calls rest)

/-- The state in which a call has returned or waits. -/
def Call.state {σ : Type} : Call σ → σ
  | Call.returned st _ _ => st
  | Call.waiting st _ => st

/-- The output buffer of a call. -/
def Call.buf {σ : Type} : Call σ → String
  | Call.returned _ buf _ => buf
  | Call.waiting _ buf => buf

/-- The first `n` calls of `Console_ReadLine` in a row: the buffers they fill,
in order, and the state they leave; `none` if one of them has to wait. -/
def read_lines : Nat → Console_tty → Option (List String × Console_tty)
  | 0, tty => some ([], tty)
  | n + 1, tty =>
    match Console_ReadLine tty "" with
    | Call.returned tty2 buf _ => (read_lines n tty2).map fun r => (buf :: r.1, r.2)
    | Call.waiting _ _ => none

/-- The cursor of the prompt lies within the input. -/
def cursor_ok (tty : Console_tty) : Prop :=
  tty.prompt.cursor ≤ tty.prompt.input.length

/-- The store of the history scenario after one recall upwards: the history
cursor is on "ls" (address 2) and the prompt holds "ls". -/
def recalled_example : Console_tty :=
  recalled history_example 2 "ls".toList

/-- The store of the history scenario with "dir" typed at the prompt and not
yet committed. -/
def typing_example : Console_tty :=
  { history_example with
    prompt := { history_example.prompt with input := "dir".toList, cursor := 3 } }

/-- The operations on the line store: `console_create_line`, `console_clear`
and `Console_SetMaxLines`. -/
inductive StoreOp where
  | create_line (line_type : LineType) (text : U32String)
  | clear
  | set_max_lines (max_lines : Nat)
  deriving DecidableEq

/-- One operation on the line store. -/
def StoreOp.run : StoreOp → Console_tty → Option Console_tty
  | StoreOp.create_line line_type text, tty =>
    (console_create_line tty line_type text).map Prod.snd
  | StoreOp.clear, tty => console_clear tty
  | StoreOp.set_max_lines max_lines, tty => some (Console_SetMaxLines tty max_lines)

/-- A sequence of operations on the line store, each on the state left by the
one before. -/
def run_ops : List StoreOp → Console_tty → Option Console_tty
  | [], tty => some tty
  | op :: rest, tty => (op.run tty).bind (run_ops rest)

/-- Where the render thread stands in the loop of `Console_Draw`. -/
inductive RenderPc where
  /-- Inside `got_some.wait(false)` of `wait_for_events`. -/
  | waiting
  /-- The wait has returned; the two queue mutexes are still to be taken. -/
  | woken
  /-- At `while (tty->event_q.pop_sdl(event))`. -/
  | drain_sdl
  /-- At `while (tty->event_q.pop_api(f))`. -/
  | drain_api
  /-- A handler or a closure ran into undefined behaviour. -/
  | undefined
  /-- The function `Console_Draw` has returned 0. -/
  | exited
  deriving DecidableEq

/-- The render thread and the threads that push, around one console.
`sdl_mutex` names the thread that is inside `push_sdl`, holding the mutex,
after `sdl_queue.push(event)` and before `got_some = true`; `api_mutex`
likewise for `push_api`.  The four lists are history: what has been pushed on
each queue and what the render thread has popped from it, in order. -/
structure Threads where
  tty : Console_tty
  render : RenderPc
  sdl_mutex : Option Nat
  api_mutex : Option Nat
  sdl_pushed : List SDL_Event
  api_pushed : List ApiCall
  sdl_drained : List SDL_Event
  api_drained : List ApiCall

/-- What a thread does next. -/
inductive Move where
  /-- The first half of `push_sdl`: lock `sdl_mutex`, `sdl_queue.push(event)`. -/
  | push_sdl_begin (thread : Nat) (event : SDL_Event)
  /-- The second half of `push_sdl`: `got_some = true`, unlock, notify. -/
  | push_sdl_end (thread : Nat)
  /-- The first half of `push_api`: lock `api_mutex`, `api_queue.push(func)`. -/
  | push_api_begin (thread : Nat) (func : ApiCall)
  /-- The second half of `push_api`: `got_some = true`, unlock, notify. -/
  | push_api_end (thread : Nat)
  /-- The next step of the render thread. -/
  | render
  deriving DecidableEq

/-- The state when `Console_Draw` first reaches `wait_for_events`: it has
rendered once, no thread is inside a push, nothing is recorded. -/
def Threads.start (tty : Console_tty) : Threads :=
  { tty := console_render tty, render := RenderPc.waiting, sdl_mutex := none, api_mutex := none,
    sdl_pushed := [], api_pushed := [], sdl_drained := [], api_drained := [] }

/-- The next step of the render thread in the loop of `Console_Draw`; `none`
when it cannot move: it waits for `got_some`, or for a mutex that a pushing
thread holds, or it has left the loop.  The method `wait_for_events` takes
two steps: the wait returns (when `wait_for_events` can return), and then,
under both queue mutexes, the flag is cleared (the queue becomes the one that
`wait_for_events` returns).  The error string is taken to stay empty. -/
def Threads.render_step (env : SDL_Env) (s : Threads) : Option Threads :=
  match s.render with
  | RenderPc.waiting =>
    if s.tty.event_q.wait_for_events.isSome then some { s with render := RenderPc.woken }
    else none
  | RenderPc.woken =>
    if s.sdl_mutex = none ∧ s.api_mutex = none then
      s.tty.event_q.wait_for_events.map fun q =>
        { s with tty := { s.tty with event_q := q }, render := RenderPc.drain_sdl }
    else none
  | RenderPc.drain_sdl =>
    if s.sdl_mutex = none then
      match s.tty.event_q.pop_sdl with
      | none => some { s with render := RenderPc.drain_api }
      | some (event, q) =>
        match console_process_sdl_event env { s.tty with event_q := q } event with
        | none =>
          some { s with
            tty := { s.tty with event_q := q }
            render := RenderPc.undefined
            sdl_drained := s.sdl_drained ++ [event] }
        | some tty => some { s with tty := tty, sdl_drained := s.sdl_drained ++ [event] }
    else none
  | RenderPc.drain_api =>
    if s.api_mutex = none then
      match s.tty.event_q.pop_api with
      | none =>
        if s.tty.status = State.shutdown then some { s with render := RenderPc.exited }
        else some { s with tty := console_render s.tty, render := RenderPc.waiting }
      | some (f, q) =>
        match f.run { s.tty with event_q := q } with
        | none =>
          some { s with
            tty := { s.tty with event_q := q }
            render := RenderPc.undefined
            api_drained := s.api_drained ++ [f] }
        | some tty => some { s with tty := tty, api_drained := s.api_drained ++ [f] }
    else none
  | RenderPc.undefined => none
  | RenderPc.exited => none

/-- One move of one thread; `none` when the thread cannot make it now. -/
def Threads.move (env : SDL_Env) (s : Threads) : Move → Option Threads
  | Move.push_sdl_begin thread event =>
    if s.sdl_mutex = none ∧ s.api_mutex ≠ some thread then
      some { s with
        tty := { s.tty with event_q := { s.tty.event_q with
          sdl_queue := s.tty.event_q.sdl_queue ++ [event] } }
        sdl_mutex := some thread
        sdl_pushed := s.sdl_pushed ++ [event] }
    else none
  | Move.push_sdl_end thread =>
    if s.sdl_mutex = some thread then
      some { s with
        tty := { s.tty with event_q := { s.tty.event_q with got_some := true } }
        sdl_mutex := none }
    else none
  | Move.push_api_begin thread func =>
    if s.api_mutex = none ∧ s.sdl_mutex ≠ some thread then
      some { s with
        tty := { s.tty with event_q := { s.tty.event_q with
          api_queue := s.tty.event_q.api_queue ++ [func] } }
        api_mutex := some thread
        api_pushed := s.api_pushed ++ [func] }
    else none
  | Move.push_api_end thread =>
    if s.api_mutex = some thread then
      some { s with
        tty := { s.tty with event_q := { s.tty.event_q with got_some := true } }
        api_mutex := none }
    else none
  | Move.render => s.render_step env

/-- An interleaving: the moves are made one after the other; `none` when one
of them cannot be made. -/
def Threads.run (env : SDL_Env) : List Move → Threads → Option Threads
  | [], s => some s
  | m :: rest, s => (s.move env m).bind (Threads.run env rest)

/-- An interleaving of three pushing threads with the render thread: thread 1
pushes a text event and thread 2 a prompt update, their halves interleaved
with each other and with the wake-up of the render thread; thread 3 pushes a
second text event while the render thread drains the first; the render thread
then drains the rest and comes back to its wait. -/
def interleaving_example : List Move :=
  [Move.push_sdl_begin 1 (SDL_Event.textinput ['a']),
   Move.push_api_begin 2 (ApiCall.set_prompt ['$', ' ']),
   Move.push_sdl_end 1, Move.render, Move.push_api_end 2, Move.render, Move.render,
   Move.push_sdl_begin 3 (SDL_Event.textinput ['b']), Move.push_sdl_end 3,
   Move.render, Move.render, Move.render, Move.render]

/-- The state that `interleaving_example` leads to from a fresh console. -/
def interleaved_example : Threads :=
  (Threads.run { ctrl := false, clipboard := [], rows := 24 } interleaving_example
    (Threads.start Console_tty.init)).getD (Threads.start Console_tty.init)

/-- What holds in every state that the threads can reach: a render thread
past the wait has seen the flag set; a render thread that waits or drains the
calls with the flag clear has no raw event queued unless a push is under way,
and one that waits with the flag clear has no call queued unless a push is
under way; and on each queue what has been pushed is what has been popped
followed by what is queued. -/
structure Threads.Inv (s : Threads) : Prop where
  woken : s.render = RenderPc.woken → s.tty.event_q.got_some = true
  waiting_sdl : s.render = RenderPc.waiting → s.tty.event_q.got_some = false →
    s.sdl_mutex = none → s.tty.event_q.sdl_queue = []
  waiting_api : s.render = RenderPc.waiting → s.tty.event_q.got_some = false →
    s.api_mutex = none → s.tty.event_q.api_queue = []
  drain_api : s.render = RenderPc.drain_api → s.tty.event_q.got_some = false →
    s.sdl_mutex = none → s.tty.event_q.sdl_queue = []
  sdl : s.sdl_pushed = s.sdl_drained ++ s.tty.event_q.sdl_queue
  api : s.api_pushed = s.api_drained ++ s.tty.event_q.api_queue

end SDLConsole

namespace DFHack

open SDLConsole

/-- The result codes of `Console::lineedit` declared in `Console.h`. -/
structure lineedit_result where
  FAILURE : Int
  SHUTDOWN : Int
  RETRY : Int

/-- Modelled from the spec: the header `Console.h` with the values of
`Console::FAILURE`, `Console::SHUTDOWN` and `Console::RETRY` is not among the
sources.  The spec keeps the outcomes `Retry` and `Shutdown` of `readLine`
apart from each other and from a line of text, whose length is not negative. -/
def Console_h : lineedit_result := { FAILURE := -1, SHUTDOWN := -2, RETRY := -3 }

/-- The `Private::console_state` enum. -/
inductive console_state where
  | con_unclaimed | con_claimed | con_shutdown
  deriving DecidableEq

/-- The fields of `Private` that the line editor uses; `tty` holds the state
of the console that the pointer refers to, `none` is `nullptr`. -/
structure Private where
  tty : Option Console_tty
  prompt : String
  status : console_state

/-- The fields of `Console` that the line editor uses. -/
structure Console where
  d : Option Private
  inited : Bool

/-- The method `Private::is_shutdown`. -/
def Private.is_shutdown (p : Private) : Bool :=
  p.status = console_state.con_shutdown

/-- The end of `Private::lineedit`, after `Console_ReadLine` has returned. -/
def Private.lineedit_ret (rc : lineedit_result) (ret : Int) : Int :=
  if ret = 0 then rc.RETRY else ret

/-- Put the state of the console back behind the `tty` pointer. -/
def Private.with_tty (p : Private) (r : Call Console_tty) (rc : lineedit_result) :
    Call Private :=
  match r with
  | Call.returned tty buf ret =>
    Call.returned { p with tty := some tty } buf (Private.lineedit_ret rc ret)
  | Call.waiting tty buf => Call.waiting { p with tty := some tty } buf

/-- The method `Private::lineedit` up to the point where it returns or waits
inside `Console_ReadLine`; `none` is a call through a null `tty`. -/
def Private.lineedit (rc : lineedit_result) (p : Private) (prompt : String)
    ( output : String) : Option (Call Private) :=
  if p.is_shutdown then some (Call.returned p output rc.SHUTDOWN)
  else
    p.tty.map fun tty =>
      if prompt ≠ p.prompt then
        Private.with_tty { p with prompt := prompt }
          (Console_ReadLine (Console_SetPrompt tty (from_utf8 prompt)) output) rc
      else Private.with_tty p (Console_ReadLine tty output) rc

/-- The method `Private::lineedit` from the point where the wait inside
`Console_ReadLine` is over. -/
def Private.lineedit_wake (rc : lineedit_result) (p : Private) ( output : String) :
    Option (Call Private) :=
  p.tty.map fun tty => Private.with_tty p (Console_ReadLine_wake tty output) rc

/-- The end of `Console::lineedit`, after `d->lineedit` has returned. -/
def Console.lineedit_ret (rc : lineedit_result) (c : Console) (r : Call Private) :
    Call Console :=
  match r with
  | Call.returned p buf ret =>
    if ret = rc.SHUTDOWN then Call.returned { d := some p, inited := false } buf ret
    else if ret = 0 then Call.returned { c with d := some p } buf rc.RETRY
    else Call.returned { c with d := some p } buf ret
  | Call.waiting p buf => Call.waiting { c with d := some p } buf

/-- The method `Console::lineedit` up to the point where it returns or waits
inside `Console_ReadLine`. -/
def Console.lineedit (rc : lineedit_result) (c : Console) (prompt : String)
    ( output : String) : Option (Call Console) :=
  if !c.inited then some (Call.returned c output rc.SHUTDOWN)
  else
    c.d.bind fun p => (Private.lineedit rc p prompt output).map (Console.lineedit_ret rc c)

/-- The method `Console::lineedit` from the point where the wait inside
`Console_ReadLine` is over. -/
def Console.lineedit_wake (rc : lineedit_result) (c : Console) ( output : String) :
    Option (Call Console) :=
  c.d.bind fun p => (Private.lineedit_wake rc p output).map (Console.lineedit_ret rc c)

/-- The method `Private::shutdown` up to the point where it joins the render
thread: the status is set and `Console_Shutdown` has run. -/
def Private.shutdown_signal (p : Private) : Option Private :=
  if p.status = console_state.con_unclaimed then some p
  else p.tty.map fun tty =>
    { p with status := console_state.con_shutdown, tty := some (Console_Shutdown tty) }

/-- The method `Console::shutdown` up to the point where `d->shutdown()` joins
the render thread; `inited` is cleared only after the join. -/
def Console.shutdown_signal (c : Console) : Option Console :=
  match c.d with
  | none => some c
  | some p =>
    if !c.inited then some c
    else (Private.shutdown_signal p).map fun p2 => { c with d := some p2 }

/-- A reader woken by shutdown: `Console::lineedit` is called and has to wait,
another thread runs `Console::shutdown` up to its join, which sets the wake
flag, and the reader goes on from its wait.  The value is the code that the
reader's `lineedit` returns; `none` if the call did not wait. -/
def lineedit_woken_by_shutdown (rc : lineedit_result) (c : Console) (prompt : String)
    ( output : String) : Option Int :=
  match Console.lineedit rc c prompt output with
  | some (Call.waiting c1 buf) =>
    (Console.shutdown_signal c1).bind fun c2 =>
      (Console.lineedit_wake rc c2 buf).bind Call.ret
  | _ => none

/-- A `Private` as its constructor leaves it. -/
def Private.new : Private :=
  { tty := none, prompt := "", status := console_state.con_unclaimed }

/-- A `Console` as its constructor leaves it. -/
def Console.new : Console :=
  { d := none, inited := false }

/-- The method `Private::is_running`. -/
def Private.is_running (p : Private) : Bool :=
  p.status = console_state.con_claimed

/-- The method `Private::init`, seen from the caller once the handshake
`status.wait(con_unclaimed)` is over: the render thread has run
`Console_Create` on `tty_list[0]` (state `tty0`) and reported `con_claimed`
or, for a null result, `con_shutdown`. -/
def Private.init (p : Private) (tty0 : Console_tty) (surface : Bool) : Private × Bool :=
  match Console_Create tty0 "DFHack Console" p.prompt 16 surface with
  | none =>
    ({ p with tty := none, status := console_state.con_shutdown },
      Private.is_running { p with tty := none, status := console_state.con_shutdown })
  | some tty =>
    ({ p with tty := some tty, status := console_state.con_claimed },
      Private.is_running { p with tty := some tty, status := console_state.con_claimed })

/-- The method `Console::init`: `d = new Private(); inited = d->init();
return inited;`. -/
def Console.init (_c : Console) (tty0 : Console_tty) (surface : Bool) : Console × Bool :=
  ({ d := some (Private.init Private.new tty0 surface).1,
     inited := (Private.init Private.new tty0 surface).2 },
    (Private.init Private.new tty0 surface).2)

/-- Where a call of `shutdown` stands: it has returned, or it waits in
`render_thread.join()`. -/
inductive Progress (σ : Type) where
  | returned (st : σ)
  | joining (st : σ)

/-- The method `Private::shutdown` up to the point where it returns or joins
the render thread. -/
def Private.shutdown (p : Private) : Option (Progress Private) :=
  if p.status = console_state.con_unclaimed then some (Progress.returned p)
  else p.tty.map fun tty =>
    Progress.joining
      { p with status := console_state.con_shutdown, tty := some (Console_Shutdown tty) }

/-- The end of `Private::shutdown`, after the join: `status = con_unclaimed`.
The state behind `tty` is left as it was when the join began; what the render
thread does to it before it ends (the last drain and `Console_Destroy`) is not
carried over. -/
def Private.shutdown_joined (p : Private) : Private :=
  { p with status := console_state.con_unclaimed }

/-- The method `Console::shutdown` up to the point where it returns (`true`)
or `d->shutdown()` joins the render thread. -/
def Console.shutdown (c : Console) : Option (Progress Console) :=
  match c.d with
  | none => some (Progress.returned c)
  | some p =>
    if !c.inited then some (Progress.returned c)
    else (Private.shutdown p).map fun r =>
      match r with
      | Progress.returned p2 => Progress.returned { d := some p2, inited := false }
      | Progress.joining p2 => Progress.joining { c with d := some p2 }

/-- The end of `Console::shutdown`, after the join inside `d->shutdown()`:
`d->shutdown()` finishes and `inited = false`. -/
def Console.shutdown_joined (c : Console) : Console :=
  { d := c.d.map Private.shutdown_joined, inited := false }

/-- A console in the state after a successful start: inited, claimed on both levels,
no line committed and the wake flag clear. -/
def claimed_example : Console :=
  { d := some { tty := some { Console_tty.init with status := State.claimed }
                prompt := ""
                status := console_state.con_claimed }
    inited := true }

/-- The state of the console that the facade refers to, if any. -/
def Console.tty (c : Console) : Option Console_tty :=
  c.d.bind fun p => p.tty

/-- A console between the join of the render thread and the clearing of `inited` in
`Console::shutdown`: the session is torn down (`unclaimed` on both levels) while
`inited` is still set. -/
def torn_down_example : Console :=
  { d := some { tty := some { Console_tty.init with status := State.unclaimed }
                prompt := ""
                status := console_state.con_unclaimed }
    inited := true }

/-- A claimed console with the lines "ls" and "help" committed and not yet read. -/
def claimed_queue_example : Console :=
  { d := some { tty := some { Console_tty.init with
                  status := State.claimed, input_complete_q := ["ls".toList, "help".toList] }
                prompt := ""
                status := console_state.con_claimed }
    inited := true }

/-- A call of the C library that `Console::msleep` makes. -/
inductive Delay where
  | sleep (seconds : Nat)
  | usleep (usec : Nat)
  deriving DecidableEq

/-- The number of values of an `unsigned int` (32 bit). -/
def UINT_MOD : Nat := 4294967296

/-- The method `Console::msleep`, as the library calls it makes, in order; `msec`
is an `unsigned int` and so is the arithmetic. -/
def Console.msleep (msec : Nat) : List Delay :=
  (if msec > 1000 then [Delay.sleep (msec / 1000000)] else []) ++
    [Delay.usleep (((msec % 1000000) * 1000) % UINT_MOD)]

/-- The time that a library call waits, in microseconds. -/
def Delay.usec : Delay → Nat
  | Delay.sleep seconds => seconds * 1000000
  | Delay.usleep usec => usec

/-- The time that a sequence of library calls waits in all, in microseconds. -/
def requested_usec (calls : List Delay) : Nat :=
  (calls.map Delay.usec).sum

/-- The fields of `t_material` that `getDescription` reads.  The struct is
declared in a header that is not among the sources; `index` is signed, as the
test `mat.index>=0` shows, and the fields are integers of whatever width. -/
structure t_material where
  itemType : Int
  subType : Int
  index : Int

/-- The field of `t_matgloss` that `getDescription` reads (the struct is declared
in a header that is not among the sources). -/
structure t_matgloss where
  id : String

/-- The method `Materials::getDescription`; `inorganic` is the vector
`this->inorganic`.  `operator[]` beyond the end of a vector is undefined
behaviour: `none`.  For an index that is not negative the comparison with
`size()` is exact whatever the integer conversions. -/
def Materials.getDescription (inorganic : List t_matgloss) (mat : t_material) :
    Option String :=
  if mat.itemType = 0 then
    if mat.index ≥ 0 then
      if mat.index.toNat ≤ inorganic.length then
        inorganic[mat.index.toNat]?.map fun m => "".append m.id ++ " bar"
      else some "invalid bar"
    else some "any metal bar"
  else if mat.itemType = 1 then some "cut gem"
  else if mat.itemType = 2 then some "block"
  else if mat.itemType = 3 then
    if mat.subType = 3 then some "raw green glass"
    else if mat.subType = 4 then some "raw clear glass"
    else if mat.subType = 5 then some "raw crystal glass"
    else some "raw gems"
  else if mat.itemType = 4 then some "raw stone"
  else if mat.itemType = 5 then some "wood log"
  else if mat.itemType = 24 then some "weapon?"
  else if mat.itemType = 26 then some "footwear"
  else if mat.itemType = 28 then some "headwear"
  else if mat.itemType = 54 then some "leather"
  else if mat.itemType = 57 then some "cloth"
  else if mat.itemType = 71 then some "food"
  else some "unknown"

/-- A claimed session with "ls" typed at the prompt and not yet committed. -/
def typed_example : Console_tty :=
  { Console_tty.init with
    status := State.claimed
    prompt := { Console_tty.init.prompt with input := "ls".toList, cursor := 2 } }

/-- Calls of `Console::lineedit` one after the other by one thread, each given
by its prompt and its buffer: the codes they return, in order, and the console
they leave; `none` if one of them has to wait or goes through a null pointer. -/
def lineedits (rc : lineedit_result) : List (String × String) → Console →
    Option (List Int × Console)
  | [], c => some ([], c)
  | (prompt, output) :: rest, c =>
    match Console.lineedit rc c prompt output with
    | some (Call.returned c2 _ ret) => (lineedits rc rest c2).map fun r => (ret :: r.1, r.2)
    | _ => none

/-- Where a thread that has called `Console::lineedit` stands: blocked inside
`cv_input_completed.wait(false)` with its buffer; unblocked by a notification,
with the wait still to look at the flag again; or back from the call with its
buffer and the code returned. -/
inductive Reader where
  | waiting (buf : String)
  | notified (buf : String)
  | returned (buf : String) (ret : Int)
  deriving DecidableEq

/-- A console and the threads that have called `Console::lineedit` on it, in
the order of their calls. -/
structure Readers where
  console : Console
  threads : List Reader

/-- Where the calling thread stands after a call that has returned or waits. -/
def Reader.of_call (r : Call Console) : Reader :=
  match r with
  | Call.returned _ buf ret => Reader.returned buf ret
  | Call.waiting _ buf => Reader.waiting buf

/-- One more thread calls `Console::lineedit` and runs until it returns or
has to wait. -/
def Readers.lineedit (rc : lineedit_result) (s : Readers) (prompt : String)
    ( output : String) : Option Readers :=
  (Console.lineedit rc s.console prompt output).map fun r =>
    { console := r.state, threads := s.threads ++ [Reader.of_call r] }

/-- Whether the thread is blocked inside the wait. -/
def Reader.is_waiting : Reader → Bool
  | Reader.waiting _ => true
  | _ => false

/-- The blocked thread number `n`, counted among the blocked threads only, is
unblocked. -/
def notify_nth : Nat → List Reader → List Reader
  | _, [] => []
  | 0, Reader.waiting buf :: rest => Reader.notified buf :: rest
  | n + 1, Reader.waiting buf :: rest => Reader.waiting buf :: notify_nth n rest
  | n, th :: rest => th :: notify_nth n rest

/-- The call `cv_input_completed.notify_one()`: one of the threads blocked in
the wait is unblocked.  Which one is up to the implementation; `pick` stands
for its choice, taken among the blocked threads modulo their number.  With no
thread blocked nothing happens.  An implementation may unblock further
threads with the same call; that is `Readers.unblock`. -/
def Readers.notify_one (s : Readers) (pick : Nat) : Readers :=
  if (s.threads.filter Reader.is_waiting).length = 0 then s
  else
    { s with threads :=
        notify_nth (pick % (s.threads.filter Reader.is_waiting).length) s.threads }

/-- Another thread runs `Console::shutdown` up to its join: the status of
`Private` is set and `Console_Shutdown` runs, which ends with `notify_one`. -/
def Readers.shutdown (s : Readers) (pick : Nat) : Option Readers :=
  (Console.shutdown_signal s.console).map fun c =>
    Readers.notify_one { s with console := c } pick

end DFHack

/-! ## The free store and the line list -/

namespace SDLConsole

theorem deref_append_old (heap : Heap) (x : Option Console_Line) (p : Nat) (h : p < heap.length) :
    deref (heap ++ [x]) p = deref heap p := by
  simp [deref, List.getElem?_append_left h]

theorem deref_append_new (heap : Heap) (l : Console_Line) :
    deref (heap ++ [some l]) heap.length = some l := by
  simp [deref]

theorem deref_lt {heap : Heap} {p : Nat} {l : Console_Line} (h : deref heap p = some l) :
    p < heap.length := by
  by_contra hc
  have : heap[p]? = none := List.getElem?_eq_none (not_lt.mp hc)
  simp [deref, this] at h

theorem deref_set_same (heap : Heap) (p : Nat) (v : Option Console_Line) (h : p < heap.length) :
    deref (heap.set p v) p = v := by
  simp [deref, List.getElem?_set, h]

theorem deref_set_other (heap : Heap) (p q : Nat) (v : Option Console_Line) (h : p ≠ q) :
    deref (heap.set p v) q = deref heap q := by
  simp [deref, List.getElem?_set, h]

theorem Chain.frame {heap heap2 : Heap} : ∀ {as : List Nat} {pv p : Option Nat},
    Chain heap pv p as → (∀ a ∈ as, deref heap2 a = deref heap a) → Chain heap2 pv p as
  | [], _, _, h, _ => h
  | a :: as, _, _, ⟨hp, l, hl, hpv, hc⟩, hf =>
    ⟨hp, l, by rw [hf a (List.mem_cons_self _ _)]; exact hl, hpv,
      Chain.frame hc fun b hb => hf b (List.mem_cons_of_mem _ hb)⟩

theorem Chain.lt {heap : Heap} : ∀ {as : List Nat} {pv p : Option Nat},
    Chain heap pv p as → ∀ a ∈ as, a < heap.length
  | [], _, _, _, a, ha => by simp at ha
  | b :: as, _, _, ⟨_, l, hl, _, hc⟩, a, ha => by
    rcases List.mem_cons.1 ha with rfl | h
    · exact deref_lt hl
    · exact Chain.lt hc a h

theorem Chain.chop {heap : Heap} {z : Nat} : ∀ (front : List Nat) (a : Nat) (pv p : Option Nat) (y : Nat),
    Chain heap pv p (a :: (front ++ [z])) → (a :: (front ++ [z])).Nodup →
    (a :: front).getLast? = some y →
    ∃ ly lz, deref heap y = some ly ∧ ly.next = some z ∧ deref heap z = some lz ∧
      lz.prev = some y ∧ lz.next = none ∧ y ≠ z ∧
      Chain ((release heap z).set y (some { ly with next := none })) pv p (a :: front) := by
  intro front
  induction front with
  | nil =>
    intro a pv p y hc hnd hy
    simp at hy
    subst hy
    obtain ⟨hp, la, hla, hpv, hn, lz, hlz, hzp, hzn⟩ := hc
    have hne : a ≠ z := by simpa using hnd
    refine ⟨la, lz, hla, hn, hlz, hzp, hzn, hne, hp, { la with next := none }, ?_, hpv, rfl⟩
    rw [deref_set_same]
    simpa [release] using deref_lt hla
  | cons b fr ih =>
    intro a pv p y hc hnd hy
    obtain ⟨hp, la, hla, hpv, hrest⟩ := hc
    have hnd2 : (b :: (fr ++ [z])).Nodup := (List.nodup_cons.1 hnd).2
    have hy2 : (b :: fr).getLast? = some y := by simpa [List.getLast?_cons_cons] using hy
    obtain ⟨ly, lz, hly, hyn, hlz, hzp, hzn, hyz, hch⟩ := ih b (some a) la.next y hrest hnd2 hy2
    have hymem : y ∈ b :: fr := List.mem_of_getLast?_eq_some hy2
    have hanot : a ∉ b :: (fr ++ [z]) := (List.nodup_cons.1 hnd).1
    have hay : y ≠ a := by
      rintro rfl
      apply hanot
      rcases List.mem_cons.1 hymem with h | h
      · simp [h]
      · simp [h]
    have haz : z ≠ a := by
      rintro rfl
      apply hanot
      simp
    refine ⟨ly, lz, hly, hyn, hlz, hzp, hzn, hyz, hp, la, ?_, hpv, hch⟩
    rw [deref_set_other _ _ _ _ hay, release, deref_set_other _ _ _ _ haz]
    exact hla

theorem content_set_other (heap : Heap) (p q : Nat) (v : Option Console_Line) (h : p ≠ q) :
    content (heap.set p v) q = content heap q := by
  simp [content, deref_set_other _ _ _ _ h]

theorem content_set_links {heap : Heap} {p : Nat} {l : Console_Line} (l2 : Console_Line)
    (hl : deref heap p = some l) (ht : l2.text = l.text) (hk : l2.type = l.type)
    (hs : l2.selected = l.selected) (q : Nat) :
    content (heap.set p (some l2)) q = content heap q := by
  by_cases h : p = q
  · subst h
    simp [content, deref_set_same _ _ _ (deref_lt hl), hl, ht, hk, hs]
  · exact content_set_other _ _ _ _ h

theorem content_append_old (heap : Heap) (x : Option Console_Line) (p : Nat) (h : p < heap.length) :
    content (heap ++ [x]) p = content heap p := by
  simp [content, deref_append_old _ _ _ h]

theorem insert_spec (tty : Console_tty) (as : List Nat) (k : LineType) (t : U32String)
    (hc : Chain tty.heap none tty.lines_head as) (ht : tty.lines_tail = as.getLast?)
    (hn : tty.num_lines = as.length) (hnd : as.Nodup) :
    ∃ heap2, console_create_line_insert
        { tty with heap := tty.heap ++
            [some { text := t, type := k, selected := false, next := none, prev := none }] }
        tty.heap.length
      = some { tty with heap := heap2, lines_head := some tty.heap.length,
                        lines_tail := (tty.heap.length :: as).getLast? } ∧
      Chain heap2 none (some tty.heap.length) (tty.heap.length :: as) ∧
      heap2.length = tty.heap.length + 1 ∧
      (∀ p, p < tty.heap.length → content heap2 p = content tty.heap p) ∧
      content heap2 tty.heap.length = some (t, k, false) := by
  cases as with
  | nil =>
    have hh : tty.lines_head = none := hc
    refine ⟨tty.heap ++ [some { text := t, type := k, selected := false, next := none, prev := none }],
      ?_, ?_, by simp, ?_, ?_⟩
    · simp [console_create_line_insert, hh, assign, deref_append_new]
      cases tty
      simp at hn ht hh ⊢
      simp [hn]
    · exact ⟨rfl, _, deref_append_new _ _, rfl, rfl⟩
    · intro p hp
      exact content_append_old _ _ _ hp
    · simp [content, deref_append_new]
  | cons a0 rest =>
    obtain ⟨hh, l0, hl0, hpv, hrest⟩ := hc
    have ha0 : a0 < tty.heap.length := deref_lt hl0
    have hne : tty.heap.length ≠ a0 := Nat.ne_of_gt ha0
    obtain ⟨nl, hnl⟩ : ∃ nl : Console_Line, nl =
        { text := t, type := k, selected := false, next := none, prev := none } := ⟨_, rfl⟩
    rw [← hnl]
    have hd1 : deref (tty.heap ++ [some nl]) tty.heap.length = some nl := deref_append_new _ _
    have hd2 : deref ((tty.heap ++ [some nl]).set tty.heap.length
        (some { nl with prev := none, next := some a0 })) a0 = some l0 := by
      rw [deref_set_other _ _ _ _ hne, deref_append_old _ _ _ ha0, hl0]
    refine ⟨((tty.heap ++ [some nl]).set tty.heap.length
        (some { nl with prev := none, next := some a0 })).set a0
        (some { l0 with prev := some tty.heap.length }), ?_, ?_, by simp, ?_, ?_⟩
    · simp only [console_create_line_insert, hh, assign, hd1, Option.map_some', hd2,
        Option.bind_eq_bind, Option.some_bind, Option.pure_def, bind, pure]
      cases tty
      simp at ht ⊢
      simp [ht, List.getLast?_cons_cons]
    · refine ⟨rfl, { nl with prev := none, next := some a0 },
        ?_, rfl, rfl, { l0 with prev := some tty.heap.length }, ?_, rfl, ?_⟩
      · rw [deref_set_other _ _ _ _ (Ne.symm hne), deref_set_same]
        simp
      · rw [deref_set_same]
        simp
        omega
      · refine Chain.frame hrest fun b hb => ?_
        have hb1 : b < tty.heap.length := Chain.lt hrest b hb
        have hb2 : a0 ≠ b := fun h => (List.nodup_cons.1 hnd).1 (h ▸ hb)
        rw [deref_set_other _ _ _ _ hb2, deref_set_other _ _ _ _ (Nat.ne_of_gt hb1),
          deref_append_old _ _ _ hb1]
    · intro p hp
      rw [content_set_links { l0 with prev := some tty.heap.length } hd2 rfl rfl rfl,
        content_set_other _ _ _ _ (Nat.ne_of_gt hp),
        content_append_old _ _ _ hp]
    · rw [content_set_other _ _ _ _ (Ne.symm hne)]
      simp [content, deref_set_same, hnl, deref_append_new]

theorem console_create_line_eq (tty : Console_tty) (k : LineType) (t : U32String) :
    console_create_line tty k t =
      (console_create_line_insert
        { tty with heap := tty.heap ++
            [some { text := t, type := k, selected := false, next := none, prev := none }] }
        tty.heap.length).bind fun t2 =>
      (console_create_line_chop t2).bind fun t3 =>
        some (tty.heap.length, { t3 with curr_history := t3.lines_head }) := rfl

theorem create_line_keep (tty : Console_tty) (as : List Nat) (k : LineType) (t : U32String)
    (hc : Chain tty.heap none tty.lines_head as) (ht : tty.lines_tail = as.getLast?)
    (hn : tty.num_lines = as.length) (hnd : as.Nodup) (hm : as.length ≠ tty.max_lines) :
    ∃ heap2, console_create_line tty k t
      = some (tty.heap.length,
          { tty with heap := heap2, lines_head := some tty.heap.length,
                     lines_tail := (tty.heap.length :: as).getLast?,
                     num_lines := size_add as.length 1,
                     curr_history := some tty.heap.length }) ∧
      Chain heap2 none (some tty.heap.length) (tty.heap.length :: as) ∧
      heap2.length = tty.heap.length + 1 ∧
      (∀ p, p < tty.heap.length → content heap2 p = content tty.heap p) ∧
      content heap2 tty.heap.length = some (t, k, false) := by
  obtain ⟨heap2, hins, hch, hlen, hcont, hnew⟩ := insert_spec tty as k t hc ht hn hnd
  refine ⟨heap2, ?_, hch, hlen, hcont, hnew⟩
  rw [console_create_line_eq, hins, Option.some_bind]
  simp only [console_create_line_chop, Option.bind_eq_bind,
    Option.some_bind, Option.pure_def, bind, pure, hn, if_neg hm]

theorem create_line_evict (tty : Console_tty) (front : List Nat) (z : Nat) (k : LineType)
    (t : U32String)
    (hc : Chain tty.heap none tty.lines_head (front ++ [z]))
    (ht : tty.lines_tail = (front ++ [z]).getLast?)
    (hn : tty.num_lines = (front ++ [z]).length) (hnd : (front ++ [z]).Nodup)
    (hm : (front ++ [z]).length = tty.max_lines) :
    ∃ heap2, console_create_line tty k t
      = some (tty.heap.length,
          { tty with heap := heap2, lines_head := some tty.heap.length,
                     lines_tail := (tty.heap.length :: front).getLast?,
                     curr_history := some tty.heap.length }) ∧
      Chain heap2 none (some tty.heap.length) (tty.heap.length :: front) ∧
      heap2.length = tty.heap.length + 1 ∧
      deref heap2 z = none ∧
      (∀ p, p < tty.heap.length → p ≠ z → content heap2 p = content tty.heap p) ∧
      content heap2 tty.heap.length = some (t, k, false) := by
  obtain ⟨heap1, hins, hch, hlen, hcont, hnew⟩ := insert_spec tty _ k t hc ht hn hnd
  have hlt : ∀ a ∈ front ++ [z], a < tty.heap.length := Chain.lt hc
  have hnd1 : (tty.heap.length :: (front ++ [z])).Nodup :=
    List.nodup_cons.2 ⟨fun h => Nat.lt_irrefl _ (hlt _ h), hnd⟩
  obtain ⟨y, hy⟩ : ∃ y, (tty.heap.length :: front).getLast? = some y := by
    cases h : (tty.heap.length :: front).getLast? with
    | none => simp at h
    | some y => exact ⟨y, rfl⟩
  obtain ⟨ly, lz, hly, hyn, hlz, hzp, hzn, hyz, hch2⟩ :=
    Chain.chop front _ none _ y hch hnd1 hy
  have hzlt : z < tty.heap.length := hlt z (by simp)
  have hzlt1 : z < heap1.length := by omega
  have hylt1 : y < heap1.length := deref_lt hly
  have hly2 : deref (release heap1 z) y = some ly := by
    rw [release, deref_set_other _ _ _ _ (Ne.symm hyz)]; exact hly
  refine ⟨(release heap1 z).set y (some { ly with next := none }), ?_, hch2, ?_, ?_, ?_, ?_⟩
  · have htail : (tty.heap.length :: (front ++ [z])).getLast? = some z := by
      rw [← List.cons_append, List.getLast?_append]; simp
    rw [console_create_line_eq, hins, Option.some_bind]
    simp only [console_create_line_chop, Option.bind_eq_bind,
      Option.some_bind, Option.pure_def, bind, pure, hn, hm, if_true, htail, hlz, hzp, hly,
      hyn, assign, hly2, Option.map_some', hy]
  · simp [release, hlen]
  · rw [deref_set_other _ _ _ _ hyz, release, deref_set_same _ _ _ hzlt1]
  · intro p hp hpz
    rw [content_set_links { ly with next := none } hly2 rfl rfl rfl, release,
      content_set_other _ _ _ _ (Ne.symm hpz), hcont p hp]
  · rw [content_set_links { ly with next := none } hly2 rfl rfl rfl, release,
      content_set_other _ _ _ _ (Nat.ne_of_lt hzlt), hnew]

theorem walk_chain {heap : Heap} : ∀ {as : List Nat} {pv p : Option Nat} (fuel : Nat),
    Chain heap pv p as → as.length ≤ fuel → walk heap fuel p = as
  | [], _, _, 0, _, _ => rfl
  | [], _, _, _ + 1, h, _ => by
    have hp : _ = none := h
    subst hp
    rfl
  | _ :: _, _, _, 0, _, hf => by simp at hf
  | a :: as, _, _, fuel + 1, ⟨hp, l, hl, _, hc⟩, hf => by
    subst hp
    simp only [walk, hl]
    rw [walk_chain fuel hc (by simpa using hf)]

theorem nodup_length_le {as : List Nat} {n : Nat} (hnd : as.Nodup) (h : ∀ a ∈ as, a < n) :
    as.length ≤ n := by
  have hsub : as ⊆ List.range n := fun a ha => List.mem_range.2 (h a ha)
  simpa using (List.subperm_of_subset hnd hsub).length_le

theorem Linked.length_le {tty : Console_tty} {as : List Nat} (h : Linked tty as) :
    as.length ≤ tty.heap.length :=
  nodup_length_le h.nodup (Chain.lt h.chain)

theorem Linked.lines_eq {tty : Console_tty} {as : List Nat} (h : Linked tty as) :
    lines tty = as :=
  walk_chain _ h.chain h.length_le

theorem Chain.content_isSome {heap : Heap} : ∀ {as : List Nat} {pv p : Option Nat},
    Chain heap pv p as → ∀ a ∈ as, ∃ l, deref heap a = some l
  | [], _, _, _, a, ha => by simp at ha
  | b :: as, _, _, ⟨_, l, hl, _, hc⟩, a, ha => by
    rcases List.mem_cons.1 ha with rfl | h
    · exact ⟨l, hl⟩
    · exact Chain.content_isSome hc a h

theorem size_add_one {n : Nat} (h : n + 1 < SIZE_MOD) : size_add n 1 = n + 1 :=
  Nat.mod_eq_of_lt h

theorem create_line_linked {tty : Console_tty} {as : List Nat} (hL : Linked tty as)
    (hmax : as = [] → tty.max_lines ≠ 0)
    (hsz : as.length ≠ tty.max_lines → as.length + 1 < SIZE_MOD)
    (k : LineType) (t : U32String) :
    ∃ tty2, console_create_line tty k t = some (tty.heap.length, tty2) ∧
      tty2 = { tty with heap := tty2.heap, lines_head := some tty.heap.length,
                        lines_tail := tty2.lines_tail, num_lines := tty2.num_lines,
                        curr_history := some tty.heap.length } ∧
      tty2.heap.length = tty.heap.length + 1 ∧
      content tty2.heap tty.heap.length = some (t, k, false) ∧
      ((as.length ≠ tty.max_lines ∧ Linked tty2 (tty.heap.length :: as) ∧
          ∀ p, p < tty.heap.length → content tty2.heap p = content tty.heap p) ∨
       (as.length = tty.max_lines ∧ ∃ front z, as = front ++ [z] ∧
          Linked tty2 (tty.heap.length :: front) ∧ deref tty2.heap z = none ∧
          ∀ p, p < tty.heap.length → p ≠ z → content tty2.heap p = content tty.heap p)) := by
  have hlt : ∀ a ∈ as, a < tty.heap.length := Chain.lt hL.chain
  by_cases hm : as.length = tty.max_lines
  · rcases List.eq_nil_or_concat as with rfl | ⟨front, z, hfz⟩
    · exact absurd hm.symm (hmax rfl)
    · rw [List.concat_eq_append] at hfz
      subst hfz
      obtain ⟨heap2, heq, hch, hlen, hz, hcont, hnew⟩ :=
        create_line_evict tty front z k t hL.chain hL.tail hL.count hL.nodup hm
      refine ⟨_, heq, rfl, hlen, hnew, Or.inr ⟨hm, front, z, rfl, ⟨hch, rfl, ?_, ?_⟩, hz, hcont⟩⟩
      · refine List.nodup_cons.2 ⟨fun h => ?_, (List.nodup_append.1 hL.nodup).1⟩
        exact Nat.lt_irrefl _ (hlt _ (List.mem_append_left _ h))
      · have := hL.count
        simp at this ⊢
        exact this
  · obtain ⟨heap2, heq, hch, hlen, hcont, hnew⟩ :=
      create_line_keep tty as k t hL.chain hL.tail hL.count hL.nodup hm
    refine ⟨_, heq, rfl, hlen, hnew, Or.inl ⟨hm, ⟨hch, rfl, ?_, ?_⟩, hcont⟩⟩
    · exact List.nodup_cons.2 ⟨fun h => Nat.lt_irrefl _ (hlt _ h), hL.nodup⟩
    · simp [size_add_one (hsz hm)]

theorem create_line_max_lines {tty tty2 : Console_tty} {h : Heap} {a b c : Option Nat} {n : Nat}
    (heq : tty2 = { tty with heap := h, lines_head := a, lines_tail := b, num_lines := n,
                             curr_history := c }) :
    tty2.max_lines = tty.max_lines := by
  rw [heq]

theorem create_lines_linked {m : Nat} (hm : 1 ≤ m) (hsz : m < SIZE_MOD) :
    ∀ (calls : List (LineType × U32String)) (tty : Console_tty) (as : List Nat),
      Linked tty as → as.length ≤ m → tty.max_lines = m →
      ∃ s bs, create_lines tty calls = some s ∧ Linked s bs ∧ bs.length ≤ m ∧ s.max_lines = m
  | [], tty, as, hL, hlen, hmax => ⟨tty, as, rfl, hL, hlen, hmax⟩
  | (k, t) :: rest, tty, as, hL, hlen, hmax => by
    have hne : as = [] → tty.max_lines ≠ 0 := fun _ => by omega
    obtain ⟨tty2, heq, hfr, -, -, hcase⟩ :=
      create_line_linked hL hne (fun _ => by omega) k t
    have hmax2 : tty2.max_lines = m := (create_line_max_lines hfr).trans hmax
    have hstep : create_lines tty ((k, t) :: rest) = create_lines tty2 rest := by
      simp [create_lines, heq]
    rw [hstep]
    rcases hcase with ⟨hneq, hL2, -⟩ | ⟨heq2, front, z, rfl, hL2, -, -⟩
    · refine create_lines_linked hm hsz rest tty2 _ hL2 ?_ hmax2
      simp
      omega
    · refine create_lines_linked hm hsz rest tty2 _ hL2 ?_ hmax2
      simp at hlen ⊢
      omega

/-- C1 (eviction invariant).  Start from an empty line store with capacity
`m ≥ 1`, run any sequence `calls` of `console_create_line` calls and then one
more call.  Every call returns; after the last one at most `m` lines are
stored and `num_lines` counts them.  Either the store was below capacity and
the new line is put in front of the unchanged lines, nothing being released;
or the store was full and exactly one line is released, the line `old` that
`lines_tail` pointed to, every other line keeping its content. -/
theorem create_line_eviction_invariant (m : Nat) (hm : 1 ≤ m) (hsz : m < SIZE_MOD)
    (tty : Console_tty) (h0 : Linked tty []) (hmax : tty.max_lines = m)
    (calls : List (LineType × U32String)) (k : LineType) (t : U32String) :
    ∃ s a s2, create_lines tty calls = some s ∧ console_create_line s k t = some (a, s2) ∧
      (lines s2).length ≤ m ∧ s2.num_lines = (lines s2).length ∧
      (((lines s).length < m ∧ lines s2 = a :: lines s ∧
          ∀ p, p < s.heap.length → content s2.heap p = content s.heap p) ∨
       ((lines s).length = m ∧ ∃ front old, lines s = front ++ [old] ∧
          s.lines_tail = some old ∧ lines s2 = a :: front ∧
          (deref s.heap old).isSome ∧ deref s2.heap old = none ∧
          ∀ p, p < s.heap.length → p ≠ old → content s2.heap p = content s.heap p)) := by
  obtain ⟨s, bs, hs, hL, hlen, hmax1⟩ :=
    create_lines_linked hm hsz calls tty [] h0 (Nat.zero_le _) hmax
  have hne : bs = [] → s.max_lines ≠ 0 := fun _ => by omega
  obtain ⟨s2, heq, -, -, -, hcase⟩ := create_line_linked hL hne (fun _ => by omega) k t
  refine ⟨s, s.heap.length, s2, hs, heq, ?_⟩
  rw [hL.lines_eq]
  rcases hcase with ⟨hneq, hL2, hcont⟩ | ⟨heq2, front, z, rfl, hL2, hz, hcont⟩
  · rw [hL2.lines_eq]
    refine ⟨?_, hL2.count, Or.inl ⟨by omega, rfl, hcont⟩⟩
    simp
    omega
  · rw [hL2.lines_eq]
    refine ⟨?_, hL2.count, Or.inr ⟨by omega, front, z, rfl, ?_, rfl, ?_, hz, hcont⟩⟩
    · simp at hlen ⊢
      omega
    · rw [hL.tail]
      simp
    · obtain ⟨l, hl⟩ := Chain.content_isSome hL.chain z (by simp)
      simp [hl]

theorem Chain.head {heap : Heap} : ∀ {as : List Nat} {pv p : Option Nat},
    Chain heap pv p as → p = as.head?
  | [], _, _, h => h
  | _ :: _, _, _, ⟨hp, _⟩ => hp

theorem Chain.entry_isSome {heap : Heap} {as : List Nat} {pv p : Option Nat}
    (h : Chain heap pv p as) (a : Nat) (ha : a ∈ as) : ∃ e, entry heap a = some e := by
  obtain ⟨l, hl⟩ := Chain.content_isSome h a ha
  exact ⟨(l.type, l.text), by simp [entry, content, hl]⟩

theorem filterMap_entry_length {heap : Heap} : ∀ {as : List Nat},
    (∀ a ∈ as, ∃ e, entry heap a = some e) → (as.filterMap (entry heap)).length = as.length
  | [], _ => rfl
  | a :: as, h => by
    obtain ⟨e, he⟩ := h a (List.mem_cons_self _ _)
    rw [List.filterMap_cons_some he, List.length_cons, List.length_cons,
      filterMap_entry_length fun b hb => h b (List.mem_cons_of_mem _ hb)]

theorem filterMap_entry_congr {heap heap2 : Heap} {as : List Nat}
    (h : ∀ a ∈ as, content heap2 a = content heap a) :
    as.filterMap (entry heap2) = as.filterMap (entry heap) := by
  apply List.filterMap_congr
  intro a ha
  simp [entry, h a ha]

theorem Linked.entries_eq {tty : Console_tty} {as : List Nat} (h : Linked tty as) :
    entries tty = as.filterMap (entry tty.heap) := by
  rw [entries, h.lines_eq]

theorem Linked.entries_length {tty : Console_tty} {as : List Nat} (h : Linked tty as) :
    (entries tty).length = as.length := by
  rw [h.entries_eq, filterMap_entry_length (Chain.entry_isSome h.chain)]

/-- One call on a linked store below or at capacity `m`: the entries afterwards are the
new entry in front of the old ones, cut to `m`. -/
theorem create_line_entries {tty : Console_tty} {as : List Nat} {m : Nat} (hL : Linked tty as)
    (hm : 1 ≤ m) (hsz : m < SIZE_MOD) (hlen : as.length ≤ m) (hmax : tty.max_lines = m)
    (k : LineType) (t : U32String) :
    ∃ tty2 bs l, console_create_line tty k t = some (tty.heap.length, tty2) ∧
      Linked tty2 (tty.heap.length :: bs) ∧ bs.length + 1 ≤ m ∧ tty2.max_lines = m ∧
      entries tty2 = ((k, t) :: entries tty).take m ∧
      tty2.lines_head = some tty.heap.length ∧
      deref tty2.heap tty.heap.length = some l ∧ l.text = t ∧ l.type = k ∧ l.prev = none ∧
      l.next = (if as.length = m ∧ m = 1 then none else tty.lines_head) := by
  have hne : as = [] → tty.max_lines ≠ 0 := fun _ => by omega
  obtain ⟨tty2, heq, hfr, -, hnew, hcase⟩ := create_line_linked hL hne (fun _ => by omega) k t
  have hmax2 : tty2.max_lines = m := (create_line_max_lines hfr).trans hmax
  have hlt : ∀ a ∈ as, a < tty.heap.length := Chain.lt hL.chain
  have hhead : tty2.lines_head = some tty.heap.length := by rw [hfr]
  have key : ∀ bs, Linked tty2 (tty.heap.length :: bs) →
      (∀ p ∈ bs, content tty2.heap p = content tty.heap p) →
      entries tty2 = (k, t) :: bs.filterMap (entry tty.heap) ∧
      ∃ l, deref tty2.heap tty.heap.length = some l ∧ l.text = t ∧ l.type = k ∧
        l.prev = none ∧ l.next = bs.head? := by
    intro bs hL2 hc
    refine ⟨?_, ?_⟩
    · rw [hL2.entries_eq, List.filterMap_cons_some (b := (k, t)) (by simp [entry, hnew]),
        filterMap_entry_congr hc]
    · obtain ⟨-, l, hl, hpv, hch⟩ := hL2.chain
      have hcn := hnew
      simp only [content, hl, Option.map_some', Option.some.injEq, Prod.mk.injEq] at hcn
      exact ⟨l, hl, hcn.1, hcn.2.1, hpv, Chain.head hch⟩
  rcases hcase with ⟨hneq, hL2, hcont⟩ | ⟨heq2, front, z, rfl, hL2, hz, hcont⟩
  · obtain ⟨he, l, hl, h1, h2, h3, h4⟩ := key as hL2 fun p hp => hcont p (hlt p hp)
    refine ⟨tty2, as, l, heq, hL2, by omega, hmax2, ?_, hhead, hl, h1, h2, h3, ?_⟩
    · rw [he, ← hL.entries_eq, List.take_of_length_le]
      simp [hL.entries_length]
      omega
    · have : ¬ (as.length = m ∧ m = 1) := fun h => hneq (h.1.trans hmax.symm)
      rw [if_neg this, h4, ← Chain.head hL.chain]
  · have hzf : z ∉ front := fun h => by
      have := hL.nodup
      rw [List.nodup_append] at this
      exact this.2.2 h (by simp) 
    obtain ⟨he, l, hl, h1, h2, h3, h4⟩ := key front hL2 fun p hp =>
      hcont p (hlt p (List.mem_append_left _ hp)) (fun h => hzf (h ▸ hp))
    have hlenf : front.length + 1 = m := by simpa [hmax] using heq2
    refine ⟨tty2, front, l, heq, hL2, by omega, hmax2, ?_, hhead, hl, h1, h2, h3, ?_⟩
    · obtain ⟨ez, hez⟩ := Chain.entry_isSome hL.chain z (by simp)
      have hfl : (front.filterMap (entry tty.heap)).length = front.length :=
        filterMap_entry_length fun a ha =>
          Chain.entry_isSome hL.chain a (List.mem_append_left _ ha)
      rw [he, hL.entries_eq, List.filterMap_append, ← List.cons_append,
        List.take_append_of_le_length (by simp [hfl]; omega), List.take_of_length_le]
      simp [hfl]
      omega
    · rw [h4]
      by_cases h1m : m = 1
      · have : front = [] := by
          apply List.eq_nil_of_length_eq_zero
          omega
        subst this
        simp [h1m]
      · have hfne : front ≠ [] := by
          intro h
          subst h
          simp at hlenf
          omega
        rw [if_neg (fun h => h1m h.2), Chain.head hL.chain]
        cases front with
        | nil => exact absurd rfl hfne
        | cons a fr => rfl

theorem take_append_take {α : Type} (xs ys : List α) (m : Nat) :
    (xs ++ ys.take m).take m = (xs ++ ys).take m := by
  rw [List.take_append_eq_append_take, List.take_append_eq_append_take, List.take_take,
    Nat.min_eq_left (Nat.sub_le _ _)]

theorem create_lines_entries {m : Nat} (hm : 1 ≤ m) (hsz : m < SIZE_MOD) :
    ∀ (calls : List (LineType × U32String)) (tty : Console_tty) (as : List Nat),
      Linked tty as → as.length ≤ m → tty.max_lines = m →
      ∃ s bs, create_lines tty calls = some s ∧ Linked s bs ∧ bs.length ≤ m ∧
        s.max_lines = m ∧ entries s = (calls.reverse ++ entries tty).take m
  | [], tty, as, hL, hlen, hmax => by
    refine ⟨tty, as, rfl, hL, hlen, hmax, ?_⟩
    rw [List.reverse_nil, List.nil_append, List.take_of_length_le]
    rw [hL.entries_length]
    exact hlen
  | (k, t) :: rest, tty, as, hL, hlen, hmax => by
    obtain ⟨tty2, bs, l, heq, hL2, hlen2, hmax2, hent, -⟩ :=
      create_line_entries hL hm hsz hlen hmax k t
    obtain ⟨s, cs, hs, hLs, hlens, hmaxs, hents⟩ :=
      create_lines_entries hm hsz rest tty2 _ hL2 (by simpa using hlen2) hmax2
    refine ⟨s, cs, ?_, hLs, hlens, hmaxs, ?_⟩
    · simp [create_lines, heq, hs]
    · rw [hents, hent, take_append_take, List.reverse_cons, List.append_assoc]
      rfl

theorem linked_init (m : Nat) : Linked (Console_SetMaxLines Console_tty.init m) [] :=
  ⟨rfl, rfl, List.nodup_nil, rfl⟩

/-- C2, as amended.  Start from an empty line store with capacity `m ≥ 1` and
insert `calls` in order: the store then holds exactly the last `min k m`
inserted lines, newest first.  One more insertion puts the new line at the
head (with no predecessor) and again leaves the last `m` lines; its `next` is
the previous head, except for `m = 1` with a non-empty store, where the
previous head is the evicted tail and `next` is null. -/
theorem create_lines_newest_first (m : Nat) (hm : 1 ≤ m) (hsz : m < SIZE_MOD)
    (tty : Console_tty) (h0 : Linked tty []) (hmax : tty.max_lines = m)
    (calls : List (LineType × U32String)) (k : LineType) (t : U32String) :
    ∃ s a s2 l, create_lines tty calls = some s ∧ entries s = calls.reverse.take m ∧
      console_create_line s k t = some (a, s2) ∧
      entries s2 = ((k, t) :: calls.reverse).take m ∧
      s2.lines_head = some a ∧ deref s2.heap a = some l ∧ l.text = t ∧ l.type = k ∧
      l.prev = none ∧
      l.next = (if m = 1 ∧ calls ≠ [] then none else s.lines_head) := by
  obtain ⟨s, bs, hs, hL, hlen, hmaxs, hent⟩ :=
    create_lines_entries hm hsz calls tty [] h0 (Nat.zero_le _) hmax
  have he0 : entries tty = [] := by rw [h0.entries_eq]; rfl
  rw [he0, List.append_nil] at hent
  obtain ⟨s2, cs, l, heq, hL2, -, -, hent2, hhead, hl, h1, h2, h3, h4⟩ :=
    create_line_entries hL hm hsz hlen hmaxs k t
  refine ⟨s, _, s2, l, hs, hent, heq, ?_, hhead, hl, h1, h2, h3, ?_⟩
  · rw [hent2, hent]
    exact take_append_take [(k, t)] calls.reverse m
  · rw [h4]
    have hbl : bs.length = min m calls.length := by
      rw [← hL.entries_length, hent, List.length_take, List.length_reverse]
    by_cases h1m : m = 1
    · subst h1m
      cases calls with
      | nil => 
        have : bs = [] := List.eq_nil_of_length_eq_zero (by simpa using hbl)
        subst this
        simp
      | cons c cs =>
        have : bs.length = 1 := by simp [hbl]
        simp [this]
    · simp [h1m]


/-- C1 at `m = 3`: the lines `a`, `b`, `c` fill the store and `d` is inserted. -/
theorem create_line_eviction_invariant_witness :
    1 ≤ 3 ∧ 3 < SIZE_MOD ∧ Linked (Console_SetMaxLines Console_tty.init 3) [] ∧
    (Console_SetMaxLines Console_tty.init 3).max_lines = 3 ∧
    ∃ s a s2,
      create_lines (Console_SetMaxLines Console_tty.init 3)
        [(LineType.output, ['a']), (LineType.output, ['b']), (LineType.output, ['c'])]
        = some s ∧
      console_create_line s LineType.output ['d'] = some (a, s2) ∧
      (lines s2).length ≤ 3 ∧ s2.num_lines = (lines s2).length ∧
      (((lines s).length < 3 ∧ lines s2 = a :: lines s ∧
          ∀ p, p < s.heap.length → content s2.heap p = content s.heap p) ∨
       ((lines s).length = 3 ∧ ∃ front old, lines s = front ++ [old] ∧
          s.lines_tail = some old ∧ lines s2 = a :: front ∧
          (deref s.heap old).isSome ∧ deref s2.heap old = none ∧
          ∀ p, p < s.heap.length → p ≠ old → content s2.heap p = content s.heap p)) :=
  ⟨by decide, by decide, linked_init 3, rfl,
    create_line_eviction_invariant 3 (by decide) (by decide) _ (linked_init 3) rfl _ _ _⟩

/-- C2, as amended, at `m = 3` with the lines `a`, `b`, `c` and then `d`. -/
theorem create_lines_newest_first_witness :
    1 ≤ 3 ∧ 3 < SIZE_MOD ∧ Linked (Console_SetMaxLines Console_tty.init 3) [] ∧
    (Console_SetMaxLines Console_tty.init 3).max_lines = 3 ∧
    ∃ s a s2 l,
      create_lines (Console_SetMaxLines Console_tty.init 3)
        [(LineType.output, ['a']), (LineType.output, ['b']), (LineType.output, ['c'])]
        = some s ∧
      entries s = ([(LineType.output, ['a']), (LineType.output, ['b']),
        (LineType.output, ['c'])].reverse).take 3 ∧
      console_create_line s LineType.output ['d'] = some (a, s2) ∧
      entries s2 = ((LineType.output, ['d']) ::
        [(LineType.output, ['a']), (LineType.output, ['b']),
          (LineType.output, ['c'])].reverse).take 3 ∧
      s2.lines_head = some a ∧ deref s2.heap a = some l ∧ l.text = ['d'] ∧
      l.type = LineType.output ∧ l.prev = none ∧
      l.next = (if 3 = 1 ∧ [(LineType.output, ['a']), (LineType.output, ['b']),
        (LineType.output, ['c'])] ≠ [] then none else s.lines_head) :=
  ⟨by decide, by decide, linked_init 3, rfl,
    create_lines_newest_first 3 (by decide) (by decide) _ (linked_init 3) rfl _ _ _⟩

/-- C2 as stated fails for `m = 1`: after `a` and then `b`, the previous head
(address 0) is not `head.next`; the new head (address 1) has a null `next`,
the previous head has been released and `b` is the only stored line. -/
theorem create_line_head_next_counterexample :
    ((create_lines (Console_SetMaxLines Console_tty.init 1) [(LineType.output, ['a'])]).bind
      fun s => (console_create_line s LineType.output ['b']).bind fun r =>
        (deref r.2.heap r.1).map fun l =>
          (s.lines_head, r.2.lines_head, l.next, deref r.2.heap 0, entries r.2))
      = some (some 0, some 1, none, none, [(LineType.output, ['b'])]) := by
  rfl

/-- C3 at the failing input: a store holding the two lines `b`, `a`, then
`Console_SetMaxLines` with 1, then one `console_create_line`: nothing is
evicted, the store holds three lines and `num_lines` is 3, above the capacity. -/
theorem create_line_after_lower_max_lines :
    ((create_lines Console_tty.init [(LineType.output, ['a']), (LineType.output, ['b'])]).bind
      fun s => (console_create_line (Console_SetMaxLines s 1) LineType.output ['c']).map
        fun r => (s.num_lines, r.2.max_lines, r.2.num_lines, entries r.2))
      = some (2, 1, 3, [(LineType.output, ['c']), (LineType.output, ['b']),
          (LineType.output, ['a'])]) := by
  rfl

/-! ## History recall -/



theorem Chain.path_up {heap : Heap} : ∀ {as : List Nat} {pv p : Option Nat},
    Chain heap pv p as → Path heap NavDirection.up p as
  | [], _, _, h => h
  | _ :: _, _, _, ⟨hp, l, hl, _, hc⟩ => ⟨hp, l, hl, by
      simpa [history_step] using Chain.path_up hc⟩

theorem Chain.split {heap : Heap} {L : Nat} {post : List Nat} {dir : NavDirection}
    (hdir : dir ≠ NavDirection.up) :
    ∀ (pre : List Nat) (pv p : Option Nat) (done : List Nat),
      Chain heap pv p (pre ++ L :: post) → Path heap dir pv done →
      ∃ c, deref heap L = some c ∧ Chain heap (some L) c.next post ∧
        Path heap dir c.prev (pre.reverse ++ done)
  | [], pv, p, done, ⟨_, c, hc, hpv, hch⟩, hd => ⟨c, hc, hch, by simpa [hpv] using hd⟩
  | a :: pre, pv, p, done, ⟨_, la, hla, hpv, hch⟩, hd => by
    have hpa : Path heap dir (some a) (a :: done) :=
      ⟨rfl, la, hla, by simpa [history_step, hdir, hpv] using hd⟩
    obtain ⟨c, hc, hcn, hcp⟩ := Chain.split hdir pre (some a) la.next (a :: done) hch hpa
    exact ⟨c, hc, hcn, by simpa using hcp⟩

theorem history_scan_path {heap : Heap} {dir : NavDirection} :
    ∀ (as : List Nat) (p : Option Nat) (fuel : Nat),
      Path heap dir p as → as.length < fuel →
      history_scan heap dir fuel p = some (as.find? (qualifies heap))
  | _, _, 0, _, hf => by simp at hf
  | [], _, _ + 1, h, _ => by
    have hp : _ = none := h
    subst hp
    rfl
  | a :: as, _, fuel + 1, ⟨hp, l, hl, hpath⟩, hf => by
    subst hp
    by_cases hq : l.type = LineType.input ∧ l.text ≠ []
    · have : qualifies heap a = true := by simp [qualifies, hl, hq]
      simp only [history_scan, hl, if_pos hq, List.find?_cons, this]
    · have : qualifies heap a = false := by simp [qualifies, hl, hq]
      simp only [history_scan, hl, if_neg hq, List.find?_cons, this]
      exact history_scan_path as _ fuel hpath (by simpa using hf)

/-- Where the cursor stands on a line of a linked store, what the scan finds is the
first qualifying line beyond it. -/
theorem recall_scan {tty : Console_tty} {pre post : List Nat} {L : Nat}
    (hL : Linked tty (pre ++ L :: post)) (dir : NavDirection) :
    ∃ c, deref tty.heap L = some c ∧
      history_scan tty.heap dir (tty.heap.length + 1) (history_step dir c)
        = some ((beyond dir pre post).find? (qualifies tty.heap)) := by
  have hlen := hL.length_le
  simp only [List.length_append, List.length_cons] at hlen
  by_cases hdir : dir = NavDirection.up
  · subst hdir
    obtain ⟨c, hc, hcn, -⟩ := Chain.split (show NavDirection.down ≠ NavDirection.up by decide) pre none _ []
      hL.chain rfl
    refine ⟨c, hc, ?_⟩
    simp only [beyond, history_step, if_true]
    exact history_scan_path post _ _ (Chain.path_up hcn) (by omega)
  · obtain ⟨c, hc, -, hcp⟩ := Chain.split hdir pre none _ [] hL.chain rfl
    refine ⟨c, hc, ?_⟩
    simp only [beyond, history_step, if_neg hdir]
    rw [List.append_nil] at hcp
    exact history_scan_path _ _ _ hcp (by simp; omega)

theorem qualifies_iff {heap : Heap} {a : Nat} :
    qualifies heap a = true ↔
      ∃ l, deref heap a = some l ∧ l.type = LineType.input ∧ l.text ≠ [] := by
  unfold qualifies
  cases h : deref heap a with
  | none => simp
  | some l => simp

/-- The function on a linked store with the cursor on a line, in terms of the search. -/
theorem recall_eq {tty : Console_tty} {pre post : List Nat} {L : Nat}
    (hL : Linked tty (pre ++ L :: post)) (hcur : tty.curr_history = some L)
    (dir : NavDirection) :
    console_update_prompt_from_history tty dir =
      match (beyond dir pre post).find? (qualifies tty.heap) with
      | none => some tty
      | some line =>
        (deref tty.heap line).map fun l =>
          { tty with
            curr_history := some line
            prompt := { tty.prompt with
              input := l.text, cursor := l.text.length, rebuild := true } } := by
  obtain ⟨c, hc, hscan⟩ := recall_scan hL dir
  unfold console_update_prompt_from_history
  simp only [hcur, hc, Option.some_bind]
  rw [show (if dir = NavDirection.up then c.next else c.prev) = history_step dir c from rfl,
    hscan, Option.some_bind]

theorem recall_success {tty : Console_tty} {pre post : List Nat} {L : Nat}
    (hL : Linked tty (pre ++ L :: post)) (hcur : tty.curr_history = some L)
    (dir : NavDirection) (target : Nat)
    (hfind : (beyond dir pre post).find? (qualifies tty.heap) = some target) :
    ∃ l, deref tty.heap target = some l ∧ l.type = LineType.input ∧ l.text ≠ [] ∧
      target ∈ beyond dir pre post ∧
      console_update_prompt_from_history tty dir = some (recalled tty target l.text) := by
  obtain ⟨l, hl, hk, ht⟩ := qualifies_iff.1 (List.find?_some hfind)
  refine ⟨l, hl, hk, ht, List.mem_of_find?_eq_some hfind, ?_⟩
  rw [recall_eq hL hcur, hfind]
  simp [hl, recalled]

theorem beyond_subset {dir : NavDirection} {pre post : List Nat} {L a : Nat}
    (h : a ∈ beyond dir pre post) : a ∈ pre ++ L :: post := by
  unfold beyond at h
  split at h
  · simp [h]
  · simp [List.mem_reverse.1 h]

theorem Linked.recalled {tty : Console_tty} {as : List Nat} (h : Linked tty as)
    (a : Nat) (t : U32String) : Linked (recalled tty a t) as :=
  ⟨h.chain, h.tail, h.nodup, h.count⟩

theorem recall_total {tty : Console_tty} {as : List Nat} {L : Nat}
    (hL : Linked tty as) (hcur : tty.curr_history = some L) (hmem : L ∈ as)
    (dir : NavDirection) :
    ∃ s, console_update_prompt_from_history tty dir = some s ∧
      (s = tty ∨ ∃ a l, a ∈ as ∧ deref tty.heap a = some l ∧ l.type = LineType.input ∧
        l.text ≠ [] ∧ s = recalled tty a l.text) := by
  obtain ⟨pre, post, rfl⟩ := List.append_of_mem hmem
  cases hfind : (beyond dir pre post).find? (qualifies tty.heap) with
  | none =>
    refine ⟨tty, ?_, Or.inl rfl⟩
    rw [recall_eq hL hcur, hfind]
  | some target =>
    obtain ⟨l, hl, hk, ht, hm, heq⟩ := recall_success hL hcur dir target hfind
    exact ⟨_, heq, Or.inr ⟨target, l, beyond_subset hm, hl, hk, ht, rfl⟩⟩

theorem recalls_total : ∀ (dirs : List NavDirection) {tty : Console_tty} {as : List Nat}
    {L : Nat}, Linked tty as → tty.curr_history = some L → L ∈ as →
    ∃ s, recalls tty dirs = some s ∧ (s = tty ∨ on_recalled_line s)
  | [], tty, _, _, _, _, _ => ⟨tty, rfl, Or.inl rfl⟩
  | dir :: rest, tty, as, L, hL, hcur, hmem => by
    obtain ⟨s1, hs1, hcase⟩ := recall_total hL hcur hmem dir
    rcases hcase with rfl | ⟨a, l, ha, hl, hk, ht, rfl⟩
    · obtain ⟨s, hs, h⟩ := recalls_total rest hL hcur hmem
      exact ⟨s, by simp [recalls, hs1, hs], h⟩
    · obtain ⟨s, hs, h⟩ := recalls_total rest (hL.recalled a l.text) rfl ha
      refine ⟨s, by simp [recalls, hs1, hs], Or.inr ?_⟩
      rcases h with rfl | h
      · exact ⟨a, l, rfl, hl, hk, ht, rfl, rfl, rfl⟩
      · exact h

/-- C4 (history recall, success).  In a well-formed store with the history
cursor on the line `L`, between the newer lines `pre` and the older lines
`post`: if `target` is the first line strictly beyond `L` in the direction
(older for up, newer otherwise) that is an input line with text, the recall
returns the state in which the prompt input is that text, the cursor is its
length, `rebuild` is set and the history cursor is `target`, nothing else being
changed.  And after any sequence of recalls the state is either the one at the
start or has the history cursor on an input line with text, whose text is the
prompt input. -/
theorem recall_history_success (tty : Console_tty) (pre post : List Nat) (L : Nat)
    (hL : Linked tty (pre ++ L :: post)) (hcur : tty.curr_history = some L) :
    (∀ (dir : NavDirection) (target : Nat),
      (beyond dir pre post).find? (qualifies tty.heap) = some target →
      ∃ l, deref tty.heap target = some l ∧ l.type = LineType.input ∧ l.text ≠ [] ∧
        console_update_prompt_from_history tty dir =
          some { tty with
            curr_history := some target
            prompt := { tty.prompt with
              input := l.text, cursor := l.text.length, rebuild := true } }) ∧
    (∀ dirs : List NavDirection,
      ∃ s, recalls tty dirs = some s ∧ (s = tty ∨ on_recalled_line s)) := by
  refine ⟨fun dir target hfind => ?_, fun dirs => recalls_total dirs hL hcur (by simp)⟩
  obtain ⟨l, hl, hk, ht, -, heq⟩ := recall_success hL hcur dir target hfind
  exact ⟨l, hl, hk, ht, heq⟩

theorem recalls_replicate {tty : Console_tty} {dir : NavDirection}
    (h : console_update_prompt_from_history tty dir = some tty) :
    ∀ n, recalls tty (List.replicate n dir) = some tty
  | 0 => rfl
  | n + 1 => by
    rw [List.replicate_succ, recalls, h, Option.some_bind]
    exact recalls_replicate h n

/-- C5 (history recall without a match).  When there is no history cursor, or
the cursor is on a line of a well-formed store and no input line with text
lies beyond it in the direction, the recall returns the very same state, and
so does every number of further recalls in that direction. -/
theorem recall_history_no_match (tty : Console_tty) (dir : NavDirection)
    (h : tty.curr_history = none ∨
      ∃ pre L post, Linked tty (pre ++ L :: post) ∧ tty.curr_history = some L ∧
        (beyond dir pre post).find? (qualifies tty.heap) = none) :
    console_update_prompt_from_history tty dir = some tty ∧
      ∀ n, recalls tty (List.replicate n dir) = some tty := by
  have h1 : console_update_prompt_from_history tty dir = some tty := by
    rcases h with h | ⟨pre, L, post, hL, hcur, hfind⟩
    · simp [console_update_prompt_from_history, h]
    · rw [recall_eq hL hcur, hfind]
  exact ⟨h1, recalls_replicate h1⟩

/-- C4 on the store of the history scenario, with the cursor on the head (address 3)
and the lines at 2, 1, 0 older than it. -/
theorem recall_history_success_witness :
    Linked history_example ([] ++ 3 :: [2, 1, 0]) ∧ history_example.curr_history = some 3 ∧
    (∀ (dir : NavDirection) (target : Nat),
      (beyond dir [] [2, 1, 0]).find? (qualifies history_example.heap) = some target →
      ∃ l, deref history_example.heap target = some l ∧ l.type = LineType.input ∧
        l.text ≠ [] ∧
        console_update_prompt_from_history history_example dir =
          some { history_example with
            curr_history := some target
            prompt := { history_example.prompt with
              input := l.text, cursor := l.text.length, rebuild := true } }) ∧
    (∀ dirs : List NavDirection,
      ∃ s, recalls history_example dirs = some s ∧
        (s = history_example ∨ on_recalled_line s)) :=
  ⟨by decide, rfl, recall_history_success history_example [] [2, 1, 0] 3 (by decide) rfl⟩

/-- C5 on the store of the history scenario after two recalls: the cursor is on
the oldest line (address 0, "help") and nothing lies beyond it. -/
theorem recall_history_no_match_witness :
    ((recalled (recalled history_example 2 "ls".toList) 0 "help".toList).curr_history = none ∨
      ∃ pre L post,
        Linked (recalled (recalled history_example 2 "ls".toList) 0 "help".toList)
          (pre ++ L :: post) ∧
        (recalled (recalled history_example 2 "ls".toList) 0 "help".toList).curr_history
          = some L ∧
        (beyond NavDirection.up pre post).find?
          (qualifies (recalled (recalled history_example 2 "ls".toList) 0 "help".toList).heap)
          = none) ∧
    console_update_prompt_from_history
        (recalled (recalled history_example 2 "ls".toList) 0 "help".toList) NavDirection.up
      = some (recalled (recalled history_example 2 "ls".toList) 0 "help".toList) ∧
    ∀ n, recalls (recalled (recalled history_example 2 "ls".toList) 0 "help".toList)
        (List.replicate n NavDirection.up)
      = some (recalled (recalled history_example 2 "ls".toList) 0 "help".toList) :=
  ⟨Or.inr ⟨[3, 2, 1], 0, [], by decide, rfl, rfl⟩,
    recall_history_no_match _ NavDirection.up
      (Or.inr ⟨[3, 2, 1], 0, [], by decide, rfl, rfl⟩)⟩

/-- C6 as stated fails: on the store "", "ls", "", "help" (newest first) with the
cursor left by the last insertion, the first recall upwards sets the prompt
input to "ls", not to "help". -/
theorem history_scenario_counterexample :
    (console_update_prompt_from_history history_example NavDirection.up).map
        (fun s => s.prompt.input) = some "ls".toList ∧
    (console_update_prompt_from_history history_example NavDirection.up).map
        (fun s => s.prompt.input) ≠ some "help".toList := by
  decide

/-- C6, as amended.  On the store whose input lines are, newest first, "",
"ls", "", "help", with the history cursor on the head as the last insertion
leaves it: the first recall upwards sets the prompt input to "ls", the second
to "help", and the third changes nothing, the input staying "help". -/
theorem history_scenario :
    entries history_example =
      [(LineType.input, []), (LineType.input, "ls".toList), (LineType.input, []),
       (LineType.input, "help".toList)] ∧
    history_example.curr_history = history_example.lines_head ∧
    (recalls history_example [NavDirection.up]).map (fun s => s.prompt.input)
      = some "ls".toList ∧
    (recalls history_example [NavDirection.up, NavDirection.up]).map
      (fun s => s.prompt.input) = some "help".toList ∧
    (recalls history_example [NavDirection.up, NavDirection.up, NavDirection.up]).map
      (fun s => s.prompt.input) = some "help".toList ∧
    recalls history_example [NavDirection.up, NavDirection.up, NavDirection.up]
      = recalls history_example [NavDirection.up, NavDirection.up] := by
  decide


/-! ## Editing the prompt and committing a line -/

/-- C7 at the failing input: input "abc" with the cursor at 1, after the `a`.
Backspace has to delete the `a` and leave "bc"; `console_on_remove_input`
erases the code point at index 1, the `b` after the cursor, and leaves "ac"
with the cursor at 0. -/
theorem remove_input_mid_cursor :
    (console_on_remove_input
      { Console_tty.init with
        prompt := { Console_tty.init.prompt with
          input := "abc".toList, cursor := 1, rebuild := false } }).map
        (fun s => (s.prompt.input, s.prompt.cursor, s.prompt.rebuild))
      = some ("ac".toList, 0, true) ∧
    "ac".toList ≠ "bc".toList := by
  decide

/-- C8 (inserting text).  For a prompt with the cursor at `c ≤ len(input)` and a
text `s` (the result being a string that fits a `size_t` length),
`console_on_new_input` returns the state whose input is
`input[0..c) ++ s ++ input[c..)`, whose cursor is `c + len(s)` and whose
`rebuild` flag is set; the prompt text and everything outside the prompt are
unchanged.  The same formula covers the append at the end. -/
theorem insert_text (tty : Console_tty) (s : U32String)
    (hc : tty.prompt.cursor ≤ tty.prompt.input.length)
    (hsz : tty.prompt.input.length + s.length < SIZE_MOD) :
    console_on_new_input tty s =
      some { tty with prompt := { tty.prompt with
        input := tty.prompt.input.take tty.prompt.cursor ++ s ++
          tty.prompt.input.drop tty.prompt.cursor
        cursor := tty.prompt.cursor + s.length
        rebuild := true } } := by
  have hadd : size_add tty.prompt.cursor s.length = tty.prompt.cursor + s.length :=
    Nat.mod_eq_of_lt (by omega)
  unfold console_on_new_input
  by_cases heq : tty.prompt.cursor = tty.prompt.input.length
  · rw [if_pos heq, hadd, Option.map_some']
    rw [heq, List.take_length, List.drop_length, List.append_nil]
  · have hlt : ¬ tty.prompt.cursor > tty.prompt.input.length := by omega
    simp [heq, hlt, hadd]

theorem create_line_returns {tty : Console_tty} {as : List Nat} (hL : Linked tty as)
    (hmax : as = [] → tty.max_lines ≠ 0) (k : LineType) (t : U32String) :
    ∃ tty2 l, console_create_line tty k t = some (tty.heap.length, tty2) ∧
      tty2 = { tty with heap := tty2.heap, lines_head := some tty.heap.length,
                        lines_tail := tty2.lines_tail, num_lines := tty2.num_lines,
                        curr_history := some tty.heap.length } ∧
      deref tty2.heap tty.heap.length = some l ∧ l.text = t ∧ l.type = k ∧ l.prev = none := by
  have key : ∀ (heap2 : Heap) (bs : List Nat),
      Chain heap2 none (some tty.heap.length) (tty.heap.length :: bs) →
      content heap2 tty.heap.length = some (t, k, false) →
      ∃ l, deref heap2 tty.heap.length = some l ∧ l.text = t ∧ l.type = k ∧ l.prev = none := by
    intro heap2 bs hch hnew
    obtain ⟨-, l, hl, hpv, -⟩ := hch
    simp only [content, hl, Option.map_some', Option.some.injEq, Prod.mk.injEq] at hnew
    exact ⟨l, hl, hnew.1, hnew.2.1, hpv⟩
  by_cases hm : as.length = tty.max_lines
  · rcases List.eq_nil_or_concat as with rfl | ⟨front, z, hfz⟩
    · exact absurd hm.symm (hmax rfl)
    · rw [List.concat_eq_append] at hfz
      subst hfz
      obtain ⟨heap2, heq, hch, -, -, -, hnew⟩ :=
        create_line_evict tty front z k t hL.chain hL.tail hL.count hL.nodup hm
      obtain ⟨l, hl⟩ := key heap2 front hch hnew
      exact ⟨_, l, heq, rfl, hl⟩
  · obtain ⟨heap2, heq, hch, -, -, hnew⟩ :=
      create_line_keep tty as k t hL.chain hL.tail hL.count hL.nodup hm
    obtain ⟨l, hl⟩ := key heap2 as hch hnew
    exact ⟨_, l, heq, rfl, hl⟩

/-- C8 at the input "abd" with the cursor at 2 and the text "c". -/
theorem insert_text_witness :
    prompt_example.prompt.cursor ≤ prompt_example.prompt.input.length ∧
    prompt_example.prompt.input.length + "c".toList.length < SIZE_MOD ∧
    console_on_new_input prompt_example "c".toList =
      some { prompt_example with prompt := { prompt_example.prompt with
        input := prompt_example.prompt.input.take prompt_example.prompt.cursor ++ "c".toList ++
          prompt_example.prompt.input.drop prompt_example.prompt.cursor
        cursor := prompt_example.prompt.cursor + "c".toList.length
        rebuild := true } } :=
  ⟨by decide, by decide, insert_text prompt_example "c".toList (by decide) (by decide)⟩

end SDLConsole

/-! ## The blocking read through the facade -/

namespace DFHack

open SDLConsole

theorem Console_ReadLine_wake_empty (tty : Console_tty) (buf : String)
    (hq : tty.input_complete_q = []) :
    Console_ReadLine_wake tty buf = Call.returned tty buf 0 := by
  unfold Console_ReadLine_wake
  rw [hq]

theorem Console_ReadLine_waits (tty : Console_tty) (buf : String)
    (hs : tty.status = State.claimed) (hq : tty.input_complete_q = [])
    (hf : tty.cv_input_completed = false) :
    Console_ReadLine tty buf = Call.waiting tty buf := by
  unfold Console_ReadLine
  rw [hq]
  simp [hs, hf]

theorem lineedit_ret_retry (rc : lineedit_result) (c : Console) (p : Private) (buf : String) :
    (Console.lineedit_ret rc c (Call.returned p buf (Private.lineedit_ret rc 0))).ret
      = some rc.RETRY := by
  simp only [Console.lineedit_ret, Private.lineedit_ret, if_true]
  split
  · rfl
  · split <;> rfl

/-- C10, as amended.  A `lineedit` call on an inited console whose session is
claimed, with an empty input queue and a clear wake flag, waits; when
`shutdown` then sets the wake flag and the reader goes on with the queue still
empty, `Console_ReadLine` returns 0 and both facade levels turn that into
`RETRY`: the call returns `RETRY`, whatever the values of the result codes. -/
theorem lineedit_woken_by_shutdown_retry (rc : lineedit_result) (c : Console) (p : Private)
    (tty : Console_tty) (prompt output : String)
    (hinit : c.inited = true) (hd : c.d = some p)
    (hp : p.status = console_state.con_claimed) (ht : p.tty = some tty)
    (hs : tty.status = State.claimed) (hq : tty.input_complete_q = [])
    (hf : tty.cv_input_completed = false) :
    lineedit_woken_by_shutdown rc c prompt output = some rc.RETRY := by
  have hsh : p.is_shutdown = false := by simp [Private.is_shutdown, hp]
  have hwait : ∃ p1 tty1, Console.lineedit rc c prompt output
      = some (Call.waiting { c with d := some p1 } output) ∧ p1.tty = some tty1 ∧
        p1.status = console_state.con_claimed ∧ tty1.input_complete_q = [] := by
    by_cases hpr : prompt ≠ p.prompt
    · refine ⟨{ p with prompt := prompt, tty := some (Console_SetPrompt tty (from_utf8 prompt)) },
        Console_SetPrompt tty (from_utf8 prompt), ?_, rfl, hp, hq⟩
      simp [Console.lineedit, hinit, hd, Private.lineedit, hsh, ht, hpr,
        Console_ReadLine_waits (Console_SetPrompt tty (from_utf8 prompt)) output hs hq hf,
        Private.with_tty, Console.lineedit_ret]
    · refine ⟨{ p with tty := some tty }, tty, ?_, rfl, hp, hq⟩
      have hpr2 : prompt = p.prompt := not_not.1 hpr
      simp [Console.lineedit, hpr2, hinit, hd, Private.lineedit, hsh, ht,
        Console_ReadLine_waits tty output hs hq hf, Private.with_tty, Console.lineedit_ret]
  obtain ⟨p1, tty1, hcall, ht1, hp1, hq1⟩ := hwait
  have hsig : Console.shutdown_signal { c with d := some p1 } =
      some { c with d := some { p1 with status := console_state.con_shutdown,
                                        tty := some (Console_Shutdown tty1) } } := by
    simp [Console.shutdown_signal, hinit, Private.shutdown_signal, hp1, ht1]
  unfold lineedit_woken_by_shutdown
  rw [hcall]
  simp only [hsig, Option.some_bind, Console.lineedit_wake, Private.lineedit_wake,
    Option.map_some']
  rw [Console_ReadLine_wake_empty _ _ (show (Console_Shutdown tty1).input_complete_q = [] from hq1)]
  exact lineedit_ret_retry rc _ _ _

/-- C10 as stated fails: on a claimed console the reader woken by shutdown
returns `RETRY`, which is not `SHUTDOWN`. -/
theorem lineedit_woken_by_shutdown_counterexample :
    lineedit_woken_by_shutdown Console_h claimed_example "" "" = some Console_h.RETRY ∧
    Console_h.RETRY ≠ Console_h.SHUTDOWN := by
  decide

/-- C10, as amended, on a console right after a successful start. -/
theorem lineedit_woken_by_shutdown_retry_witness :
    claimed_example.inited = true ∧
    claimed_example.d = some { tty := some { Console_tty.init with status := State.claimed }
                               prompt := ""
                               status := console_state.con_claimed } ∧
    lineedit_woken_by_shutdown Console_h claimed_example "[DFHack]# " "" =
      some Console_h.RETRY :=
  ⟨rfl, rfl,
    lineedit_woken_by_shutdown_retry Console_h claimed_example _
      { Console_tty.init with status := State.claimed } "[DFHack]# " "" rfl rfl rfl rfl rfl rfl
      rfl⟩

end DFHack

namespace SDLConsole

theorem StoreOnly.refl (tty : Console_tty) : StoreOnly tty tty :=
  ⟨rfl, rfl, rfl, rfl, rfl, rfl, rfl⟩

theorem StoreOnly.trans {a b c : Console_tty} (h1 : StoreOnly a b) (h2 : StoreOnly b c) :
    StoreOnly a c :=
  ⟨h2.prompt.trans h1.prompt, h2.scroll_offset.trans h1.scroll_offset,
    h2.max_lines.trans h1.max_lines, h2.input_complete_q.trans h1.input_complete_q,
    h2.cv_input_completed.trans h1.cv_input_completed, h2.event_q.trans h1.event_q,
    h2.status.trans h1.status⟩

theorem insert_store_only {tty s : Console_tty} {line : Nat}
    (h : console_create_line_insert tty line = some s) : StoreOnly tty s := by
  unfold console_create_line_insert at h
  split at h
  · simp only [bind, Option.bind_eq_some, pure, Option.some.injEq] at h
    obtain ⟨heap, -, rfl⟩ := h
    exact ⟨rfl, rfl, rfl, rfl, rfl, rfl, rfl⟩
  · simp only [bind, Option.bind_eq_some, pure, Option.some.injEq] at h
    obtain ⟨heap, -, heap2, -, rfl⟩ := h
    exact ⟨rfl, rfl, rfl, rfl, rfl, rfl, rfl⟩

theorem chop_store_only {tty s : Console_tty}
    (h : console_create_line_chop tty = some s) : StoreOnly tty s := by
  unfold console_create_line_chop at h
  split at h
  · simp only [bind, Option.bind_eq_some, pure, Option.some.injEq] at h
    obtain ⟨_, -, _, -, _, -, _, -, _, -, _, -, _, -, rfl⟩ := h
    exact ⟨rfl, rfl, rfl, rfl, rfl, rfl, rfl⟩
  · simp only [pure, Option.some.injEq] at h
    subst h
    exact ⟨rfl, rfl, rfl, rfl, rfl, rfl, rfl⟩

theorem create_line_store_only {tty s : Console_tty} {k : LineType} {t : U32String} {a : Nat}
    (h : console_create_line tty k t = some (a, s)) : StoreOnly tty s := by
  rw [console_create_line_eq] at h
  simp only [Option.bind_eq_some, Option.some.injEq, Prod.mk.injEq] at h
  obtain ⟨t2, h2, t3, h3, -, rfl⟩ := h
  have := (insert_store_only h2).trans (chop_store_only h3)
  exact ⟨this.prompt, this.scroll_offset, this.max_lines, this.input_complete_q,
    this.cv_input_completed, this.event_q, this.status⟩

theorem scroll_cases {tty s : Console_tty} {rows : Int} {dir : NavDirection}
    (h : console_on_scroll tty rows dir = some s) :
    ∃ offset, s = { tty with scroll_offset := offset } := by
  unfold console_on_scroll at h
  simp only [Option.map_eq_some'] at h
  obtain ⟨o, -, rfl⟩ := h
  exact ⟨_, rfl⟩

theorem recall_cases {tty s : Console_tty} {dir : NavDirection}
    (h : console_update_prompt_from_history tty dir = some s) :
    s = tty ∨ ∃ line l, deref tty.heap line = some l ∧ s = recalled tty line l.text := by
  unfold console_update_prompt_from_history at h
  split at h
  · exact Or.inl (Option.some.inj h).symm
  · simp only [Option.bind_eq_some] at h
    obtain ⟨c, -, found, -, h⟩ := h
    cases found with
    | none => exact Or.inl (Option.some.inj h).symm
    | some line =>
      simp only [Option.map_eq_some'] at h
      obtain ⟨l, hl, rfl⟩ := h
      exact Or.inr ⟨line, l, hl, rfl⟩

theorem new_input_line_cases {tty s : Console_tty} {text : U32String} {r : Int}
    (h : console_on_new_input_line tty text = some (r, s)) :
    ∃ a t2, console_create_line tty LineType.input text = some (a, t2) ∧ r = 0 ∧
      s = { t2 with
        input_complete_q := t2.input_complete_q ++ [t2.prompt.input]
        cv_input_completed := true
        prompt := { t2.prompt with input := [], cursor := 0, rebuild := true } } := by
  unfold console_on_new_input_line at h
  simp only [Option.map_eq_some', console_update_io_texture, ne_eq, not_true_eq_false,
    if_false, Prod.mk.injEq, Prod.exists] at h
  obtain ⟨a, t2, hc, rfl, rfl⟩ := h
  exact ⟨a, t2, hc, rfl, rfl⟩

theorem new_output_line_cases {tty s : Console_tty} {text : U32String} {r : Int}
    (h : console_on_new_output_line tty text = some (r, s)) :
    ∃ a, console_create_line tty LineType.output text = some (a, s) ∧ r = 0 := by
  unfold console_on_new_output_line at h
  simp only [Option.map_eq_some', console_update_io_texture, ne_eq, not_true_eq_false,
    if_false, Prod.mk.injEq, Prod.exists] at h
  obtain ⟨a, t2, hc, rfl, rfl⟩ := h
  exact ⟨a, hc, rfl⟩

theorem new_input_cases {tty s : Console_tty} {str : U32String}
    (h : console_on_new_input tty str = some s) :
    tty.prompt.cursor ≤ tty.prompt.input.length ∧
    s = { tty with prompt := { tty.prompt with
        input := tty.prompt.input.take tty.prompt.cursor ++ str ++
          tty.prompt.input.drop tty.prompt.cursor
        cursor := size_add tty.prompt.cursor str.length
        rebuild := true } } := by
  unfold console_on_new_input at h
  by_cases heq : tty.prompt.cursor = tty.prompt.input.length
  · rw [if_pos heq, Option.map_some'] at h
    refine ⟨by omega, ?_⟩
    rw [← Option.some.inj h, heq, List.take_length, List.drop_length, List.append_nil]
  · rw [if_neg heq] at h
    by_cases hgt : tty.prompt.cursor > tty.prompt.input.length
    · rw [if_pos hgt] at h
      cases h
    · rw [if_neg hgt, Option.map_some'] at h
      exact ⟨by omega, (Option.some.inj h).symm⟩

theorem remove_input_cases {tty s : Console_tty} (h : console_on_remove_input tty = some s) :
    s = tty ∨
    (0 < tty.prompt.cursor ∧ tty.prompt.cursor ≤ tty.prompt.input.length ∧
      ∃ input, input.length + 1 = tty.prompt.input.length ∧
        s = { tty with prompt := { tty.prompt with
          input := input, cursor := tty.prompt.cursor - 1, rebuild := true } }) := by
  unfold console_on_remove_input at h
  by_cases h0 : tty.prompt.cursor = 0 ∨ tty.prompt.input.length = 0
  · rw [if_pos h0] at h
    exact Or.inl (Option.some.inj h).symm
  · rw [if_neg h0] at h
    have hc : 0 < tty.prompt.cursor := by omega
    have hl : 0 < tty.prompt.input.length := by omega
    by_cases heq : tty.prompt.input.length = tty.prompt.cursor
    · simp only [if_pos heq, Option.map_some', Option.some.injEq] at h
      refine Or.inr ⟨hc, by omega, _, ?_, h.symm⟩
      rw [List.length_dropLast]
      omega
    · simp only [if_neg heq] at h
      by_cases hgt : tty.prompt.cursor > tty.prompt.input.length
      · simp [if_pos hgt] at h
      · simp only [if_neg hgt, Option.map_some', Option.some.injEq] at h
        refine Or.inr ⟨hc, by omega, _, ?_, h.symm⟩
        rw [List.length_eraseIdx]
        rw [if_pos (by omega)]
        omega

theorem new_input_line_event_q {tty s : Console_tty} {text : U32String} {r : Int}
    (h : console_on_new_input_line tty text = some (r, s)) : s.event_q = tty.event_q := by
  obtain ⟨a, t2, hc, -, rfl⟩ := new_input_line_cases h
  exact (create_line_store_only hc).event_q

theorem key_down_event_q {env : SDL_Env} {tty s : Console_tty} {sym : SDL_Keycode}
    (h : console_on_key_down env tty sym = some s) : s.event_q = tty.event_q := by
  cases sym <;> simp only [console_on_key_down] at h
  case TAB =>
    simp only [Option.map_eq_some', Prod.exists, exists_eq_right] at h
    obtain ⟨r, h⟩ := h
    exact new_input_line_event_q h
  case BACKSPACE =>
    rcases remove_input_cases h with rfl | ⟨-, -, input, -, rfl⟩ <;> rfl
  case RETURN =>
    simp only [Option.map_eq_some', Prod.exists, exists_eq_right] at h
    obtain ⟨r, h⟩ := h
    exact new_input_line_event_q h
  case c => rw [← Option.some.inj h]
  case v =>
    split at h
    · rw [(new_input_cases h).2]
    · rw [← Option.some.inj h]
  case UP =>
    rcases recall_cases h with rfl | ⟨line, l, -, rfl⟩ <;> rfl
  case DOWN =>
    rcases recall_cases h with rfl | ⟨line, l, -, rfl⟩ <;> rfl
  case PAGEUP => obtain ⟨o, rfl⟩ := scroll_cases h; rfl
  case PAGEDOWN => obtain ⟨o, rfl⟩ := scroll_cases h; rfl
  case LEFT => split at h <;> rw [← Option.some.inj h]
  case RIGHT => split at h <;> rw [← Option.some.inj h]
  case other => rw [← Option.some.inj h]

theorem process_event_q {env : SDL_Env} {tty s : Console_tty} {e : SDL_Event}
    (h : console_process_sdl_event env tty e = some s) : s.event_q = tty.event_q := by
  cases e <;> simp only [console_process_sdl_event] at h
  case window_resized => rw [← Option.some.inj h]
  case mousewheel y =>
    split at h
    · obtain ⟨o, rfl⟩ := scroll_cases h; rfl
    · split at h
      · obtain ⟨o, rfl⟩ := scroll_cases h; rfl
      · rw [← Option.some.inj h]
  case mousebuttondown right y =>
    simp only [console_on_mouse_button_down, Option.map_eq_some'] at h
    obtain ⟨heap, -, rfl⟩ := h
    rfl
  case keydown sym => exact key_down_event_q h
  case textinput text => rw [(new_input_cases h).2]
  case other => rw [← Option.some.inj h]

theorem run_event_q {f : ApiCall} {tty s : Console_tty} (h : f.run tty = some s) :
    s.event_q = tty.event_q := by
  cases f <;> simp only [ApiCall.run] at h
  case set_prompt str => rw [← Option.some.inj h]
  case add_line str =>
    simp only [Option.map_eq_some', Prod.exists, exists_eq_right] at h
    obtain ⟨r, h⟩ := h
    obtain ⟨a, hc, -⟩ := new_output_line_cases h
    exact (create_line_store_only hc).event_q
  case clear =>
    simp only [console_clear, Option.map_eq_some'] at h
    obtain ⟨heap, -, rfl⟩ := h
    rfl
  case shutdown => rw [← Option.some.inj h]

theorem drain_sdl_eq (env : SDL_Env) : ∀ (es : List SDL_Event) (fuel : Nat) (tty : Console_tty),
    tty.event_q.sdl_queue = es → es.length < fuel →
    drain_sdl env fuel tty = apply_events env es tty
  | _, 0, _, _, hf => by simp at hf
  | [], fuel + 1, tty, hq, _ => by
    simp only [drain_sdl, EventQueue.pop_sdl, hq, apply_events]
  | e :: rest, fuel + 1, tty, hq, hf => by
    simp only [drain_sdl, EventQueue.pop_sdl, hq, apply_events]
    cases hp : console_process_sdl_event env
        { tty with event_q := { tty.event_q with sdl_queue := rest } } e with
    | none => rfl
    | some s =>
      simp only [Option.some_bind]
      exact drain_sdl_eq env rest fuel s (by rw [process_event_q hp])
        (by simpa using hf)

theorem drain_api_eq : ∀ (fs : List ApiCall) (fuel : Nat) (tty : Console_tty),
    tty.event_q.api_queue = fs → fs.length < fuel →
    drain_api fuel tty = apply_calls fs tty
  | _, 0, _, _, hf => by simp at hf
  | [], fuel + 1, tty, hq, _ => by
    simp only [drain_api, EventQueue.pop_api, hq, apply_calls]
  | f :: rest, fuel + 1, tty, hq, hf => by
    simp only [drain_api, EventQueue.pop_api, hq, apply_calls]
    cases hp : f.run { tty with event_q := { tty.event_q with api_queue := rest } } with
    | none => rfl
    | some s =>
      simp only [Option.some_bind]
      exact drain_api_eq rest fuel s (by rw [run_event_q hp]) (by simpa using hf)

theorem apply_events_event_q (env : SDL_Env) : ∀ (es : List SDL_Event) (tty s : Console_tty),
    apply_events env es tty = some s →
    s.event_q = { tty.event_q with sdl_queue := [] } ∨ (es = [] ∧ s = tty)
  | [], tty, s, h => Or.inr ⟨rfl, (Option.some.inj h).symm⟩
  | e :: rest, tty, s, h => by
    simp only [apply_events, Option.bind_eq_some] at h
    obtain ⟨t, ht, hs⟩ := h
    have hq := process_event_q ht
    rcases apply_events_event_q env rest t s hs with h1 | ⟨rfl, rfl⟩
    · left; rw [h1, hq]
    · left; rw [hq]

theorem apply_calls_event_q : ∀ (fs : List ApiCall) (tty s : Console_tty),
    apply_calls fs tty = some s →
    s.event_q = { tty.event_q with api_queue := [] } ∨ (fs = [] ∧ s = tty)
  | [], tty, s, h => Or.inr ⟨rfl, (Option.some.inj h).symm⟩
  | f :: rest, tty, s, h => by
    simp only [apply_calls, Option.bind_eq_some] at h
    obtain ⟨t, ht, hs⟩ := h
    have hq := run_event_q ht
    rcases apply_calls_event_q rest t s hs with h1 | ⟨rfl, rfl⟩
    · left; rw [h1, hq]
    · left; rw [hq]

theorem Console_Draw_drain_eq (env : SDL_Env) (tty : Console_tty) :
    Console_Draw_drain env tty =
      (apply_events env tty.event_q.sdl_queue tty).bind
        (apply_calls tty.event_q.api_queue) := by
  unfold Console_Draw_drain
  rw [drain_sdl_eq env _ _ tty rfl (Nat.lt_succ_self _)]
  cases h : apply_events env tty.event_q.sdl_queue tty with
  | none => rfl
  | some t =>
    simp only [Option.some_bind]
    have hq : t.event_q.api_queue = tty.event_q.api_queue := by
      rcases apply_events_event_q env _ tty t h with h1 | ⟨-, rfl⟩
      · rw [h1]
      · rfl
    rw [drain_api_eq _ _ t rfl (Nat.lt_succ_self _), hq]

theorem Console_Draw_drain_empty {env : SDL_Env} {tty s : Console_tty}
    (h : Console_Draw_drain env tty = some s) :
    s.event_q = { tty.event_q with sdl_queue := [], api_queue := [] } := by
  rw [Console_Draw_drain_eq, Option.bind_eq_some] at h
  obtain ⟨t, ht, hs⟩ := h
  have h1 : t.event_q.sdl_queue = [] ∧ t.event_q.api_queue = tty.event_q.api_queue ∧
      t.event_q.got_some = tty.event_q.got_some := by
    rcases apply_events_event_q env _ tty t ht with h1 | ⟨h2, rfl⟩
    · rw [h1]; exact ⟨rfl, rfl, rfl⟩
    · exact ⟨h2, rfl, rfl⟩
  have h2 : s.event_q.sdl_queue = [] ∧ s.event_q.api_queue = [] ∧
      s.event_q.got_some = tty.event_q.got_some := by
    rcases apply_calls_event_q _ t s hs with h3 | ⟨h4, rfl⟩
    · rw [h3]; exact ⟨h1.1, rfl, h1.2.2⟩
    · exact ⟨h1.1, h1.2.1.trans h4, h1.2.2⟩
  cases hq : s.event_q
  rw [hq] at h2
  simp only [EventQueue.mk.injEq]
  exact h2

theorem Linked.congr {tty s : Console_tty} {as : List Nat} (h : Linked tty as)
    (h1 : s.heap = tty.heap) (h2 : s.lines_head = tty.lines_head)
    (h3 : s.lines_tail = tty.lines_tail) (h4 : s.num_lines = tty.num_lines) : Linked s as :=
  ⟨by rw [h1, h2]; exact h.chain, by rw [h3]; exact h.tail, h.nodup, by rw [h4]; exact h.count⟩

theorem entries_congr {tty s : Console_tty} (h1 : s.heap = tty.heap)
    (h2 : s.lines_head = tty.lines_head) : entries s = entries tty := by
  simp only [entries, lines, h1, h2]

theorem Linked.num_lines_eq {tty : Console_tty} {as : List Nat} (h : Linked tty as) :
    tty.num_lines = (entries tty).length := by
  rw [h.count, h.entries_length]

theorem run_add_line {t : Console_tty} {as : List Nat} {m : Nat} (hL : Linked t as)
    (hm : 1 ≤ m) (hsz : m < SIZE_MOD) (hlen : as.length ≤ m) (hmax : t.max_lines = m)
    (x : U32String) :
    ∃ s bs, (ApiCall.add_line x).run t = some s ∧ Linked s (t.heap.length :: bs) ∧
      bs.length + 1 ≤ m ∧ entries s = ((LineType.output, x) :: entries t).take m ∧
      s.lines_head = some t.heap.length ∧ StoreOnly t s := by
  obtain ⟨s, bs, l, heq, hL2, hlen2, -, hent, hhead, -⟩ :=
    create_line_entries hL hm hsz hlen hmax LineType.output x
  refine ⟨s, bs, ?_, hL2, hlen2, hent, hhead, create_line_store_only heq⟩
  simp [ApiCall.run, console_on_new_output_line, heq, console_update_io_texture]

theorem run_add_line_q {t : Console_tty} {as : List Nat} {m : Nat} (hL : Linked t as)
    (hm : 1 ≤ m) (hsz : m < SIZE_MOD) (hlen : as.length ≤ m) (hmax : t.max_lines = m)
    (q : EventQueue) (x : U32String) :
    ∃ s bs, (ApiCall.add_line x).run { t with event_q := q } = some s ∧
      Linked s (t.heap.length :: bs) ∧
      entries s = ((LineType.output, x) :: entries t).take m ∧
      s.prompt = t.prompt ∧ s.max_lines = t.max_lines := by
  obtain ⟨s, bs, hrun, hL2, -, hent, -, hso⟩ :=
    run_add_line (hL.congr (s := { t with event_q := q }) rfl rfl rfl rfl) hm hsz hlen hmax x
  exact ⟨s, bs, hrun, hL2, hent, hso.prompt, hso.max_lines⟩

theorem apply_add_lines {m : Nat} (hm : 1 ≤ m) (hsz : m < SIZE_MOD) :
    ∀ (xs : List U32String) (t : Console_tty) (as : List Nat),
      Linked t as → as.length + xs.length ≤ m → t.max_lines = m →
      ∃ s bs, apply_calls (xs.map ApiCall.add_line) t = some s ∧ Linked s bs ∧
        entries s = (xs.reverse.map fun x => (LineType.output, x)) ++ entries t ∧
        s.prompt = t.prompt ∧ s.max_lines = m
  | [], t, as, hL, _, hmax => ⟨t, as, rfl, hL, by simp, rfl, hmax⟩
  | x :: rest, t, as, hL, hlen, hmax => by
    simp only [List.length_cons] at hlen
    obtain ⟨s1, bs, hrun, hL1, hent1, hp1, hmax1⟩ :=
      run_add_line_q hL hm hsz (by omega) hmax
        { t.event_q with api_queue := rest.map ApiCall.add_line } x
    have hel : (entries t).length = as.length := hL.entries_length
    have hent2 : entries s1 = (LineType.output, x) :: entries t := by
      rw [hent1, List.take_of_length_le]
      rw [List.length_cons, hel]
      omega
    have hbs : bs.length = as.length := by
      have h1 := hL1.entries_length
      rw [hent2, List.length_cons, List.length_cons, hel] at h1
      omega
    obtain ⟨s, cs, hs, hLs, hents, hp, hmaxs⟩ :=
      apply_add_lines hm hsz rest s1 _ hL1 (by simp only [List.length_cons]; omega)
        (hmax1.trans hmax)
    refine ⟨s, cs, ?_, hLs, ?_, hp.trans hp1, hmaxs⟩
    · have hstep : apply_calls ((x :: rest).map ApiCall.add_line) t =
          ((ApiCall.add_line x).run { t with event_q := { t.event_q with
            api_queue := rest.map ApiCall.add_line } }).bind
            (apply_calls (rest.map ApiCall.add_line)) := rfl
      rw [hstep, hrun, Option.some_bind, hs]
    · rw [hents, hent2]
      simp

theorem drain_add_lines (env : SDL_Env) {t : Console_tty} {as : List Nat}
    (xs : List U32String) (hL : Linked t as) (hcap : as.length + xs.length ≤ t.max_lines)
    (hm : 1 ≤ t.max_lines) (hsz : t.max_lines < SIZE_MOD) (h1 : t.event_q.sdl_queue = [])
    (h2 : t.event_q.api_queue = xs.map ApiCall.add_line) :
    ∃ s, Console_Draw_drain env t = some s ∧
      entries s = (xs.reverse.map fun x => (LineType.output, x)) ++ entries t ∧
      s.num_lines = t.num_lines + xs.length ∧ s.prompt = t.prompt := by
  obtain ⟨s, bs, hs, hLs, hent, hp, -⟩ := apply_add_lines hm hsz xs t as hL hcap rfl
  refine ⟨s, ?_, hent, ?_, hp⟩
  · rw [Console_Draw_drain_eq, h1, h2]
    exact hs
  · rw [hLs.num_lines_eq, hent, hL.num_lines_eq]
    simp
    omega

theorem deref_release_same (heap : Heap) (p : Nat) : deref (release heap p) p = none := by
  simp [deref, release, List.getElem?_set]

theorem deref_release_other (heap : Heap) {p q : Nat} (h : p ≠ q) :
    deref (release heap p) q = deref heap q :=
  deref_set_other heap p q none h

theorem clear_loop_chain : ∀ (as : List Nat) (heap : Heap) (pv p : Option Nat) (fuel : Nat),
    Chain heap pv p as → as.Nodup →
    (∀ q, pv = some q → (∃ l, deref heap q = some l) ∧ q ∉ as) → as.length < fuel →
    ∃ heap2, console_clear_loop heap fuel p = some heap2 ∧
      (∀ a ∈ as, deref heap2 a = none) ∧
      (as ≠ [] → ∀ q, pv = some q → deref heap2 q = none) ∧
      (∀ x, x ∉ as → pv ≠ some x → deref heap2 x = deref heap x)
  | _, _, _, _, 0, _, _, _, hf => by simp at hf
  | [], heap, pv, p, fuel + 1, hc, _, _, _ => by
    have hp : p = none := hc
    subst hp
    exact ⟨heap, rfl, by simp, fun h => absurd rfl h, fun _ _ _ => rfl⟩
  | a :: rest, heap, pv, p, fuel + 1, ⟨hp, l, hl, hpv, hch⟩, hnd, hq, hf => by
    subst hp
    have hnd1 := List.nodup_cons.1 hnd
    -- the free store after the predecessor has been deleted
    obtain ⟨heap1, hloop, h1a, h1q, h1o⟩ : ∃ heap1,
        console_clear_loop heap (fuel + 1) (some a) =
          (match l.next with
          | none => some (release heap1 a)
          | some next => console_clear_loop heap1 fuel (some next)) ∧
        deref heap1 a = some l ∧ (∀ q, pv = some q → deref heap1 q = none) ∧
        (∀ x, pv ≠ some x → deref heap1 x = deref heap x) := by
      subst hpv
      cases hprev : l.prev with
      | none =>
        refine ⟨heap, ?_, hl, fun q h => Option.noConfusion h, fun _ _ => rfl⟩
        simp only [console_clear_loop, hl, Option.some_bind, hprev]
      | some q =>
        obtain ⟨⟨lq, hlq⟩, hqn⟩ := hq q hprev
        have hqa : q ≠ a := fun h => hqn (h ▸ List.mem_cons_self _ _)
        have h1 : deref (release heap q) a = some l := by
          rw [deref_release_other heap hqa, hl]
        refine ⟨release heap q, ?_, h1, ?_, ?_⟩
        · simp only [console_clear_loop, hl, Option.some_bind, hprev, hlq, Option.map_some',
            h1]
        · intro q2 h2
          cases h2
          exact deref_release_same heap q
        · intro x hx
          exact deref_release_other heap fun h => hx (by rw [h])
    rw [hloop]
    cases rest with
    | nil =>
      have hn : l.next = none := hch
      rw [hn]
      refine ⟨release heap1 a, rfl, ?_, ?_, ?_⟩
      · intro b hb
        rw [List.mem_singleton] at hb
        subst hb
        exact deref_release_same heap1 b
      · intro _ q hq2
        have hqa : a ≠ q := fun h => (hq q hq2).2 (h ▸ List.mem_cons_self _ _)
        rw [deref_release_other heap1 hqa, h1q q hq2]
      · intro x hx hpx
        have hxa : a ≠ x := fun h => hx (h ▸ List.mem_cons_self _ _)
        rw [deref_release_other heap1 hxa, h1o x hpx]
    | cons n rest2 =>
      have hn : l.next = some n := hch.1
      rw [hn]
      have hch1 : Chain heap1 (some a) (some n) (n :: rest2) := by
        rw [hn] at hch
        refine Chain.frame hch fun b hb => h1o b ?_
        intro h
        exact (hq b h).2 (List.mem_cons_of_mem _ hb)
      obtain ⟨heap2, h2, h2a, h2q, h2o⟩ :=
        clear_loop_chain (n :: rest2) heap1 (some a) (some n) fuel hch1 hnd1.2
          (fun q h => by
            cases h
            exact ⟨⟨l, h1a⟩, hnd1.1⟩)
          (by simpa using hf)
      refine ⟨heap2, h2, ?_, ?_, ?_⟩
      · intro b hb
        rcases List.mem_cons.1 hb with rfl | hb
        · exact h2q (List.cons_ne_nil _ _) b rfl
        · exact h2a b hb
      · intro _ q hq2
        have hqa : q ≠ a := fun h => (hq q hq2).2 (h ▸ List.mem_cons_self _ _)
        have hqr : q ∉ n :: rest2 := fun h => (hq q hq2).2 (List.mem_cons_of_mem _ h)
        rw [h2o q hqr (fun h => hqa (Option.some.inj h).symm), h1q q hq2]
      · intro x hx hpx
        have hxa : x ≠ a := fun h => hx (h ▸ List.mem_cons_self _ _)
        have hxr : x ∉ n :: rest2 := fun h => hx (List.mem_cons_of_mem _ h)
        rw [h2o x hxr (fun h => hxa (Option.some.inj h).symm), h1o x hpx]

theorem console_clear_linked {tty : Console_tty} {as : List Nat} (hL : Linked tty as) :
    ∃ heap2, console_clear tty = some
        { tty with heap := heap2, lines_head := none, lines_tail := none, num_lines := 0 } ∧
      (∀ a ∈ as, deref heap2 a = none) ∧ (∀ x, x ∉ as → deref heap2 x = deref tty.heap x) := by
  obtain ⟨heap2, h, ha, -, ho⟩ :=
    clear_loop_chain as tty.heap none tty.lines_head (tty.heap.length + 1) hL.chain hL.nodup
      (fun q h => by cases h) (Nat.lt_succ_of_le hL.length_le)
  exact ⟨heap2, by simp [console_clear, h], ha, fun x hx => ho x hx (by simp)⟩

/-- C15, as amended.  `Console_SetMaxLines` does not go through the call
queue: it writes `max_lines` at once and changes nothing else, so the lines
and their count are as before and no call is queued.  `Console_Clear` changes
nothing but the call queue, to which it appends one call, and the `got_some`
flag; on a well-formed store with nothing else queued, the store is emptied
when that call is drained: every line is released, head and tail are null,
the count is 0 and `max_lines` is as before. -/
theorem clear_is_queued_max_lines_is_written (env : SDL_Env) (tty : Console_tty)
    (as : List Nat) (n : Nat) (hL : Linked tty as)
    (hq : tty.event_q.sdl_queue = [] ∧ tty.event_q.api_queue = []) :
    Console_SetMaxLines tty n = { tty with max_lines := n } ∧
    Console_Clear tty =
      { tty with event_q := { tty.event_q with
          api_queue := tty.event_q.api_queue ++ [ApiCall.clear], got_some := true } } ∧
    ∃ s, Console_Draw_drain env (Console_Clear tty) = some s ∧
      lines s = [] ∧ s.lines_head = none ∧ s.lines_tail = none ∧ s.num_lines = 0 ∧
      s.max_lines = tty.max_lines ∧ ∀ a ∈ as, deref s.heap a = none := by
  refine ⟨rfl, rfl, ?_⟩
  obtain ⟨heap2, hclear, hrel, -⟩ :=
    console_clear_linked (hL.congr (s := { tty with event_q :=
      { (Console_Clear tty).event_q with api_queue := [] } }) rfl rfl rfl rfl)
  refine ⟨{ tty with
      event_q := { (Console_Clear tty).event_q with api_queue := [] }
      heap := heap2, lines_head := none, lines_tail := none, num_lines := 0 },
    ?_, ?_, rfl, rfl, rfl, rfl, hrel⟩
  · rw [Console_Draw_drain_eq]
    have h1 : (Console_Clear tty).event_q.sdl_queue = [] := hq.1
    have h2 : (Console_Clear tty).event_q.api_queue = [ApiCall.clear] := by
      simp [Console_Clear, EventQueue.push_api, hq.2]
    rw [h1, h2]
    have hstep : (apply_events env [] (Console_Clear tty)).bind (apply_calls [ApiCall.clear]) =
        (console_clear { tty with event_q :=
          { (Console_Clear tty).event_q with api_queue := [] } }).bind (apply_calls []) := rfl
    rw [hstep, hclear]
    rfl
  · exact Linked.lines_eq ⟨rfl, rfl, List.nodup_nil, rfl⟩

/-- C15 as stated fails for `setMaxLines`: `Console_SetMaxLines` with 1 on the
initial state changes the capacity from 512 to 1 at once and queues no call. -/
theorem set_max_lines_counterexample :
    Console_tty.init.max_lines = 512 ∧
    (Console_SetMaxLines Console_tty.init 1).max_lines = 1 ∧
    (Console_SetMaxLines Console_tty.init 1).event_q.api_queue = [] := by
  decide

/-- C18 at the failing input: the store of the history scenario, whose history
cursor is on the head (address 3), is cleared.  The head is null and the line
at address 3 is released, but `curr_history` still holds address 3; the next
recall, up or down, reads `curr_history->next` or `->prev` through that
released line, which is undefined behaviour (`none`). -/
theorem clear_leaves_history_cursor :
    (console_clear history_example).map
        (fun s => (s.lines_head, s.curr_history, deref s.heap 3)) = some (none, some 3, none) ∧
    (console_clear history_example).bind
        (fun s => console_update_prompt_from_history s NavDirection.up) = none ∧
    (console_clear history_example).bind
        (fun s => console_update_prompt_from_history s NavDirection.down) = none := by
  decide

/-- C15, as amended, on the store of the history scenario with the new capacity 7. -/
theorem clear_is_queued_max_lines_is_written_witness :
    Linked history_example [3, 2, 1, 0] ∧
    (history_example.event_q.sdl_queue = [] ∧ history_example.event_q.api_queue = []) ∧
    (Console_SetMaxLines history_example 7 = { history_example with max_lines := 7 } ∧
    Console_Clear history_example =
      { history_example with event_q := { history_example.event_q with
          api_queue := history_example.event_q.api_queue ++ [ApiCall.clear],
          got_some := true } } ∧
    ∃ s, Console_Draw_drain { ctrl := false, clipboard := [], rows := 24 }
        (Console_Clear history_example) = some s ∧
      lines s = [] ∧ s.lines_head = none ∧ s.lines_tail = none ∧ s.num_lines = 0 ∧
      s.max_lines = history_example.max_lines ∧ ∀ a ∈ [3, 2, 1, 0], deref s.heap a = none) :=
  ⟨by decide, ⟨rfl, rfl⟩,
    clear_is_queued_max_lines_is_written { ctrl := false, clipboard := [], rows := 24 }
      history_example [3, 2, 1, 0] 7 (by decide) ⟨rfl, rfl⟩⟩

theorem Console_ReadLine_front {tty : Console_tty} {front : U32String}
    {rest : List U32String} (buf : String) (hs : tty.status = State.claimed)
    (hq : tty.input_complete_q = front :: rest) :
    Console_ReadLine tty buf =
      Call.returned { tty with input_complete_q := rest } (to_utf8 front)
        (size_to_int (to_utf8 front).utf8ByteSize) := by
  unfold Console_ReadLine
  rw [hq]
  simp [hs]

theorem read_lines_take : ∀ (n : Nat) (q : List U32String) (tty : Console_tty),
    tty.status = State.claimed → tty.input_complete_q = q → n ≤ q.length →
    read_lines n tty = some ((q.take n).map to_utf8, { tty with input_complete_q := q.drop n })
  | 0, q, tty, _, hq, _ => by
    simp only [read_lines, List.take_zero, List.map_nil, List.drop_zero, ← hq]
  | n + 1, [], _, _, _, hn => by simp at hn
  | n + 1, front :: rest, tty, hs, hq, hn => by
    rw [read_lines, Console_ReadLine_front "" hs hq]
    simp only
    rw [read_lines_take n rest { tty with input_complete_q := rest } hs rfl
      (by simpa using hn)]
    rfl

end SDLConsole

namespace DFHack

open SDLConsole

theorem lineedit_eq (rc : lineedit_result) {c : Console} {p : Private} {tty : Console_tty}
    (prompt output : String) (hinit : c.inited = true) (hd : c.d = some p)
    (hsh : p.status ≠ console_state.con_shutdown) (ht : p.tty = some tty) :
    Console.lineedit rc c prompt output =
      some (Console.lineedit_ret rc c
        (if prompt ≠ p.prompt then
          Private.with_tty { p with prompt := prompt }
            (Console_ReadLine (Console_SetPrompt tty (from_utf8 prompt)) output) rc
        else Private.with_tty p (Console_ReadLine tty output) rc)) := by
  have h1 : p.is_shutdown = false := by simp [Private.is_shutdown, hsh]
  simp [Console.lineedit, hinit, hd, Private.lineedit, h1, ht]

theorem lineedit_ret_returned (rc : lineedit_result) (c : Console) (p2 : Private)
    (buf : String) (ret : Int) :
    ∃ c2 code, Console.lineedit_ret rc c (Call.returned p2 buf ret) = Call.returned c2 buf code ∧
      c2.d = some p2 := by
  simp only [Console.lineedit_ret]
  by_cases h1 : ret = rc.SHUTDOWN
  · exact ⟨_, _, by rw [if_pos h1], rfl⟩
  · by_cases h2 : ret = 0
    · exact ⟨_, _, by rw [if_neg h1, if_pos h2], rfl⟩
    · exact ⟨_, _, by rw [if_neg h1, if_neg h2], rfl⟩

/-- Through the facade, when `Console_ReadLine` returns: the call returns with the same
buffer and with the state that `Console_ReadLine` left, and a result 0 is reported as
`RETRY`. -/
theorem lineedit_returned (rc : lineedit_result) {c : Console} {p : Private}
    {tty : Console_tty} (prompt output : String) (hinit : c.inited = true) (hd : c.d = some p)
    (hsh : p.status ≠ console_state.con_shutdown) (ht : p.tty = some tty)
    {t2 : Console_tty} {buf : String} {ret : Int}
    (hread : Console_ReadLine
      (if prompt ≠ p.prompt then Console_SetPrompt tty (from_utf8 prompt) else tty) output
        = Call.returned t2 buf ret) :
    ∃ r, Console.lineedit rc c prompt output = some r ∧ r.ret ≠ none ∧ r.buf = buf ∧
      r.state.tty = some t2 ∧ (ret = 0 → r.ret = some rc.RETRY) := by
  rw [lineedit_eq rc prompt output hinit hd hsh ht]
  have key : ∀ p1 : Private, ∃ r,
      some (Console.lineedit_ret rc c (Private.with_tty p1 (Call.returned t2 buf ret) rc))
        = some r ∧ r.ret ≠ none ∧ r.buf = buf ∧ r.state.tty = some t2 ∧
        (ret = 0 → r.ret = some rc.RETRY) := by
    intro p1
    obtain ⟨c2, code, h, hd2⟩ :=
      lineedit_ret_returned rc c { p1 with tty := some t2 } buf (Private.lineedit_ret rc ret)
    refine ⟨_, rfl, ?_, ?_, ?_, ?_⟩
    · change (Console.lineedit_ret rc c (Call.returned _ buf _)).ret ≠ none
      rw [h]
      simp [Call.ret]
    · change (Console.lineedit_ret rc c (Call.returned _ buf _)).buf = buf
      rw [h]
      rfl
    · change (Console.lineedit_ret rc c (Call.returned _ buf _)).state.tty = some t2
      rw [h]
      simp [Call.state, Console.tty, hd2]
    · intro h0
      subst h0
      exact lineedit_ret_retry rc c _ buf
  by_cases hpr : prompt ≠ p.prompt
  · rw [if_pos hpr] at hread ⊢
    rw [hread]
    exact key _
  · rw [if_neg hpr] at hread ⊢
    rw [hread]
    exact key _

/-- C12 (the input queue is first in, first out).  On a claimed session whose
queue of completed lines is `front :: rest`: `Console_ReadLine` returns
without waiting, fills the buffer with the text of `front`, the oldest line
(the buffer decodes to exactly that text), and leaves `rest` in its order;
`n` reads in a row deliver the first `n` queued lines in order and leave the
others in order.  Through the facade `lineedit` returns as well, with the
same buffer and the same remaining queue. -/
theorem read_line_fifo (rc : lineedit_result) (c : Console) (p : Private)
    (tty : Console_tty) (front : U32String) (rest : List U32String) (prompt output : String)
    (hinit : c.inited = true) (hd : c.d = some p)
    (hp : p.status = console_state.con_claimed) (ht : p.tty = some tty)
    (hs : tty.status = State.claimed) (hq : tty.input_complete_q = front :: rest) :
    Console_ReadLine tty output =
      Call.returned { tty with input_complete_q := rest } (to_utf8 front)
        (size_to_int (to_utf8 front).utf8ByteSize) ∧
    (to_utf8 front).toList = front ∧
    (∀ n, n ≤ (front :: rest).length →
      read_lines n tty = some (((front :: rest).take n).map to_utf8,
        { tty with input_complete_q := (front :: rest).drop n })) ∧
    ∃ r, Console.lineedit rc c prompt output = some r ∧ r.ret ≠ none ∧
      r.buf = to_utf8 front ∧
      r.state.tty.map (fun t => t.input_complete_q) = some rest := by
  refine ⟨Console_ReadLine_front output hs hq, rfl,
    fun n hn => read_lines_take n _ tty hs hq hn, ?_⟩
  have hsh : p.status ≠ console_state.con_shutdown := by rw [hp]; decide
  have hread : ∃ t2, Console_ReadLine
      (if prompt ≠ p.prompt then Console_SetPrompt tty (from_utf8 prompt) else tty) output
        = Call.returned t2 (to_utf8 front) (size_to_int (to_utf8 front).utf8ByteSize) ∧
      t2.input_complete_q = rest := by
    by_cases hpr : prompt ≠ p.prompt
    · rw [if_pos hpr]
      exact ⟨_, Console_ReadLine_front output (by exact hs) (by exact hq), rfl⟩
    · rw [if_neg hpr]
      exact ⟨_, Console_ReadLine_front output hs hq, rfl⟩
  obtain ⟨t2, hr, hq2⟩ := hread
  obtain ⟨r, h1, h2, h3, h4, -⟩ := lineedit_returned rc prompt output hinit hd hsh ht hr
  exact ⟨r, h1, h2, h3, by rw [h4]; simp [hq2]⟩

theorem Console_ReadLine_not_claimed (tty : Console_tty) (buf : String)
    (hs : tty.status ≠ State.claimed) : Console_ReadLine tty buf = Call.returned tty buf 0 := by
  simp [Console_ReadLine, hs]

/-- C11 as stated fails: on a torn-down session that still has `inited` set,
`lineedit` returns `RETRY`, which is not `SHUTDOWN`, and it has queued a
prompt update. -/
theorem lineedit_not_claimed_counterexample :
    (Console.lineedit Console_h torn_down_example "[DFHack]# " "").bind Call.ret
      = some Console_h.RETRY ∧
    Console_h.RETRY ≠ Console_h.SHUTDOWN ∧
    ((Console.lineedit Console_h torn_down_example "[DFHack]# " "").bind
        fun r => r.state.tty.map fun t => t.event_q.api_queue)
      = some [ApiCall.set_prompt "[DFHack]# ".toList] := by
  decide

/-- C13 at the failing input: the first `lineedit` after a successful start,
with the empty prompt.  The displayed prompt is `default_prompt`, "> ", which
differs from the empty prompt, yet no call is queued (the comparison is with
the empty `Private::prompt`), so the displayed prompt stays "> ". -/
theorem first_lineedit_keeps_default_prompt :
    ((Console.lineedit Console_h (Console.init Console.new Console_tty.init true).1 "" "").bind
        fun r => r.state.tty.map fun t => (t.status, t.event_q.api_queue, t.prompt.prompt_text))
      = some (State.claimed, [], "> ".toList) ∧
    from_utf8 "" ≠ "> ".toList := by
  decide

/-- C17 (shutdown is idempotent).  `Console::shutdown` returns at once with the
state unchanged, nothing queued, nobody signalled and no join, on a console
on which an earlier `shutdown` has finished, on a console whose `init` failed
to create the console, on a console that was never initialised, and in general
whenever `inited` is clear. -/
theorem shutdown_idempotent :
    (∀ c : Console,
      Console.shutdown (Console.shutdown_joined c)
        = some (Progress.returned (Console.shutdown_joined c))) ∧
    (∀ (c : Console) (tty0 : Console_tty),
      Console.shutdown (Console.init c tty0 false).1
        = some (Progress.returned (Console.init c tty0 false).1)) ∧
    Console.shutdown Console.new = some (Progress.returned Console.new) ∧
    (∀ c : Console, c.inited = false → Console.shutdown c = some (Progress.returned c)) := by
  have key : ∀ c : Console, c.inited = false →
      Console.shutdown c = some (Progress.returned c) := by
    intro c h
    unfold Console.shutdown
    cases c.d with
    | none => rfl
    | some p => simp [h]
  exact ⟨fun c => key _ rfl, fun c tty0 => key _ rfl, rfl, key⟩

/-- C12 on a claimed console with the lines "ls" and "help" queued. -/
theorem read_line_fifo_witness :
    claimed_queue_example.inited = true ∧
    claimed_queue_example.d = some
      { tty := some { Console_tty.init with
          status := State.claimed, input_complete_q := ["ls".toList, "help".toList] }
        prompt := ""
        status := console_state.con_claimed } ∧
    (Console_ReadLine
        { Console_tty.init with
          status := State.claimed, input_complete_q := ["ls".toList, "help".toList] } "" =
      Call.returned
        { ({ Console_tty.init with
            status := State.claimed, input_complete_q := ["ls".toList, "help".toList] } :
            Console_tty) with input_complete_q := ["help".toList] }
        (to_utf8 "ls".toList) (size_to_int (to_utf8 "ls".toList).utf8ByteSize) ∧
    (to_utf8 "ls".toList).toList = "ls".toList ∧
    (∀ n, n ≤ ("ls".toList :: ["help".toList]).length →
      read_lines n { Console_tty.init with
          status := State.claimed, input_complete_q := ["ls".toList, "help".toList] } =
        some ((("ls".toList :: ["help".toList]).take n).map to_utf8,
          { ({ Console_tty.init with
              status := State.claimed, input_complete_q := ["ls".toList, "help".toList] } :
              Console_tty) with
            input_complete_q := ("ls".toList :: ["help".toList]).drop n })) ∧
    ∃ r, Console.lineedit Console_h claimed_queue_example "" "" = some r ∧ r.ret ≠ none ∧
      r.buf = to_utf8 "ls".toList ∧
      r.state.tty.map (fun t => t.input_complete_q) = some ["help".toList]) :=
  ⟨rfl, rfl,
    read_line_fifo Console_h claimed_queue_example _
      { Console_tty.init with
        status := State.claimed, input_complete_q := ["ls".toList, "help".toList] }
      "ls".toList ["help".toList] "" "" rfl rfl rfl rfl rfl rfl⟩

end DFHack

namespace SDLConsole

theorem cursor_ok_new_input {tty s : Console_tty} {str : U32String} (hc : cursor_ok tty)
    (hsz : tty.prompt.input.length + str.length < SIZE_MOD)
    (h : console_on_new_input tty str = some s) : cursor_ok s := by
  obtain ⟨-, rfl⟩ := new_input_cases h
  unfold cursor_ok at hc ⊢
  have hadd : size_add tty.prompt.cursor str.length = tty.prompt.cursor + str.length :=
    Nat.mod_eq_of_lt (by omega)
  simp only [hadd, List.length_append, List.length_take, List.length_drop]
  omega

theorem cursor_ok_remove_input {tty s : Console_tty} (hc : cursor_ok tty)
    (h : console_on_remove_input tty = some s) : cursor_ok s := by
  rcases remove_input_cases h with rfl | ⟨h0, h1, input, hlen, rfl⟩
  · exact hc
  · unfold cursor_ok
    simp only
    omega

theorem cursor_ok_recall {tty s : Console_tty} {dir : NavDirection} (hc : cursor_ok tty)
    (h : console_update_prompt_from_history tty dir = some s) : cursor_ok s := by
  rcases recall_cases h with rfl | ⟨line, l, -, rfl⟩
  · exact hc
  · exact Nat.le_refl _

theorem cursor_ok_new_input_line {tty s : Console_tty} {text : U32String} {r : Int}
    (h : console_on_new_input_line tty text = some (r, s)) : cursor_ok s := by
  obtain ⟨a, t2, -, -, rfl⟩ := new_input_line_cases h
  exact Nat.zero_le _

theorem cursor_ok_key_down {env : SDL_Env} {tty s : Console_tty} {sym : SDL_Keycode}
    (hc : cursor_ok tty) (hsz : tty.prompt.input.length + env.clipboard.length < SIZE_MOD)
    (h : console_on_key_down env tty sym = some s) : cursor_ok s := by
  cases sym <;> simp only [console_on_key_down] at h
  case TAB =>
    simp only [Option.map_eq_some', Prod.exists, exists_eq_right] at h
    obtain ⟨r, h⟩ := h
    exact cursor_ok_new_input_line h
  case BACKSPACE => exact cursor_ok_remove_input hc h
  case RETURN =>
    simp only [Option.map_eq_some', Prod.exists, exists_eq_right] at h
    obtain ⟨r, h⟩ := h
    exact cursor_ok_new_input_line h
  case c => rw [← Option.some.inj h]; exact hc
  case v =>
    split at h
    · exact cursor_ok_new_input hc hsz h
    · rw [← Option.some.inj h]; exact hc
  case UP => exact cursor_ok_recall hc h
  case DOWN => exact cursor_ok_recall hc h
  case PAGEUP => obtain ⟨o, rfl⟩ := scroll_cases h; exact hc
  case PAGEDOWN => obtain ⟨o, rfl⟩ := scroll_cases h; exact hc
  case LEFT =>
    unfold cursor_ok at hc ⊢
    split at h <;> rw [← Option.some.inj h]
    · simp only
      omega
    · exact hc
  case RIGHT =>
    unfold cursor_ok at hc ⊢
    split at h <;> rw [← Option.some.inj h]
    · rename_i hlt
      have hadd : size_add tty.prompt.cursor 1 = tty.prompt.cursor + 1 :=
        Nat.mod_eq_of_lt (by omega)
      simp only [hadd]
      omega
    · exact hc
  case other => rw [← Option.some.inj h]; exact hc

theorem cursor_ok_run {f : ApiCall} {tty s : Console_tty} (hc : cursor_ok tty)
    (h : f.run tty = some s) : cursor_ok s := by
  cases f <;> simp only [ApiCall.run] at h
  case set_prompt str => rw [← Option.some.inj h]; exact hc
  case add_line str =>
    simp only [Option.map_eq_some', Prod.exists, exists_eq_right] at h
    obtain ⟨r, h⟩ := h
    obtain ⟨a, hcl, -⟩ := new_output_line_cases h
    unfold cursor_ok
    rw [(create_line_store_only hcl).prompt]
    exact hc
  case clear =>
    simp only [console_clear, Option.map_eq_some'] at h
    obtain ⟨heap, -, rfl⟩ := h
    exact hc
  case shutdown => rw [← Option.some.inj h]; exact hc

/-- C19 (cursor invariant): the initial prompt has cursor 0 and empty input, and from a
state with cursor at most the input length every prompt operation that returns leaves the
cursor at most the input length: insertion (console_on_new_input), removal
(console_on_remove_input), every key of console_on_key_down (LEFT, RIGHT, BACKSPACE, paste,
RETURN, UP and DOWN recall included), history recall, and every queued API call (set_prompt,
add_line, clear, shutdown). Insertion, removal, LEFT, RIGHT and set_prompt always return,
LEFT at cursor 0 and RIGHT at the end of the input change nothing.
Lengths are below 2^64 as for any std::u32string. -/
theorem cursor_invariant (env : SDL_Env) (tty : Console_tty) (hc : cursor_ok tty)
    (hsz : tty.prompt.input.length + env.clipboard.length < SIZE_MOD) :
    cursor_ok Console_tty.init ∧
    (∀ str s, tty.prompt.input.length + str.length < SIZE_MOD →
      console_on_new_input tty str = some s → cursor_ok s) ∧
    (∀ s, console_on_remove_input tty = some s → cursor_ok s) ∧
    (∀ sym s, console_on_key_down env tty sym = some s → cursor_ok s) ∧
    (∀ dir s, console_update_prompt_from_history tty dir = some s → cursor_ok s) ∧
    (∀ f s, ApiCall.run f tty = some s → cursor_ok s) ∧
    (∀ str, ∃ s, console_on_new_input tty str = some s) ∧
    (∃ s, console_on_remove_input tty = some s) ∧
    (∃ s, console_on_key_down env tty SDL_Keycode.LEFT = some s) ∧
    (∃ s, console_on_key_down env tty SDL_Keycode.RIGHT = some s) ∧
    (∀ str, ∃ s, (ApiCall.set_prompt str).run tty = some s) ∧
    (tty.prompt.cursor = 0 → console_on_key_down env tty SDL_Keycode.LEFT = some tty) ∧
    (tty.prompt.cursor = tty.prompt.input.length →
      console_on_key_down env tty SDL_Keycode.RIGHT = some tty) := by
  refine ⟨Nat.le_refl _, fun str s h1 h2 => cursor_ok_new_input hc h1 h2,
    fun s h => cursor_ok_remove_input hc h, fun sym s h => cursor_ok_key_down hc hsz h,
    fun dir s h => cursor_ok_recall hc h, fun f s h => cursor_ok_run hc h, ?_, ?_, ?_, ?_,
    fun str => ⟨_, rfl⟩, ?_, ?_⟩
  · intro str
    unfold cursor_ok at hc
    unfold console_on_new_input
    by_cases heq : tty.prompt.cursor = tty.prompt.input.length
    · exact ⟨_, by rw [if_pos heq]; rfl⟩
    · exact ⟨_, by rw [if_neg heq, if_neg (by omega)]; rfl⟩
  · unfold cursor_ok at hc
    unfold console_on_remove_input
    by_cases h0 : tty.prompt.cursor = 0 ∨ tty.prompt.input.length = 0
    · exact ⟨_, by rw [if_pos h0]⟩
    · rw [if_neg h0]
      by_cases heq : tty.prompt.input.length = tty.prompt.cursor
      · exact ⟨_, by simp only [if_pos heq]; rfl⟩
      · exact ⟨_, by simp only [if_neg heq, if_neg (show ¬ tty.prompt.cursor >
          tty.prompt.input.length by omega)]; rfl⟩
  · simp only [console_on_key_down]
    split <;> exact ⟨_, rfl⟩
  · simp only [console_on_key_down]
    split <;> exact ⟨_, rfl⟩
  · intro h0
    simp only [console_on_key_down]
    rw [if_neg (by omega)]
  · intro h0
    simp only [console_on_key_down]
    rw [if_neg (by omega)]

/-- C19 on the prompt holding "abd" with the cursor at 2. -/
theorem cursor_invariant_witness :
    cursor_ok prompt_example ∧
    prompt_example.prompt.input.length + ([] : U32String).length < SIZE_MOD ∧
    (cursor_ok Console_tty.init ∧
    (∀ str s, prompt_example.prompt.input.length + str.length < SIZE_MOD →
      console_on_new_input prompt_example str = some s → cursor_ok s) ∧
    (∀ s, console_on_remove_input prompt_example = some s → cursor_ok s) ∧
    (∀ sym s, console_on_key_down { ctrl := false, clipboard := [], rows := 24 }
      prompt_example sym = some s → cursor_ok s) ∧
    (∀ dir s, console_update_prompt_from_history prompt_example dir = some s → cursor_ok s) ∧
    (∀ f s, ApiCall.run f prompt_example = some s → cursor_ok s) ∧
    (∀ str, ∃ s, console_on_new_input prompt_example str = some s) ∧
    (∃ s, console_on_remove_input prompt_example = some s) ∧
    (∃ s, console_on_key_down { ctrl := false, clipboard := [], rows := 24 }
      prompt_example SDL_Keycode.LEFT = some s) ∧
    (∃ s, console_on_key_down { ctrl := false, clipboard := [], rows := 24 }
      prompt_example SDL_Keycode.RIGHT = some s) ∧
    (∀ str, ∃ s, (ApiCall.set_prompt str).run prompt_example = some s) ∧
    (prompt_example.prompt.cursor = 0 →
      console_on_key_down { ctrl := false, clipboard := [], rows := 24 }
        prompt_example SDL_Keycode.LEFT = some prompt_example) ∧
    (prompt_example.prompt.cursor = prompt_example.prompt.input.length →
      console_on_key_down { ctrl := false, clipboard := [], rows := 24 }
        prompt_example SDL_Keycode.RIGHT = some prompt_example)) :=
  ⟨by unfold cursor_ok; decide, by decide,
    cursor_invariant { ctrl := false, clipboard := [], rows := 24 } prompt_example
      (by unfold cursor_ok; decide) (by decide)⟩

end SDLConsole

namespace DFHack

open SDLConsole

/-- C23 at the failing input: `msleep(1000000)`, a wait of 1000 seconds.  The
method calls `sleep(1)` and `usleep(0)`: it asks for 1000000 microseconds, one
second, where 1000000 milliseconds are 1000000000 microseconds.  Below
1000000 the request is exact, as for 999999 and for 1500. -/
theorem msleep_one_million :
    Console.msleep 1000000 = [Delay.sleep 1, Delay.usleep 0] ∧
    requested_usec (Console.msleep 1000000) = 1000000 ∧
    requested_usec (Console.msleep 1000000) ≠ 1000000 * 1000 ∧
    Console.msleep 1500 = [Delay.sleep 0, Delay.usleep 1500000] ∧
    requested_usec (Console.msleep 999999) = 999999 * 1000 := by
  decide

/-- C30 at the failing input: a table of one inorganic material and a bar
whose index is 1, the size of the table.  The test `mat.index<=size()` lets
the index through and `inorganic[1]` reads beyond the end of the vector
(`none`), where "invalid bar" was to be returned; index 0 gives "IRON bar" and
index 2 gives "invalid bar". -/
theorem getDescription_index_at_size :
    Materials.getDescription [{ id := "IRON" }] { itemType := 0, subType := 0, index := 1 }
      = none ∧
    Materials.getDescription [{ id := "IRON" }] { itemType := 0, subType := 0, index := 0 }
      = some "IRON bar" ∧
    Materials.getDescription [{ id := "IRON" }] { itemType := 0, subType := 0, index := 2 }
      = some "invalid bar" ∧
    Materials.getDescription [{ id := "IRON" }] { itemType := 0, subType := 0, index := -1 }
      = some "any metal bar" := by
  decide

end DFHack

namespace SDLConsole

/-- C27 at the failing input: the empty store of a fresh console after
`Console_SetMaxLines(tty, 0)`, which is well formed.  The new line becomes
head and tail and the count is set to 0, which equals `max_lines`; the
eviction step takes `lines_tail->prev`, a null pointer, and reads
`lines_tail->next` through it: undefined behaviour (`none`), for an output
line drained from the call queue as for a committed input line. -/
theorem create_line_max_lines_zero :
    Linked (Console_SetMaxLines Console_tty.init 0) [] ∧
    console_create_line (Console_SetMaxLines Console_tty.init 0) LineType.output ['x'] = none ∧
    Console_Draw_drain { ctrl := false, clipboard := [], rows := 24 }
      (Console_AddLine (Console_SetMaxLines Console_tty.init 0) ['x']) = none ∧
    console_on_key_down { ctrl := false, clipboard := [], rows := 24 }
      (Console_SetMaxLines Console_tty.init 0) SDL_Keycode.RETURN = none ∧
    (console_create_line (Console_SetMaxLines Console_tty.init 1) LineType.output ['x']).isSome
      = true := by
  refine ⟨by decide, by decide, by decide, by decide, by decide⟩

theorem Console_ReadLine_flag_set (tty : Console_tty) (buf : String)
    (hs : tty.status = State.claimed) (hq : tty.input_complete_q = [])
    (hf : tty.cv_input_completed = true) :
    Console_ReadLine tty buf = Call.returned tty buf 0 := by
  simp [Console_ReadLine, hs, hq, hf, Console_ReadLine_wake]

theorem return_key_commits (env : SDL_Env) {tty : Console_tty} {as : List Nat}
    (hL : Linked tty as) (hmax : 1 ≤ tty.max_lines) :
    ∃ s, console_on_key_down env tty SDL_Keycode.RETURN = some s ∧
      s.input_complete_q = tty.input_complete_q ++ [tty.prompt.input] ∧
      s.cv_input_completed = true ∧ s.status = tty.status ∧
      s.curr_history = some tty.heap.length ∧ s.lines_head = some tty.heap.length := by
  obtain ⟨tty2, l, heq, hfr, -⟩ :=
    create_line_returns hL (fun _ => by omega) LineType.input tty.prompt.input
  have hq : tty2.input_complete_q = tty.input_complete_q := by rw [hfr]
  have hp : tty2.prompt = tty.prompt := by rw [hfr]
  have hs : tty2.status = tty.status := by rw [hfr]
  have hh : tty2.curr_history = some tty.heap.length := by rw [hfr]
  have hh2 : tty2.lines_head = some tty.heap.length := by rw [hfr]
  refine ⟨{ tty2 with
      input_complete_q := tty2.input_complete_q ++ [tty2.prompt.input]
      cv_input_completed := true
      prompt := { tty2.prompt with input := [], cursor := 0, rebuild := true } }, ?_, ?_, rfl,
    hs, hh, hh2⟩
  · simp only [console_on_key_down, console_on_new_input_line, heq, Option.map_some',
      console_update_io_texture, ne_eq, not_true_eq_false, if_false]
  · simp [hq, hp]

end SDLConsole

namespace DFHack

open SDLConsole

theorem lineedit_zero (rc : lineedit_result) {c : Console} {p : Private}
    {tty : Console_tty} (prompt output : String) (hrc : rc.RETRY ≠ rc.SHUTDOWN)
    (hinit : c.inited = true) (hd : c.d = some p)
    (hsh : p.status ≠ console_state.con_shutdown) (ht : p.tty = some tty)
    {t2 : Console_tty} {buf : String}
    (hread : Console_ReadLine
      (if prompt ≠ p.prompt then Console_SetPrompt tty (from_utf8 prompt) else tty) output
        = Call.returned t2 buf 0) :
    Console.lineedit rc c prompt output =
      some (Call.returned { c with d := some { p with prompt := prompt, tty := some t2 } }
        buf rc.RETRY) := by
  rw [lineedit_eq rc prompt output hinit hd hsh ht]
  by_cases hpr : prompt ≠ p.prompt
  · rw [if_pos hpr] at hread ⊢
    rw [hread]
    simp [Private.with_tty, Console.lineedit_ret, Private.lineedit_ret, hrc]
  · rw [if_neg hpr] at hread ⊢
    rw [hread]
    have hpr2 : prompt = p.prompt := not_not.1 hpr
    simp [Private.with_tty, Console.lineedit_ret, Private.lineedit_ret, hrc, hpr2]

theorem lineedits_retry (rc : lineedit_result) (hrc : rc.RETRY ≠ rc.SHUTDOWN) :
    ∀ (calls : List (String × String)) (c : Console) (p : Private) (tty : Console_tty),
      c.inited = true → c.d = some p → p.status = console_state.con_claimed →
      p.tty = some tty → tty.status = State.claimed → tty.input_complete_q = [] →
      tty.cv_input_completed = true →
      ∃ c2 t2, lineedits rc calls c = some (calls.map fun _ => rc.RETRY, c2) ∧
        c2.tty = some t2 ∧ c2.inited = true ∧
        t2.status = State.claimed ∧ t2.input_complete_q = [] ∧ t2.cv_input_completed = true
  | [], c, p, tty, hinit, hd, _, ht, hs, hq, hf =>
    ⟨c, tty, rfl, by simp [Console.tty, hd, ht], hinit, hs, hq, hf⟩
  | (prompt, output) :: rest, c, p, tty, hinit, hd, hp, ht, hs, hq, hf => by
    have hsh : p.status ≠ console_state.con_shutdown := by rw [hp]; decide
    obtain ⟨t1, ht1⟩ : ∃ t1, t1 =
        (if prompt ≠ p.prompt then Console_SetPrompt tty (from_utf8 prompt) else tty) :=
      ⟨_, rfl⟩
    have hs1 : t1.status = State.claimed := by rw [ht1]; split <;> exact hs
    have hq1 : t1.input_complete_q = [] := by rw [ht1]; split <;> exact hq
    have hf1 : t1.cv_input_completed = true := by rw [ht1]; split <;> exact hf
    have hread : Console_ReadLine
        (if prompt ≠ p.prompt then Console_SetPrompt tty (from_utf8 prompt) else tty) output
          = Call.returned t1 output 0 := by
      rw [← ht1]
      exact Console_ReadLine_flag_set t1 output hs1 hq1 hf1
    have hcall := lineedit_zero rc prompt output hrc hinit hd hsh ht hread
    obtain ⟨c2, t2, hrest, h⟩ := lineedits_retry rc hrc rest
      { c with d := some { p with prompt := prompt, tty := some t1 } }
      { p with prompt := prompt, tty := some t1 } t1 hinit rfl hp rfl hs1 hq1 hf1
    refine ⟨c2, t2, ?_, h⟩
    rw [lineedits, hcall]
    simp only [hrest, Option.map_some', List.map_cons]

theorem lineedit_value (rc : lineedit_result) {c : Console} {p : Private}
    {tty : Console_tty} (prompt output : String) (hrc : rc.RETRY ≠ rc.SHUTDOWN)
    (hinit : c.inited = true) (hd : c.d = some p)
    (hsh : p.status ≠ console_state.con_shutdown) (ht : p.tty = some tty)
    {t2 : Console_tty} {buf : String} {ret : Int} (hret : ret ≠ rc.SHUTDOWN)
    (hread : Console_ReadLine
      (if prompt ≠ p.prompt then Console_SetPrompt tty (from_utf8 prompt) else tty) output
        = Call.returned t2 buf ret) :
    Console.lineedit rc c prompt output =
      some (Call.returned { c with d := some { p with prompt := prompt, tty := some t2 } }
        buf (if ret = 0 then rc.RETRY else ret)) := by
  by_cases h0 : ret = 0
  · subst h0
    rw [if_pos rfl]
    exact lineedit_zero rc prompt output hrc hinit hd hsh ht hread
  · rw [lineedit_eq rc prompt output hinit hd hsh ht, if_neg h0]
    by_cases hpr : prompt ≠ p.prompt
    · rw [if_pos hpr] at hread ⊢
      rw [hread]
      simp [Private.with_tty, Console.lineedit_ret, Private.lineedit_ret, h0, hret]
    · rw [if_neg hpr] at hread ⊢
      rw [hread]
      have hpr2 : prompt = p.prompt := not_not.1 hpr
      simp [Private.with_tty, Console.lineedit_ret, Private.lineedit_ret, h0, hret, hpr2]

/-- C24 (retry without a shutdown).  On a claimed console with a well-formed
store of capacity at least 1 and nothing to read, whatever the wake flag, the
Return key commits the input while no reader waits: the line is queued and the
wake flag set.  The next `Console_ReadLine` returns that line without waiting
and leaves the flag set.  So every read after it, with the queue empty, finds
the flag set, does not wait, returns 0 and changes nothing; through
`Console::lineedit` the first call returns with the line in the buffer and
every call after it returns `RETRY`, the queue staying empty and the flag set;
the console of the facade is `c` with `p` behind `d` and the state after the
key behind `tty`.  The result codes `RETRY` and `SHUTDOWN` are distinct and the length of the
line is not the code `SHUTDOWN`. -/
theorem retry_without_shutdown (rc : lineedit_result) (env : SDL_Env) (c : Console)
    (p : Private) (tty : Console_tty) (as : List Nat) (prompt output : String)
    (hrc : rc.RETRY ≠ rc.SHUTDOWN)
    (hlen : size_to_int (to_utf8 tty.prompt.input).utf8ByteSize ≠ rc.SHUTDOWN)
    (hinit : c.inited = true) (hp : p.status = console_state.con_claimed)
    (hs : tty.status = State.claimed) (hL : Linked tty as)
    (hmax : 1 ≤ tty.max_lines) (hq : tty.input_complete_q = []) :
    ∃ s, console_on_key_down env tty SDL_Keycode.RETURN = some s ∧
      s.input_complete_q = [tty.prompt.input] ∧ s.cv_input_completed = true ∧
      Console_ReadLine s output =
        Call.returned { s with input_complete_q := [], cv_input_completed := true }
          (to_utf8 tty.prompt.input) (size_to_int (to_utf8 tty.prompt.input).utf8ByteSize) ∧
      (∀ buf, Console_ReadLine { s with input_complete_q := [], cv_input_completed := true } buf
        = Call.returned { s with input_complete_q := [], cv_input_completed := true } buf 0) ∧
      ∀ calls : List (String × String), ∃ c2 t2,
        lineedits rc ((prompt, output) :: calls) { c with d := some { p with tty := some s } }
          = some ((if size_to_int (to_utf8 tty.prompt.input).utf8ByteSize = 0 then rc.RETRY
              else size_to_int (to_utf8 tty.prompt.input).utf8ByteSize) ::
            calls.map fun _ => rc.RETRY, c2) ∧
        c2.tty = some t2 ∧ t2.input_complete_q = [] ∧ t2.cv_input_completed = true := by
  obtain ⟨s, hkey, hsq, hsf, hss, -⟩ := return_key_commits env hL hmax
  rw [hq, List.nil_append] at hsq
  rw [hs] at hss
  have hfix : ({ s with input_complete_q := [], cv_input_completed := true } : Console_tty)
      = { s with input_complete_q := [] } := by rw [← hsf]
  refine ⟨s, hkey, hsq, hsf, ?_, ?_, ?_⟩
  · rw [hfix]
    exact Console_ReadLine_front output hss hsq
  · intro buf
    exact Console_ReadLine_flag_set _ buf hss rfl rfl
  · intro calls
    have hsh : p.status ≠ console_state.con_shutdown := by rw [hp]; decide
    obtain ⟨t1, ht1⟩ : ∃ t1, t1 =
        (if prompt ≠ p.prompt then Console_SetPrompt s (from_utf8 prompt) else s) :=
      ⟨_, rfl⟩
    have hs1 : t1.status = State.claimed := by rw [ht1]; split <;> exact hss
    have hq1 : t1.input_complete_q = [tty.prompt.input] := by rw [ht1]; split <;> exact hsq
    have hf1 : t1.cv_input_completed = true := by rw [ht1]; split <;> exact hsf
    have hread : Console_ReadLine
        (if prompt ≠ ({ p with tty := some s } : Private).prompt then
          Console_SetPrompt s (from_utf8 prompt) else s) output
          = Call.returned { t1 with input_complete_q := [] } (to_utf8 tty.prompt.input)
              (size_to_int (to_utf8 tty.prompt.input).utf8ByteSize) := by
      show Console_ReadLine
        (if prompt ≠ p.prompt then Console_SetPrompt s (from_utf8 prompt) else s) output = _
      rw [← ht1]
      exact Console_ReadLine_front output hs1 hq1
    have hcall := lineedit_value rc (c := { c with d := some { p with tty := some s } })
      (p := { p with tty := some s }) prompt output hrc hinit rfl hsh rfl hlen hread
    obtain ⟨c2, t2, hrest, h1, -, -, h2, h3⟩ := lineedits_retry rc hrc calls
      { c with d := some { p with prompt := prompt, tty := some { t1 with input_complete_q := [] } } }
      { p with prompt := prompt, tty := some { t1 with input_complete_q := [] } }
      { t1 with input_complete_q := [] } hinit rfl hp rfl hs1 rfl hf1
    refine ⟨c2, t2, ?_, h1, h2, h3⟩
    rw [lineedits, hcall]
    simp only [hrest, Option.map_some']

/-- C28 (an empty committed line).  On a well-formed store of capacity at
least 1, the Return key with an empty prompt input appends the empty string to
the queue of completed lines.  On a claimed session whose oldest queued line
is the empty string, `Console_ReadLine` returns without waiting, removes that
line, leaves the buffer empty and returns 0, and `Console::lineedit` returns
`RETRY`; a reader woken on an empty queue gets 0 and `RETRY` in the same way. -/
theorem empty_line_is_retry (rc : lineedit_result) (env : SDL_Env) (tty : Console_tty)
    (as : List Nat) (hL : Linked tty as) (hmax : 1 ≤ tty.max_lines)
    (hin : tty.prompt.input = []) :
    (∃ s, console_on_key_down env tty SDL_Keycode.RETURN = some s ∧
      s.input_complete_q = tty.input_complete_q ++ [[]]) ∧
    ∀ (c : Console) (p : Private) (t : Console_tty) (rest : List U32String)
      (prompt output : String),
      c.inited = true → c.d = some p → p.status = console_state.con_claimed →
      p.tty = some t → t.status = State.claimed → t.input_complete_q = [] :: rest →
      Console_ReadLine t output = Call.returned { t with input_complete_q := rest } "" 0 ∧
      (∃ r, Console.lineedit rc c prompt output = some r ∧ r.ret = some rc.RETRY ∧
        r.buf = "" ∧ r.state.tty.map (fun t2 => t2.input_complete_q) = some rest) ∧
      (Console_ReadLine_wake { t with input_complete_q := [] } output).ret = some 0 ∧
      ∃ r, Console.lineedit_wake rc
          { c with d := some { p with tty := some { t with input_complete_q := [] } } } output
        = some r ∧ r.ret = some rc.RETRY := by
  constructor
  · obtain ⟨s, hkey, hsq, -⟩ := return_key_commits env hL hmax
    rw [hin] at hsq
    exact ⟨s, hkey, hsq⟩
  · intro c p t rest prompt output hinit hd hp ht hs hq
    have hsh : p.status ≠ console_state.con_shutdown := by rw [hp]; decide
    have hfront : ∀ t1 : Console_tty, t1.status = State.claimed →
        t1.input_complete_q = [] :: rest →
        Console_ReadLine t1 output = Call.returned { t1 with input_complete_q := rest } "" 0 :=
      fun t1 h1 h2 => Console_ReadLine_front output h1 h2
    refine ⟨hfront t hs hq, ?_, rfl, ?_⟩
    · obtain ⟨t1, ht1⟩ : ∃ t1, t1 =
          (if prompt ≠ p.prompt then Console_SetPrompt t (from_utf8 prompt) else t) :=
        ⟨_, rfl⟩
      have hs1 : t1.status = State.claimed := by rw [ht1]; split <;> exact hs
      have hq1 : t1.input_complete_q = [] :: rest := by rw [ht1]; split <;> exact hq
      have hread : Console_ReadLine
          (if prompt ≠ p.prompt then Console_SetPrompt t (from_utf8 prompt) else t) output
            = Call.returned { t1 with input_complete_q := rest } "" 0 := by
        rw [← ht1]
        exact hfront t1 hs1 hq1
      obtain ⟨r, h1, -, h3, h4, h5⟩ := lineedit_returned rc prompt output hinit hd hsh ht hread
      exact ⟨r, h1, h5 rfl, h3, by rw [h4]; rfl⟩
    · refine ⟨_, rfl, ?_⟩
      exact lineedit_ret_retry rc _ _ _

/-- C24 on a claimed console with "ls" typed at the prompt. -/
theorem retry_without_shutdown_witness :
    Console_h.RETRY ≠ Console_h.SHUTDOWN ∧
    size_to_int (to_utf8 typed_example.prompt.input).utf8ByteSize ≠ Console_h.SHUTDOWN ∧
    claimed_example.inited = true ∧
    ({ tty := none, prompt := "", status := console_state.con_claimed } : Private).status
      = console_state.con_claimed ∧
    typed_example.status = State.claimed ∧ Linked typed_example [] ∧
    1 ≤ typed_example.max_lines ∧ typed_example.input_complete_q = [] ∧
    ∃ s, console_on_key_down { ctrl := false, clipboard := [], rows := 24 } typed_example
        SDL_Keycode.RETURN = some s ∧
      s.input_complete_q = [typed_example.prompt.input] ∧ s.cv_input_completed = true ∧
      Console_ReadLine s "" =
        Call.returned { s with input_complete_q := [], cv_input_completed := true }
          (to_utf8 typed_example.prompt.input)
          (size_to_int (to_utf8 typed_example.prompt.input).utf8ByteSize) ∧
      (∀ buf, Console_ReadLine { s with input_complete_q := [], cv_input_completed := true } buf
        = Call.returned { s with input_complete_q := [], cv_input_completed := true } buf 0) ∧
      ∀ calls : List (String × String), ∃ c2 t2,
        lineedits Console_h (("", "") :: calls)
            { d := some { tty := some s, prompt := "", status := console_state.con_claimed },
              inited := true }
          = some ((if size_to_int (to_utf8 typed_example.prompt.input).utf8ByteSize = 0
              then Console_h.RETRY
              else size_to_int (to_utf8 typed_example.prompt.input).utf8ByteSize) ::
            calls.map fun _ => Console_h.RETRY, c2) ∧
        c2.tty = some t2 ∧ t2.input_complete_q = [] ∧ t2.cv_input_completed = true :=
  ⟨by decide, by decide, rfl, rfl, rfl, by decide, by decide, rfl,
    retry_without_shutdown Console_h { ctrl := false, clipboard := [], rows := 24 }
      claimed_example { tty := none, prompt := "", status := console_state.con_claimed }
      typed_example [] "" "" (by decide) (by decide) rfl rfl rfl (by decide) (by decide) rfl⟩

/-- C28 on a fresh claimed session, whose prompt input is empty. -/
theorem empty_line_is_retry_witness :
    Linked Console_tty.init [] ∧ 1 ≤ Console_tty.init.max_lines ∧
    Console_tty.init.prompt.input = [] ∧
    (∃ s, console_on_key_down { ctrl := false, clipboard := [], rows := 24 } Console_tty.init
        SDL_Keycode.RETURN = some s ∧
      s.input_complete_q = Console_tty.init.input_complete_q ++ [[]]) ∧
    ∀ (c : Console) (p : Private) (t : Console_tty) (rest : List U32String)
      (prompt output : String),
      c.inited = true → c.d = some p → p.status = console_state.con_claimed →
      p.tty = some t → t.status = State.claimed → t.input_complete_q = [] :: rest →
      Console_ReadLine t output = Call.returned { t with input_complete_q := rest } "" 0 ∧
      (∃ r, Console.lineedit Console_h c prompt output = some r ∧
        r.ret = some Console_h.RETRY ∧
        r.buf = "" ∧ r.state.tty.map (fun t2 => t2.input_complete_q) = some rest) ∧
      (Console_ReadLine_wake { t with input_complete_q := [] } output).ret = some 0 ∧
      ∃ r, Console.lineedit_wake Console_h
          { c with d := some { p with tty := some { t with input_complete_q := [] } } } output
        = some r ∧ r.ret = some Console_h.RETRY :=
  ⟨by decide, by decide, rfl,
    empty_line_is_retry Console_h { ctrl := false, clipboard := [], rows := 24 }
      Console_tty.init [] (by decide) (by decide) rfl⟩

end DFHack

namespace SDLConsole

theorem find?_reverse_prefix {α : Type} (p : α → Bool) (p1 pre : List α) (a : α)
    (h1 : ∀ x ∈ p1, (!p x) = true) (ha : p a = true) :
    (p1.reverse ++ a :: pre).find? p = some a := by
  rw [List.find?_eq_some]
  exact ⟨ha, p1.reverse, pre, rfl, fun x hx => h1 x (List.mem_reverse.1 hx)⟩

/-- C29 (history round trip).  In a well-formed store with the history cursor
on an input line `A` with text, the prompt input being that text and the prompt
cursor at its end: when a recall upwards moves the history cursor, the recall
downwards that follows returns, and puts the history cursor back on `A`, the
text of `A` in the prompt input and the prompt cursor at its end.  The state
after the upward recall differs from the one at the start only in the history
cursor and the prompt, and the state after the round trip only in the `rebuild`
mark of the prompt: the lines and the list are untouched. -/
theorem history_round_trip (tty s1 : Console_tty) (pre post : List Nat) (A : Nat)
    (la : Console_Line) (hL : Linked tty (pre ++ A :: post))
    (hcur : tty.curr_history = some A) (hA : deref tty.heap A = some la)
    (hk : la.type = LineType.input) (ht : la.text ≠ [])
    (hin : tty.prompt.input = la.text) (hc : tty.prompt.cursor = la.text.length)
    (hup : console_update_prompt_from_history tty NavDirection.up = some s1)
    (hmove : s1.curr_history ≠ some A) :
    (∃ B lb, B ∈ post ∧ deref tty.heap B = some lb ∧ s1 = recalled tty B lb.text) ∧
    ∃ s2, console_update_prompt_from_history s1 NavDirection.down = some s2 ∧
      s2.curr_history = some A ∧ s2.prompt.input = la.text ∧
      s2.prompt.cursor = la.text.length ∧
      s2 = { tty with prompt := { tty.prompt with rebuild := true } } := by
  rw [recall_eq hL hcur] at hup
  cases hfind : (beyond NavDirection.up pre post).find? (qualifies tty.heap) with
  | none =>
    rw [hfind] at hup
    have := Option.some.inj hup
    subst this
    exact absurd hcur hmove
  | some B =>
    rw [hfind] at hup
    obtain ⟨lb, hlb, -, -, hmem, -⟩ := recall_success hL hcur NavDirection.up B hfind
    simp only [hlb, Option.map_some', Option.some.injEq] at hup
    have hs1 : s1 = recalled tty B lb.text := hup.symm
    have hfind2 : post.find? (qualifies tty.heap) = some B := hfind
    obtain ⟨-, p1, p2, hpost, hp1⟩ := List.find?_eq_some.1 hfind2
    refine ⟨⟨B, lb, hmem, hlb, hs1⟩, ?_⟩
    have hL1 : Linked s1 ((pre ++ A :: p1) ++ B :: p2) := by
      rw [hs1, List.append_assoc, List.cons_append, ← hpost]
      exact hL.recalled B lb.text
    have hcur1 : s1.curr_history = some B := by rw [hs1]; rfl
    have hheap : s1.heap = tty.heap := by rw [hs1]; rfl
    have hqa : qualifies tty.heap A = true := qualifies_iff.2 ⟨la, hA, hk, ht⟩
    have hfind3 : (beyond NavDirection.down (pre ++ A :: p1) p2).find? (qualifies s1.heap)
        = some A := by
      have hb : beyond NavDirection.down (pre ++ A :: p1) p2 = p1.reverse ++ A :: pre.reverse := by
        simp [beyond]
      rw [hb, hheap]
      exact find?_reverse_prefix _ p1 pre.reverse A hp1 hqa
    have hdown := recall_eq hL1 hcur1 NavDirection.down
    rw [hfind3] at hdown
    simp only [hheap, hA, Option.map_some'] at hdown
    refine ⟨_, hdown, rfl, rfl, rfl, ?_⟩
    rw [hs1]
    simp only [recalled]
    rw [← hcur, ← hin]
    have hc2 : la.text.length = tty.prompt.cursor := hc.symm
    rw [hin, hc2, ← hin]

/-- C29 on the store of the history scenario, from "ls" up to "help" and back. -/
theorem history_round_trip_witness :
    Linked recalled_example ([3] ++ 2 :: [1, 0]) ∧ recalled_example.curr_history = some 2 ∧
    deref recalled_example.heap 2 = some
      { text := "ls".toList, type := LineType.input, selected := false,
        next := some 1, prev := some 3 } ∧
    recalled_example.prompt.input = "ls".toList ∧
    recalled_example.prompt.cursor = "ls".toList.length ∧
    console_update_prompt_from_history recalled_example NavDirection.up
      = some (recalled recalled_example 0 "help".toList) ∧
    (recalled recalled_example 0 "help".toList).curr_history ≠ some 2 ∧
    (∃ B lb, B ∈ [1, 0] ∧ deref recalled_example.heap B = some lb ∧
      recalled recalled_example 0 "help".toList = recalled recalled_example B lb.text) ∧
    ∃ s2, console_update_prompt_from_history (recalled recalled_example 0 "help".toList)
        NavDirection.down = some s2 ∧
      s2.curr_history = some 2 ∧ s2.prompt.input = "ls".toList ∧
      s2.prompt.cursor = "ls".toList.length ∧
      s2 = { recalled_example with prompt := { recalled_example.prompt with rebuild := true } } :=
  ⟨by decide, rfl, by decide, rfl, rfl, by decide, by decide,
    history_round_trip recalled_example (recalled recalled_example 0 "help".toList) [3] [1, 0] 2
      { text := "ls".toList, type := LineType.input, selected := false,
        next := some 1, prev := some 3 }
      (by decide) rfl (by decide) rfl (by decide) rfl rfl (by decide) (by decide)⟩

theorem create_line_cursor {tty : Console_tty} {as : List Nat} (hL : Linked tty as)
    (hmax : as = [] → tty.max_lines ≠ 0)
    (hsz : as.length ≠ tty.max_lines → as.length + 1 < SIZE_MOD)
    (k : LineType) (t : U32String) :
    ∃ s bs l, console_create_line tty k t = some (tty.heap.length, s) ∧
      s.curr_history = some tty.heap.length ∧ s.lines_head = some tty.heap.length ∧
      Linked s (tty.heap.length :: bs) ∧ (bs = as ∨ ∃ z, as = bs ++ [z]) ∧
      deref s.heap tty.heap.length = some l ∧ l.text = t ∧ l.type = k ∧
      s.prompt = tty.prompt ∧ s.input_complete_q = tty.input_complete_q := by
  obtain ⟨tty2, heq, hfr, -, hnew, hcase⟩ := create_line_linked hL hmax hsz k t
  have h1 : tty2.curr_history = some tty.heap.length := by rw [hfr]
  have h2 : tty2.lines_head = some tty.heap.length := by rw [hfr]
  have h3 : tty2.prompt = tty.prompt := by rw [hfr]
  have h4 : tty2.input_complete_q = tty.input_complete_q := by rw [hfr]
  have hl : ∃ l, deref tty2.heap tty.heap.length = some l ∧ l.text = t ∧ l.type = k := by
    unfold content at hnew
    simp only [Option.map_eq_some', Prod.mk.injEq] at hnew
    obtain ⟨l, hl, h5, h6, -⟩ := hnew
    exact ⟨l, hl, h5, h6⟩
  obtain ⟨l, hl, h5, h6⟩ := hl
  rcases hcase with ⟨-, hL2, -⟩ | ⟨-, front, z, has, hL2, -⟩
  · exact ⟨tty2, as, l, heq, h1, h2, hL2, Or.inl rfl, hl, h5, h6, h3, h4⟩
  · exact ⟨tty2, front, l, heq, h1, h2, hL2, Or.inr ⟨z, has⟩, hl, h5, h6, h3, h4⟩

/-- C25 (the history cursor after an insertion).  On a well-formed store of
capacity at least 1, every `console_create_line`, for an input line as for an
output line and wherever the history cursor was, returns with the history
cursor on the new head line.  So after the Return key has committed the input
`X` (with text or without), the history cursor is on the line of `X`, and the
recall upwards that follows looks at the older lines `bs` only, which do not
include the line of `X`: it returns the same state when none of them is an
input line with text, and otherwise lands on the nearest of them that is one. -/
theorem recall_after_commit (env : SDL_Env) (tty : Console_tty) (as : List Nat)
    (hL : Linked tty as) (hmax : 1 ≤ tty.max_lines) (hsz : as.length + 1 < SIZE_MOD) :
    (∀ (k : LineType) (t : U32String), ∃ s,
      console_create_line tty k t = some (tty.heap.length, s) ∧
      s.lines_head = some tty.heap.length ∧ s.curr_history = s.lines_head) ∧
    ∃ s bs lx, console_on_key_down env tty SDL_Keycode.RETURN = some s ∧
      s.curr_history = some tty.heap.length ∧
      deref s.heap tty.heap.length = some lx ∧ lx.text = tty.prompt.input ∧
      lx.type = LineType.input ∧
      lines s = tty.heap.length :: bs ∧ tty.heap.length ∉ bs ∧
      (bs = as ∨ ∃ z, as = bs ++ [z]) ∧
      ((bs.find? (qualifies s.heap) = none ∧
          console_update_prompt_from_history s NavDirection.up = some s) ∨
        ∃ target l, bs.find? (qualifies s.heap) = some target ∧ target ≠ tty.heap.length ∧
          deref s.heap target = some l ∧ l.type = LineType.input ∧ l.text ≠ [] ∧
          console_update_prompt_from_history s NavDirection.up
            = some (recalled s target l.text)) := by
  have hmax2 : as = [] → tty.max_lines ≠ 0 := fun _ => by omega
  constructor
  · intro k t
    obtain ⟨s, bs, l, heq, h1, h2, -⟩ := create_line_cursor hL hmax2 (fun _ => hsz) k t
    exact ⟨s, heq, h2, by rw [h1, h2]⟩
  · obtain ⟨t2, bs, lx, heq, h1, h2, hL2, hbs, hlx, htx, hkx, -, -⟩ :=
      create_line_cursor hL hmax2 (fun _ => hsz) LineType.input tty.prompt.input
    obtain ⟨s, hs⟩ : ∃ s : Console_tty, s = { t2 with
        input_complete_q := t2.input_complete_q ++ [t2.prompt.input]
        cv_input_completed := true
        prompt := { t2.prompt with input := [], cursor := 0, rebuild := true } } := ⟨_, rfl⟩
    have hkey : console_on_key_down env tty SDL_Keycode.RETURN = some s := by
      simp only [console_on_key_down, console_on_new_input_line, heq, Option.map_some',
        console_update_io_texture, ne_eq, not_true_eq_false, if_false, hs]
    have hheap : s.heap = t2.heap := by rw [hs]
    have hcur : s.curr_history = some tty.heap.length := by rw [hs]; exact h1
    have hLs : Linked s ([] ++ tty.heap.length :: bs) :=
      hL2.congr hheap (by rw [hs]) (by rw [hs]) (by rw [hs])
    have hnot : tty.heap.length ∉ bs := (List.nodup_cons.1 hL2.nodup).1
    refine ⟨s, bs, lx, hkey, hcur, by rw [hheap]; exact hlx, htx, hkx, hLs.lines_eq, hnot,
      hbs, ?_⟩
    have hb : beyond NavDirection.up [] bs = bs := rfl
    cases hfind : bs.find? (qualifies s.heap) with
    | none =>
      refine Or.inl ⟨rfl, ?_⟩
      rw [recall_eq hLs hcur, hb, hfind]
    | some target =>
      obtain ⟨l, hl, hk, ht, hmem, hrec⟩ :=
        recall_success hLs hcur NavDirection.up target (by rw [hb]; exact hfind)
      refine Or.inr ⟨target, l, rfl, ?_, hl, hk, ht, hrec⟩
      rintro rfl
      exact hnot hmem

/-- C25 on the store of the history scenario with "dir" typed at the prompt. -/
theorem recall_after_commit_witness :
    Linked typing_example [3, 2, 1, 0] ∧ 1 ≤ typing_example.max_lines ∧
    [3, 2, 1, 0].length + 1 < SIZE_MOD ∧
    (∀ (k : LineType) (t : U32String), ∃ s,
      console_create_line typing_example k t = some (typing_example.heap.length, s) ∧
      s.lines_head = some typing_example.heap.length ∧ s.curr_history = s.lines_head) ∧
    ∃ s bs lx, console_on_key_down { ctrl := false, clipboard := [], rows := 24 }
        typing_example SDL_Keycode.RETURN = some s ∧
      s.curr_history = some typing_example.heap.length ∧
      deref s.heap typing_example.heap.length = some lx ∧
      lx.text = typing_example.prompt.input ∧ lx.type = LineType.input ∧
      lines s = typing_example.heap.length :: bs ∧ typing_example.heap.length ∉ bs ∧
      (bs = [3, 2, 1, 0] ∨ ∃ z, [3, 2, 1, 0] = bs ++ [z]) ∧
      ((bs.find? (qualifies s.heap) = none ∧
          console_update_prompt_from_history s NavDirection.up = some s) ∨
        ∃ target l, bs.find? (qualifies s.heap) = some target ∧
          target ≠ typing_example.heap.length ∧
          deref s.heap target = some l ∧ l.type = LineType.input ∧ l.text ≠ [] ∧
          console_update_prompt_from_history s NavDirection.up
            = some (recalled s target l.text)) :=
  ⟨by decide, by decide, by decide,
    recall_after_commit { ctrl := false, clipboard := [], rows := 24 } typing_example
      [3, 2, 1, 0] (by decide) (by decide) (by decide)⟩

theorem Chain.last_next {heap : Heap} : ∀ {as : List Nat} {pv p : Option Nat},
    Chain heap pv p as → ∀ t, as.getLast? = some t →
    ∃ l, deref heap t = some l ∧ l.next = none
  | [], _, _, _, t, ht => by simp at ht
  | [a], _, _, ⟨_, l, hl, _, hc⟩, t, ht => by
    have hn : l.next = none := hc
    simp only [List.getLast?_singleton, Option.some.injEq] at ht
    subst ht
    exact ⟨l, hl, hn⟩
  | _ :: b :: as, _, _, ⟨_, _, _, _, hc⟩, t, ht => by
    rw [List.getLast?_cons_cons] at ht
    exact Chain.last_next hc t ht

theorem Chain.links {heap : Heap} : ∀ {as : List Nat} {pv p : Option Nat},
    Chain heap pv p as → ∀ a ∈ as, ∃ l, deref heap a = some l ∧
      (∀ b, l.next = some b → b ∈ as ∧ ∃ lb, deref heap b = some lb ∧ lb.prev = some a) ∧
      (∀ b, l.prev = some b → (pv = some b ∧ p = some a) ∨
        (b ∈ as ∧ ∃ lb, deref heap b = some lb ∧ lb.next = some a))
  | [], _, _, _, a, ha => by simp at ha
  | x :: rest, pv, p, ⟨hp, l, hl, hpv, hc⟩, a, ha => by
    rcases List.mem_cons.1 ha with rfl | hmem
    · refine ⟨l, hl, ?_, ?_⟩
      · intro b hb
        rw [hb] at hc
        cases rest with
        | nil => cases hc
        | cons y rest2 =>
          obtain ⟨hy, ly, hly, hpy, -⟩ := hc
          cases hy
          exact ⟨List.mem_cons_of_mem _ (List.mem_cons_self _ _), ly, hly, hpy⟩
      · intro b hb
        exact Or.inl ⟨by rw [← hpv, hb], hp⟩
    · obtain ⟨la, hla, hnext, hprev⟩ := Chain.links hc a hmem
      refine ⟨la, hla, ?_, ?_⟩
      · intro b hb
        obtain ⟨h1, h2⟩ := hnext b hb
        exact ⟨List.mem_cons_of_mem _ h1, h2⟩
      · intro b hb
        rcases hprev b hb with ⟨h1, h2⟩ | ⟨h1, h2⟩
        · cases h1
          exact Or.inr ⟨List.mem_cons_self _ _, l, hl, h2⟩
        · exact Or.inr ⟨List.mem_cons_of_mem _ h1, h2⟩

theorem run_ops_linked : ∀ (ops : List StoreOp) (tty : Console_tty) (as : List Nat) (k : Nat),
    Linked tty as → 1 ≤ tty.max_lines → as.length ≤ k → k + ops.length < SIZE_MOD →
    StoreOp.set_max_lines 0 ∉ ops →
    ∃ s bs, run_ops ops tty = some s ∧ Linked s bs
  | [], tty, as, _, hL, _, _, _, _ => ⟨tty, as, rfl, hL⟩
  | op :: rest, tty, as, k, hL, hmax, hk, hlen, hn => by
    have hn2 : StoreOp.set_max_lines 0 ∉ rest := fun h => hn (List.mem_cons_of_mem _ h)
    have hlen2 : (k + 1) + rest.length < SIZE_MOD := by
      simp only [List.length_cons] at hlen
      omega
    cases op with
    | create_line line_type text =>
      obtain ⟨tty2, heq, hfr, -, -, hcase⟩ :=
        create_line_linked hL (fun _ => by omega)
          (fun _ => by simp only [List.length_cons] at hlen; omega) line_type text
      have hmax2 : 1 ≤ tty2.max_lines := by rw [create_line_max_lines hfr]; exact hmax
      have hrun : run_ops (StoreOp.create_line line_type text :: rest) tty
          = run_ops rest tty2 := by
        simp only [run_ops, StoreOp.run, heq, Option.map_some', Option.some_bind]
      rw [hrun]
      rcases hcase with ⟨-, hL2, -⟩ | ⟨-, front, z, has, hL2, -⟩
      · exact run_ops_linked rest tty2 _ (k + 1) hL2 hmax2
          (by simp only [List.length_cons]; omega) hlen2 hn2
      · refine run_ops_linked rest tty2 _ (k + 1) hL2 hmax2 ?_ hlen2 hn2
        rw [has] at hk
        simp only [List.length_cons, List.length_append, List.length_nil] at hk ⊢
        omega
    | clear =>
      obtain ⟨heap2, heq, -, -⟩ := console_clear_linked hL
      have hrun : run_ops (StoreOp.clear :: rest) tty = run_ops rest
          { tty with heap := heap2, lines_head := none, lines_tail := none, num_lines := 0 } := by
        simp only [run_ops, StoreOp.run, heq, Option.some_bind]
      rw [hrun]
      exact run_ops_linked rest _ [] (k + 1) ⟨rfl, rfl, List.nodup_nil, rfl⟩ hmax
        (by simp) hlen2 hn2
    | set_max_lines n =>
      have hn1 : 1 ≤ n := by
        rcases Nat.eq_zero_or_pos n with rfl | h
        · exact absurd (List.mem_cons_self _ _) hn
        · exact h
      exact run_ops_linked rest (Console_SetMaxLines tty n) as (k + 1)
        (hL.congr rfl rfl rfl rfl) hn1 (by omega) hlen2 hn2

/-- C26 (the line list stays well formed).  Every sequence of fewer than 2^64
operations `console_create_line`, `console_clear` and `Console_SetMaxLines`
with a capacity other than 0, run from the empty store of a fresh console,
returns, and the store it leaves is a well-formed list over the addresses `as`
that following `next` from the head visits: head and tail are its first and
last line and are both null exactly when there is no line, the head has no
predecessor, the tail has no successor, `next` and `prev` are inverse to each
other on the lines of the list, and `num_lines` is the number of lines. -/
theorem store_well_formed (ops : List StoreOp) (hn : StoreOp.set_max_lines 0 ∉ ops)
    (hlen : ops.length < SIZE_MOD) :
    ∃ s as, run_ops ops Console_tty.init = some s ∧ Linked s as ∧ lines s = as ∧
      s.lines_head = as.head? ∧ s.lines_tail = as.getLast? ∧
      (s.lines_head = none ↔ as = []) ∧ (s.lines_tail = none ↔ as = []) ∧
      (∀ h, s.lines_head = some h → ∃ l, deref s.heap h = some l ∧ l.prev = none) ∧
      (∀ t, s.lines_tail = some t → ∃ l, deref s.heap t = some l ∧ l.next = none) ∧
      (∀ a ∈ as, ∃ l, deref s.heap a = some l ∧
        (∀ b, l.next = some b → b ∈ as ∧ ∃ lb, deref s.heap b = some lb ∧ lb.prev = some a) ∧
        (∀ b, l.prev = some b → b ∈ as ∧ ∃ lb, deref s.heap b = some lb ∧ lb.next = some a)) ∧
      s.num_lines = (lines s).length := by
  obtain ⟨s, as, hrun, hL⟩ := run_ops_linked ops Console_tty.init [] 0 (linked_init 512)
    (by decide) (by simp) (by omega) hn
  have hhead : s.lines_head = as.head? := Chain.head hL.chain
  refine ⟨s, as, hrun, hL, hL.lines_eq, hhead, hL.tail, ?_, ?_, ?_, ?_, ?_, ?_⟩
  · rw [hhead]
    cases as <;> simp
  · rw [hL.tail]
    exact List.getLast?_eq_none_iff
  · intro h hh
    have hch := hL.chain
    rw [hh] at hch
    cases as with
    | nil => cases hch
    | cons a rest =>
      obtain ⟨ha, l, hl, hpv, -⟩ := hch
      cases ha
      exact ⟨l, hl, hpv⟩
  · intro t ht
    exact Chain.last_next hL.chain t (by rw [← hL.tail]; exact ht)
  · intro a ha
    obtain ⟨l, hl, hnext, hprev⟩ := Chain.links hL.chain a ha
    refine ⟨l, hl, hnext, ?_⟩
    intro b hb
    rcases hprev b hb with ⟨h1, -⟩ | h
    · cases h1
    · exact h
  · rw [hL.lines_eq]
    exact hL.count

/-- C26 on a sequence with two insertions, a lowered capacity, a third
insertion that evicts, a clearing and a last insertion. -/
theorem store_well_formed_witness :
    StoreOp.set_max_lines 0 ∉
      [StoreOp.create_line LineType.input ['a'], StoreOp.create_line LineType.output ['b'],
        StoreOp.set_max_lines 2, StoreOp.create_line LineType.input ['c'], StoreOp.clear,
        StoreOp.create_line LineType.output ['d']] ∧
    [StoreOp.create_line LineType.input ['a'], StoreOp.create_line LineType.output ['b'],
        StoreOp.set_max_lines 2, StoreOp.create_line LineType.input ['c'], StoreOp.clear,
        StoreOp.create_line LineType.output ['d']].length < SIZE_MOD ∧
    ∃ s as, run_ops
        [StoreOp.create_line LineType.input ['a'], StoreOp.create_line LineType.output ['b'],
          StoreOp.set_max_lines 2, StoreOp.create_line LineType.input ['c'], StoreOp.clear,
          StoreOp.create_line LineType.output ['d']] Console_tty.init = some s ∧
      Linked s as ∧ lines s = as ∧
      s.lines_head = as.head? ∧ s.lines_tail = as.getLast? ∧
      (s.lines_head = none ↔ as = []) ∧ (s.lines_tail = none ↔ as = []) ∧
      (∀ h, s.lines_head = some h → ∃ l, deref s.heap h = some l ∧ l.prev = none) ∧
      (∀ t, s.lines_tail = some t → ∃ l, deref s.heap t = some l ∧ l.next = none) ∧
      (∀ a ∈ as, ∃ l, deref s.heap a = some l ∧
        (∀ b, l.next = some b → b ∈ as ∧ ∃ lb, deref s.heap b = some lb ∧ lb.prev = some a) ∧
        (∀ b, l.prev = some b → b ∈ as ∧ ∃ lb, deref s.heap b = some lb ∧ lb.next = some a)) ∧
      s.num_lines = (lines s).length :=
  ⟨by decide, by decide, store_well_formed _ (by decide) (by decide)⟩

end SDLConsole

namespace DFHack

open SDLConsole

/-- C11, as amended.  `lineedit` on a session that is not claimed returns at
once, never waiting and never taking a line from the queue of completed
lines.  It returns `SHUTDOWN`, with nothing queued and the console unchanged,
whenever `inited` is clear: on a console that was never started, on one whose
`init` failed to create the console, and on one whose `shutdown` has
finished.  It returns `SHUTDOWN` and clears `inited`, with nothing queued,
when `inited` is set and the status of `Private` is `con_shutdown`.
Otherwise (`inited` set, `Private` not shut down, the status of the session
other than `claimed`) it returns `RETRY`, since `Console_ReadLine` answers 0,
with the buffer and the queue of completed lines untouched, and the only
change to the console is the prompt update that `Console_SetPrompt` queues
when the prompt differs from the one last passed.  A console on which `init`
has set `inited` has a `Private` and a session behind it. -/
theorem lineedit_not_claimed (rc : lineedit_result) (prompt output : String) :
    (∀ c : Console, c.inited = false →
      Console.lineedit rc c prompt output = some (Call.returned c output rc.SHUTDOWN)) ∧
    Console.lineedit rc Console.new prompt output
      = some (Call.returned Console.new output rc.SHUTDOWN) ∧
    (∀ (c : Console) (tty0 : Console_tty),
      Console.lineedit rc (Console.init c tty0 false).1 prompt output
        = some (Call.returned (Console.init c tty0 false).1 output rc.SHUTDOWN)) ∧
    (∀ c : Console,
      Console.lineedit rc (Console.shutdown_joined c) prompt output
        = some (Call.returned (Console.shutdown_joined c) output rc.SHUTDOWN)) ∧
    (∀ (c : Console) (p : Private), c.inited = true → c.d = some p →
      p.status = console_state.con_shutdown →
      Console.lineedit rc c prompt output
        = some (Call.returned { d := some p, inited := false } output rc.SHUTDOWN)) ∧
    (∀ (c : Console) (p : Private) (tty : Console_tty), c.inited = true → c.d = some p →
      p.status ≠ console_state.con_shutdown → p.tty = some tty →
      tty.status ≠ State.claimed →
      ∃ r, Console.lineedit rc c prompt output = some r ∧ r.ret = some rc.RETRY ∧
        r.buf = output ∧
        r.state.tty = some
          (if prompt ≠ p.prompt then Console_SetPrompt tty (from_utf8 prompt) else tty) ∧
        r.state.tty.map (fun t => t.input_complete_q) = some tty.input_complete_q) ∧
    (∀ (c : Console) (tty0 : Console_tty) (surface : Bool),
      (Console.init c tty0 surface).1.inited = true →
      ∃ p tty, (Console.init c tty0 surface).1.d = some p ∧ p.tty = some tty ∧
        p.status = console_state.con_claimed ∧ tty.status = State.claimed) := by
  have key : ∀ c : Console, c.inited = false →
      Console.lineedit rc c prompt output = some (Call.returned c output rc.SHUTDOWN) := by
    intro c h
    simp [Console.lineedit, h]
  refine ⟨key, key _ rfl, fun c tty0 => key _ rfl, fun c => key _ rfl, ?_, ?_, ?_⟩
  · intro c p hinit hd hp
    simp [Console.lineedit, hinit, hd, Private.lineedit, Private.is_shutdown, hp,
      Console.lineedit_ret]
  · intro c p tty hinit hd hsh ht hs
    have hread : Console_ReadLine
        (if prompt ≠ p.prompt then Console_SetPrompt tty (from_utf8 prompt) else tty) output
          = Call.returned
            (if prompt ≠ p.prompt then Console_SetPrompt tty (from_utf8 prompt) else tty)
            output 0 := by
      apply Console_ReadLine_not_claimed
      split <;> exact hs
    obtain ⟨r, h1, -, h3, h4, h5⟩ := lineedit_returned rc prompt output hinit hd hsh ht hread
    refine ⟨r, h1, h5 rfl, h3, h4, ?_⟩
    rw [h4]
    split <;> rfl
  · intro c tty0 surface h
    cases surface with
    | false => cases h
    | true =>
      exact ⟨_, _, rfl, rfl, rfl, rfl⟩

end DFHack

namespace SDLConsole

theorem wait_isSome_iff (q : EventQueue) :
    q.wait_for_events.isSome = true ↔ q.got_some = true := by
  unfold EventQueue.wait_for_events
  split <;> simp_all

theorem wait_eq_some {q : EventQueue} (h : q.got_some = true) :
    q.wait_for_events = some { q with got_some := false } := by
  simp [EventQueue.wait_for_events, h]

theorem wait_some_cases {q q2 : EventQueue} (h : q.wait_for_events = some q2) :
    q.got_some = true ∧ q2 = { q with got_some := false } := by
  unfold EventQueue.wait_for_events at h
  split at h
  · rename_i hg
    exact ⟨hg, (Option.some.inj h).symm⟩
  · cases h

theorem console_render_event_q (tty : Console_tty) :
    (console_render tty).event_q = tty.event_q := by
  unfold console_render
  split <;> rfl

theorem Threads.Inv.start {tty : Console_tty}
    (h0 : tty.event_q = { sdl_queue := [], api_queue := [], got_some := false }) :
    (Threads.start tty).Inv := by
  have h : (Threads.start tty).tty.event_q
      = { sdl_queue := [], api_queue := [], got_some := false } := by
    rw [← h0]
    exact console_render_event_q tty
  constructor
  · intro hr
    cases hr
  · intro _ _ _
    rw [h]
  · intro _ _ _
    rw [h]
  · intro hr
    cases hr
  · rw [h]
    rfl
  · rw [h]
    rfl

theorem Threads.Inv.render_step {env : SDL_Env} {s s2 : Threads} (h : s.Inv)
    (hm : s.render_step env = some s2) : s2.Inv := by
  unfold Threads.render_step at hm
  cases hr : s.render <;> simp only [hr] at hm
  case waiting =>
    split at hm
    · rename_i hg
      have := Option.some.inj hm
      subst this
      exact ⟨fun _ => (wait_isSome_iff _).1 hg, (fun h1 => by cases h1),
        (fun h1 => by cases h1), (fun h1 => by cases h1), h.sdl, h.api⟩
    · cases hm
  case woken =>
    split at hm
    · simp only [Option.map_eq_some'] at hm
      obtain ⟨q, hq, rfl⟩ := hm
      obtain ⟨-, rfl⟩ := wait_some_cases hq
      exact ⟨(fun h1 => by cases h1), (fun h1 => by cases h1), (fun h1 => by cases h1),
        (fun h1 => by cases h1), h.sdl, h.api⟩
    · cases hm
  case drain_sdl =>
    split at hm
    · rename_i hmx
      cases hpop : s.tty.event_q.pop_sdl with
      | none =>
        rw [hpop] at hm
        have := Option.some.inj hm
        subst this
        have hq : s.tty.event_q.sdl_queue = [] := by
          unfold EventQueue.pop_sdl at hpop
          split at hpop
          · assumption
          · cases hpop
        exact ⟨(fun h1 => by cases h1), (fun h1 => by cases h1), (fun h1 => by cases h1),
          fun _ _ _ => hq, h.sdl, h.api⟩
      | some r =>
        obtain ⟨event, q⟩ := r
        rw [hpop] at hm
        have hq : ∃ rest, s.tty.event_q.sdl_queue = event :: rest ∧
            q = { s.tty.event_q with sdl_queue := rest } := by
          unfold EventQueue.pop_sdl at hpop
          split at hpop
          · cases hpop
          · rename_i e rest hq
            simp only [Option.some.injEq, Prod.mk.injEq] at hpop
            exact ⟨rest, by rw [hq, hpop.1], hpop.2.symm⟩
        obtain ⟨rest, hq1, hq2⟩ := hq
        have hsdl : s.sdl_pushed = (s.sdl_drained ++ [event]) ++ rest := by
          rw [h.sdl, hq1]
          simp
        have hapi : s.api_pushed = s.api_drained ++ q.api_queue := by
          rw [h.api, hq2]
        have hsdlq : s.sdl_pushed = (s.sdl_drained ++ [event]) ++ q.sdl_queue := by
          rw [hsdl, hq2]
        cases hp : console_process_sdl_event env { s.tty with event_q := q } event with
        | none =>
          simp only [hp] at hm
          have := Option.some.inj hm
          subst this
          exact ⟨(fun h1 => by cases h1), (fun h1 => by cases h1), (fun h1 => by cases h1),
            (fun h1 => by cases h1), hsdlq, hapi⟩
        | some t =>
          simp only [hp] at hm
          have := Option.some.inj hm
          subst this
          have he : t.event_q = q := process_event_q hp
          refine ⟨fun h1 => ?_, fun h1 => ?_, fun h1 => ?_, fun h1 => ?_, ?_, ?_⟩
          · cases h1
          · cases h1
          · cases h1
          · cases h1
          · show s.sdl_pushed = (s.sdl_drained ++ [event]) ++ t.event_q.sdl_queue
            rw [he]
            exact hsdlq
          · show s.api_pushed = s.api_drained ++ t.event_q.api_queue
            rw [he]
            exact hapi
    · cases hm
  case drain_api =>
    split at hm
    · rename_i hmx
      cases hpop : s.tty.event_q.pop_api with
      | none =>
        rw [hpop] at hm
        have hq : s.tty.event_q.api_queue = [] := by
          unfold EventQueue.pop_api at hpop
          split at hpop
          · assumption
          · cases hpop
        simp only at hm
        split at hm
        · have := Option.some.inj hm
          subst this
          exact ⟨(fun h1 => by cases h1), (fun h1 => by cases h1), (fun h1 => by cases h1),
            (fun h1 => by cases h1), h.sdl, h.api⟩
        · have := Option.some.inj hm
          subst this
          have he := console_render_event_q s.tty
          refine ⟨(fun h1 => by cases h1), fun _ hg hx => ?_, fun _ _ _ => ?_,
            (fun h1 => by cases h1), ?_, ?_⟩
          · show (console_render s.tty).event_q.sdl_queue = []
            rw [he]
            exact h.drain_api hr (by rw [← he]; exact hg) hx
          · show (console_render s.tty).event_q.api_queue = []
            rw [he]
            exact hq
          · show s.sdl_pushed = s.sdl_drained ++ (console_render s.tty).event_q.sdl_queue
            rw [he]
            exact h.sdl
          · show s.api_pushed = s.api_drained ++ (console_render s.tty).event_q.api_queue
            rw [he]
            exact h.api
      | some r =>
        obtain ⟨f, q⟩ := r
        rw [hpop] at hm
        have hq : ∃ rest, s.tty.event_q.api_queue = f :: rest ∧
            q = { s.tty.event_q with api_queue := rest } := by
          unfold EventQueue.pop_api at hpop
          split at hpop
          · cases hpop
          · rename_i e rest hq
            simp only [Option.some.injEq, Prod.mk.injEq] at hpop
            exact ⟨rest, by rw [hq, hpop.1], hpop.2.symm⟩
        obtain ⟨rest, hq1, hq2⟩ := hq
        have hapi : s.api_pushed = (s.api_drained ++ [f]) ++ q.api_queue := by
          rw [h.api, hq1, hq2]
          simp
        have hsdl : s.sdl_pushed = s.sdl_drained ++ q.sdl_queue := by
          rw [h.sdl, hq2]
        have hgs : q.got_some = s.tty.event_q.got_some := by rw [hq2]
        have hsq : q.sdl_queue = s.tty.event_q.sdl_queue := by rw [hq2]
        cases hp : f.run { s.tty with event_q := q } with
        | none =>
          simp only [hp] at hm
          have := Option.some.inj hm
          subst this
          exact ⟨(fun h1 => by cases h1), (fun h1 => by cases h1), (fun h1 => by cases h1),
            (fun h1 => by cases h1), hsdl, hapi⟩
        | some t =>
          simp only [hp] at hm
          have := Option.some.inj hm
          subst this
          have he : t.event_q = q := run_event_q hp
          refine ⟨fun h1 => ?_, fun h1 => ?_, fun h1 => ?_, fun _ hg hx => ?_, ?_, ?_⟩
          · cases h1
          · cases h1
          · cases h1
          · show t.event_q.sdl_queue = []
            rw [he, hsq]
            exact h.drain_api hr (by rw [← hgs, ← he]; exact hg) hx
          · show s.sdl_pushed = s.sdl_drained ++ t.event_q.sdl_queue
            rw [he]
            exact hsdl
          · show s.api_pushed = (s.api_drained ++ [f]) ++ t.event_q.api_queue
            rw [he]
            exact hapi
    · cases hm
  case undefined => cases hm
  case exited => cases hm

theorem Threads.Inv.move {env : SDL_Env} {s s2 : Threads} {m : Move} (h : s.Inv)
    (hm : s.move env m = some s2) : s2.Inv := by
  cases m <;> simp only [Threads.move] at hm
  case push_sdl_begin thread event =>
    split at hm
    · have := Option.some.inj hm
      subst this
      refine ⟨h.woken, (fun _ _ hx => by cases hx), h.waiting_api,
        (fun _ _ hx => by cases hx), ?_, h.api⟩
      show s.sdl_pushed ++ [event] = s.sdl_drained ++ (s.tty.event_q.sdl_queue ++ [event])
      rw [h.sdl, List.append_assoc]
    · cases hm
  case push_sdl_end thread =>
    split at hm
    · have := Option.some.inj hm
      subst this
      exact ⟨fun _ => rfl, (fun _ hg => by cases hg), (fun _ hg => by cases hg),
        (fun _ hg => by cases hg), h.sdl, h.api⟩
    · cases hm
  case push_api_begin thread func =>
    split at hm
    · have := Option.some.inj hm
      subst this
      refine ⟨h.woken, h.waiting_sdl, (fun _ _ hx => by cases hx), h.drain_api, h.sdl, ?_⟩
      show s.api_pushed ++ [func] = s.api_drained ++ (s.tty.event_q.api_queue ++ [func])
      rw [h.api, List.append_assoc]
    · cases hm
  case push_api_end thread =>
    split at hm
    · have := Option.some.inj hm
      subst this
      exact ⟨fun _ => rfl, (fun _ hg => by cases hg), (fun _ hg => by cases hg),
        (fun _ hg => by cases hg), h.sdl, h.api⟩
    · cases hm
  case render => exact h.render_step hm

theorem Threads.Inv.run {env : SDL_Env} : ∀ (moves : List Move) {s s2 : Threads},
    s.Inv → Threads.run env moves s = some s2 → s2.Inv
  | [], s, s2, h, hr => by
    have := Option.some.inj hr
    subst this
    exact h
  | m :: rest, s, s2, h, hr => by
    simp only [Threads.run, Option.bind_eq_some] at hr
    obtain ⟨s1, hm, hrest⟩ := hr
    exact Threads.Inv.run rest (h.move hm) hrest

theorem Threads.run_append (env : SDL_Env) : ∀ (l1 l2 : List Move) (s : Threads),
    Threads.run env (l1 ++ l2) s = (Threads.run env l1 s).bind (Threads.run env l2)
  | [], _, _ => rfl
  | m :: rest, l2, s => by
    simp only [List.cons_append, Threads.run]
    cases s.move env m with
    | none => rfl
    | some s1 => exact Threads.run_append env rest l2 s1

theorem Threads.run_render_succ (env : SDL_Env) {s s1 s2 : Threads} {n : Nat}
    (h1 : s.render_step env = some s1)
    (h2 : Threads.run env (List.replicate n Move.render) s1 = some s2) :
    Threads.run env (List.replicate (n + 1) Move.render) s = some s2 := by
  rw [List.replicate_succ, Threads.run]
  simp only [Threads.move, h1, Option.some_bind]
  exact h2

theorem Threads.run_render_one (env : SDL_Env) {s s1 : Threads}
    (h1 : s.render_step env = some s1) :
    Threads.run env (List.replicate 1 Move.render) s = some s1 :=
  Threads.run_render_succ env h1 rfl

theorem Threads.run_render_add (env : SDL_Env) {s s1 s2 : Threads} {n m : Nat}
    (h1 : Threads.run env (List.replicate n Move.render) s = some s1)
    (h2 : Threads.run env (List.replicate m Move.render) s1 = some s2) :
    Threads.run env (List.replicate (n + m) Move.render) s = some s2 := by
  rw [List.replicate_add, Threads.run_append, h1, Option.some_bind]
  exact h2

theorem Threads.drain_sdl_ends (env : SDL_Env) : ∀ (es : List SDL_Event) (s : Threads),
    s.render = RenderPc.drain_sdl → s.sdl_mutex = none → s.tty.event_q.sdl_queue = es →
    ∃ n s2, Threads.run env (List.replicate n Move.render) s = some s2 ∧
      s2.sdl_mutex = s.sdl_mutex ∧ s2.api_mutex = s.api_mutex ∧
      s2.tty.event_q.got_some = s.tty.event_q.got_some ∧
      (s2.render = RenderPc.drain_api ∨ s2.render = RenderPc.undefined)
  | [], s, hr, hmx, hq => by
    refine ⟨1, { s with render := RenderPc.drain_api }, ?_, rfl, rfl, rfl, Or.inl rfl⟩
    apply Threads.run_render_one env
    simp [Threads.render_step, hr, hmx, EventQueue.pop_sdl, hq]
  | e :: rest, s, hr, hmx, hq => by
    cases hp : console_process_sdl_event env
        { s.tty with event_q := { s.tty.event_q with sdl_queue := rest } } e with
    | none =>
      refine ⟨1, { s with
          tty := { s.tty with event_q := { s.tty.event_q with sdl_queue := rest } }
          render := RenderPc.undefined
          sdl_drained := s.sdl_drained ++ [e] }, ?_, rfl, rfl, rfl, Or.inr rfl⟩
      apply Threads.run_render_one env
      simp [Threads.render_step, hr, hmx, EventQueue.pop_sdl, hq, hp]
    | some t =>
      have he : t.event_q = { s.tty.event_q with sdl_queue := rest } := process_event_q hp
      obtain ⟨n, s2, hrun, h1, h2, h3, h4⟩ := Threads.drain_sdl_ends env rest
        { s with tty := t, sdl_drained := s.sdl_drained ++ [e] } hr hmx (by rw [he])
      refine ⟨n + 1, s2, ?_, h1, h2, by rw [h3, he], h4⟩
      refine Threads.run_render_succ env ?_ hrun
      simp [Threads.render_step, hr, hmx, EventQueue.pop_sdl, hq, hp]

theorem Threads.drain_api_ends (env : SDL_Env) : ∀ (fs : List ApiCall) (s : Threads),
    s.render = RenderPc.drain_api → s.api_mutex = none → s.tty.event_q.api_queue = fs →
    ∃ n s2, Threads.run env (List.replicate n Move.render) s = some s2 ∧
      s2.sdl_mutex = s.sdl_mutex ∧ s2.api_mutex = s.api_mutex ∧
      s2.tty.event_q.got_some = s.tty.event_q.got_some ∧
      (s2.render = RenderPc.waiting ∨ s2.render = RenderPc.exited ∨
        s2.render = RenderPc.undefined)
  | [], s, hr, hmx, hq => by
    by_cases hst : s.tty.status = State.shutdown
    · refine ⟨1, { s with render := RenderPc.exited }, ?_, rfl, rfl, rfl, Or.inr (Or.inl rfl)⟩
      apply Threads.run_render_one env
      simp [Threads.render_step, hr, hmx, EventQueue.pop_api, hq, hst]
    · refine ⟨1, { s with tty := console_render s.tty, render := RenderPc.waiting }, ?_, rfl,
        rfl, by rw [console_render_event_q], Or.inl rfl⟩
      apply Threads.run_render_one env
      simp [Threads.render_step, hr, hmx, EventQueue.pop_api, hq, hst]
  | f :: rest, s, hr, hmx, hq => by
    cases hp : f.run { s.tty with event_q := { s.tty.event_q with api_queue := rest } } with
    | none =>
      refine ⟨1, { s with
          tty := { s.tty with event_q := { s.tty.event_q with api_queue := rest } }
          render := RenderPc.undefined
          api_drained := s.api_drained ++ [f] }, ?_, rfl, rfl, rfl, Or.inr (Or.inr rfl)⟩
      apply Threads.run_render_one env
      simp [Threads.render_step, hr, hmx, EventQueue.pop_api, hq, hp]
    | some t =>
      have he : t.event_q = { s.tty.event_q with api_queue := rest } := run_event_q hp
      obtain ⟨n, s2, hrun, h1, h2, h3, h4⟩ := Threads.drain_api_ends env rest
        { s with tty := t, api_drained := s.api_drained ++ [f] } hr hmx (by rw [he])
      refine ⟨n + 1, s2, ?_, h1, h2, by rw [h3, he], h4⟩
      refine Threads.run_render_succ env ?_ hrun
      simp [Threads.render_step, hr, hmx, EventQueue.pop_api, hq, hp]

theorem Threads.drains_end (env : SDL_Env) (s : Threads)
    (hr : s.render = RenderPc.drain_sdl) (h1 : s.sdl_mutex = none) (h2 : s.api_mutex = none) :
    ∃ n s2, Threads.run env (List.replicate n Move.render) s = some s2 ∧
      s2.sdl_mutex = none ∧ s2.api_mutex = none ∧
      s2.tty.event_q.got_some = s.tty.event_q.got_some ∧
      (s2.render = RenderPc.waiting ∨ s2.render = RenderPc.exited ∨
        s2.render = RenderPc.undefined) := by
  obtain ⟨n, s1, hrun, hm1, hm2, hg, hpc⟩ := Threads.drain_sdl_ends env _ s hr h1 rfl
  rcases hpc with hpc | hpc
  · obtain ⟨m, s2, hrun2, hm3, hm4, hg2, hpc2⟩ :=
      Threads.drain_api_ends env _ s1 hpc (by rw [hm2, h2]) rfl
    exact ⟨n + m, s2, Threads.run_render_add env hrun hrun2, by rw [hm3, hm1, h1],
      by rw [hm4, hm2, h2], by rw [hg2, hg], hpc2⟩
  · exact ⟨n, s1, hrun, by rw [hm1, h1], by rw [hm2, h2], hg, Or.inr (Or.inr hpc)⟩

theorem Threads.woken_settles (env : SDL_Env) (s : Threads)
    (hr : s.render = RenderPc.woken) (h1 : s.sdl_mutex = none) (h2 : s.api_mutex = none)
    (hg0 : s.tty.event_q.got_some = true) :
    ∃ n s2, Threads.run env (List.replicate n Move.render) s = some s2 ∧
      s2.sdl_mutex = none ∧ s2.api_mutex = none ∧
      (s2.render = RenderPc.undefined ∨ s2.render = RenderPc.exited ∨
        (s2.render = RenderPc.waiting ∧ s2.tty.event_q.got_some = false)) := by
  obtain ⟨n, s2, hrun, hm1, hm2, hg, hpc⟩ := Threads.drains_end env
    { s with
      tty := { s.tty with event_q := { s.tty.event_q with got_some := false } }
      render := RenderPc.drain_sdl } rfl h1 h2
  refine ⟨n + 1, s2, ?_, hm1, hm2, ?_⟩
  · refine Threads.run_render_succ env ?_ hrun
    simp [Threads.render_step, hr, h1, h2, wait_eq_some hg0]
  · rcases hpc with hpc | hpc | hpc
    · exact Or.inr (Or.inr ⟨hpc, hg⟩)
    · exact Or.inr (Or.inl hpc)
    · exact Or.inl hpc

theorem Threads.waiting_settles (env : SDL_Env) (s : Threads)
    (hr : s.render = RenderPc.waiting) (h1 : s.sdl_mutex = none) (h2 : s.api_mutex = none) :
    ∃ n s2, Threads.run env (List.replicate n Move.render) s = some s2 ∧
      s2.sdl_mutex = none ∧ s2.api_mutex = none ∧
      (s2.render = RenderPc.undefined ∨ s2.render = RenderPc.exited ∨
        (s2.render = RenderPc.waiting ∧ s2.tty.event_q.got_some = false)) := by
  by_cases hg : s.tty.event_q.got_some = true
  · obtain ⟨n, s2, hrun, h⟩ := Threads.woken_settles env
      { s with render := RenderPc.woken } rfl h1 h2 hg
    refine ⟨n + 1, s2, ?_, h⟩
    refine Threads.run_render_succ env ?_ hrun
    simp [Threads.render_step, hr, wait_eq_some hg]
  · exact ⟨0, s, rfl, h1, h2, Or.inr (Or.inr ⟨hr, by simpa using hg⟩)⟩

theorem Threads.settles (env : SDL_Env) (s : Threads) (hinv : s.Inv)
    (h1 : s.sdl_mutex = none) (h2 : s.api_mutex = none) :
    ∃ n s2, Threads.run env (List.replicate n Move.render) s = some s2 ∧
      s2.sdl_mutex = none ∧ s2.api_mutex = none ∧
      (s2.render = RenderPc.undefined ∨ s2.render = RenderPc.exited ∨
        (s2.render = RenderPc.waiting ∧ s2.tty.event_q.got_some = false)) := by
  have after : ∀ (n : Nat) (s1 : Threads),
      Threads.run env (List.replicate n Move.render) s = some s1 →
      s1.sdl_mutex = none → s1.api_mutex = none →
      (s1.render = RenderPc.waiting ∨ s1.render = RenderPc.exited ∨
        s1.render = RenderPc.undefined) →
      ∃ n s2, Threads.run env (List.replicate n Move.render) s = some s2 ∧
        s2.sdl_mutex = none ∧ s2.api_mutex = none ∧
        (s2.render = RenderPc.undefined ∨ s2.render = RenderPc.exited ∨
          (s2.render = RenderPc.waiting ∧ s2.tty.event_q.got_some = false)) := by
    intro n s1 hrun hm1 hm2 hpc
    rcases hpc with hpc | hpc | hpc
    · obtain ⟨m, s2, hrun2, h⟩ := Threads.waiting_settles env s1 hpc hm1 hm2
      exact ⟨n + m, s2, Threads.run_render_add env hrun hrun2, h⟩
    · exact ⟨n, s1, hrun, hm1, hm2, Or.inr (Or.inl hpc)⟩
    · exact ⟨n, s1, hrun, hm1, hm2, Or.inl hpc⟩
  cases hr : s.render
  case waiting => exact Threads.waiting_settles env s hr h1 h2
  case woken => exact Threads.woken_settles env s hr h1 h2 (hinv.woken hr)
  case drain_sdl =>
    obtain ⟨n, s1, hrun, hm1, hm2, -, hpc⟩ := Threads.drains_end env s hr h1 h2
    exact after n s1 hrun hm1 hm2 hpc
  case drain_api =>
    obtain ⟨n, s1, hrun, hm1, hm2, -, hpc⟩ := Threads.drain_api_ends env _ s hr h2 rfl
    exact after n s1 hrun (by rw [hm1, h1]) (by rw [hm2, h2]) hpc
  case undefined => exact ⟨0, s, rfl, h1, h2, Or.inl hr⟩
  case exited => exact ⟨0, s, rfl, h1, h2, Or.inr (Or.inl hr)⟩

theorem Threads.run_render_pushed (env : SDL_Env) : ∀ (n : Nat) {s s2 : Threads},
    Threads.run env (List.replicate n Move.render) s = some s2 →
    s2.sdl_pushed = s.sdl_pushed ∧ s2.api_pushed = s.api_pushed
  | 0, s, s2, h => by
    have := Option.some.inj h
    subst this
    exact ⟨rfl, rfl⟩
  | n + 1, s, s2, h => by
    rw [List.replicate_succ, Threads.run] at h
    simp only [Threads.move, Option.bind_eq_some] at h
    obtain ⟨s1, hstep, hrest⟩ := h
    obtain ⟨h1, h2⟩ := Threads.run_render_pushed env n hrest
    have key : s1.sdl_pushed = s.sdl_pushed ∧ s1.api_pushed = s.api_pushed := by
      unfold Threads.render_step at hstep
      split at hstep
      · split at hstep
        · cases hstep; exact ⟨rfl, rfl⟩
        · cases hstep
      · split at hstep
        · simp only [Option.map_eq_some'] at hstep
          obtain ⟨q, -, rfl⟩ := hstep
          exact ⟨rfl, rfl⟩
        · cases hstep
      · split at hstep
        · split at hstep
          · cases hstep; exact ⟨rfl, rfl⟩
          · split at hstep <;> (cases hstep; exact ⟨rfl, rfl⟩)
        · cases hstep
      · split at hstep
        · split at hstep
          · split at hstep <;> (cases hstep; exact ⟨rfl, rfl⟩)
          · split at hstep <;> (cases hstep; exact ⟨rfl, rfl⟩)
        · cases hstep
      · cases hstep
      · cases hstep
    exact ⟨by rw [h1, key.1], by rw [h2, key.2]⟩

theorem Threads.drain_sdl_run (env : SDL_Env) : ∀ (es : List SDL_Event) (s : Threads),
    s.render = RenderPc.drain_sdl → s.sdl_mutex = none → s.tty.event_q.sdl_queue = es →
    (∀ t, apply_events env es s.tty = some t →
      ∃ n, Threads.run env (List.replicate n Move.render) s = some
        { s with tty := t, render := RenderPc.drain_api, sdl_drained := s.sdl_drained ++ es }) ∧
    (apply_events env es s.tty = none →
      ∃ n s2, Threads.run env (List.replicate n Move.render) s = some s2 ∧
        s2.render = RenderPc.undefined)
  | [], s, hr, hmx, hq => by
    constructor
    · intro t ht
      have := Option.some.inj ht
      subst this
      refine ⟨1, ?_⟩
      apply Threads.run_render_one env
      simp [Threads.render_step, hr, hmx, EventQueue.pop_sdl, hq]
    · intro h
      cases h
  | e :: rest, s, hr, hmx, hq => by
    cases hp : console_process_sdl_event env
        { s.tty with event_q := { s.tty.event_q with sdl_queue := rest } } e with
    | none =>
      constructor
      · intro t ht
        simp only [apply_events, hp, Option.none_bind] at ht
        cases ht
      · intro _
        refine ⟨1, { s with
          tty := { s.tty with event_q := { s.tty.event_q with sdl_queue := rest } }
          render := RenderPc.undefined
          sdl_drained := s.sdl_drained ++ [e] }, ?_, rfl⟩
        apply Threads.run_render_one env
        simp [Threads.render_step, hr, hmx, EventQueue.pop_sdl, hq, hp]
    | some t1 =>
      have he : t1.event_q = { s.tty.event_q with sdl_queue := rest } := process_event_q hp
      obtain ⟨ih1, ih2⟩ := Threads.drain_sdl_run env rest
        { s with tty := t1, sdl_drained := s.sdl_drained ++ [e] } hr hmx (by rw [he])
      have hstep : s.render_step env
          = some { s with tty := t1, sdl_drained := s.sdl_drained ++ [e] } := by
        simp [Threads.render_step, hr, hmx, EventQueue.pop_sdl, hq, hp]
      constructor
      · intro t ht
        simp only [apply_events, hp, Option.some_bind] at ht
        obtain ⟨n, hrun⟩ := ih1 t ht
        refine ⟨n + 1, ?_⟩
        rw [Threads.run_render_succ env hstep hrun]
        simp
      · intro hnone
        simp only [apply_events, hp, Option.some_bind] at hnone
        obtain ⟨n, s2, hrun, h2⟩ := ih2 hnone
        exact ⟨n + 1, s2, Threads.run_render_succ env hstep hrun, h2⟩

theorem Threads.drain_api_run (env : SDL_Env) : ∀ (fs : List ApiCall) (s : Threads),
    s.render = RenderPc.drain_api → s.api_mutex = none → s.tty.event_q.api_queue = fs →
    (∀ t, apply_calls fs s.tty = some t →
      ∃ n, Threads.run env (List.replicate n Move.render) s = some
        (if t.status = State.shutdown then
          { s with tty := t, render := RenderPc.exited, api_drained := s.api_drained ++ fs }
        else
          { s with tty := console_render t, render := RenderPc.waiting,
                   api_drained := s.api_drained ++ fs })) ∧
    (apply_calls fs s.tty = none →
      ∃ n s2, Threads.run env (List.replicate n Move.render) s = some s2 ∧
        s2.render = RenderPc.undefined)
  | [], s, hr, hmx, hq => by
    constructor
    · intro t ht
      have := Option.some.inj ht
      subst this
      refine ⟨1, ?_⟩
      apply Threads.run_render_one env
      by_cases hst : s.tty.status = State.shutdown
      · simp [Threads.render_step, hr, hmx, EventQueue.pop_api, hq, hst]
      · simp [Threads.render_step, hr, hmx, EventQueue.pop_api, hq, hst]
    · intro h
      cases h
  | f :: rest, s, hr, hmx, hq => by
    cases hp : f.run { s.tty with event_q := { s.tty.event_q with api_queue := rest } } with
    | none =>
      constructor
      · intro t ht
        simp only [apply_calls, hp, Option.none_bind] at ht
        cases ht
      · intro _
        refine ⟨1, { s with
          tty := { s.tty with event_q := { s.tty.event_q with api_queue := rest } }
          render := RenderPc.undefined
          api_drained := s.api_drained ++ [f] }, ?_, rfl⟩
        apply Threads.run_render_one env
        simp [Threads.render_step, hr, hmx, EventQueue.pop_api, hq, hp]
    | some t1 =>
      have he : t1.event_q = { s.tty.event_q with api_queue := rest } := run_event_q hp
      obtain ⟨ih1, ih2⟩ := Threads.drain_api_run env rest
        { s with tty := t1, api_drained := s.api_drained ++ [f] } hr hmx (by rw [he])
      have hstep : s.render_step env
          = some { s with tty := t1, api_drained := s.api_drained ++ [f] } := by
        simp [Threads.render_step, hr, hmx, EventQueue.pop_api, hq, hp]
      constructor
      · intro t ht
        simp only [apply_calls, hp, Option.some_bind] at ht
        obtain ⟨n, hrun⟩ := ih1 t ht
        refine ⟨n + 1, ?_⟩
        rw [Threads.run_render_succ env hstep hrun]
        simp
      · intro hnone
        simp only [apply_calls, hp, Option.some_bind] at hnone
        obtain ⟨n, s2, hrun, h2⟩ := ih2 hnone
        exact ⟨n + 1, s2, Threads.run_render_succ env hstep hrun, h2⟩

theorem Threads.cycle (env : SDL_Env) (s : Threads) (hr : s.render = RenderPc.waiting)
    (h1 : s.sdl_mutex = none) (h2 : s.api_mutex = none) :
    (∀ t, Console_Draw_resume env s.tty = Pass.blocked t → s.render_step env = none) ∧
    (∀ t, Console_Draw_resume env s.tty = Pass.again t →
      ∃ n, Threads.run env (List.replicate n Move.render) s = some
        { s with tty := console_render t, render := RenderPc.waiting,
                 sdl_drained := s.sdl_drained ++ s.tty.event_q.sdl_queue,
                 api_drained := s.api_drained ++ s.tty.event_q.api_queue }) ∧
    (∀ t ret, Console_Draw_resume env s.tty = Pass.exit t ret →
      ∃ n, Threads.run env (List.replicate n Move.render) s = some
        { s with tty := t, render := RenderPc.exited,
                 sdl_drained := s.sdl_drained ++ s.tty.event_q.sdl_queue,
                 api_drained := s.api_drained ++ s.tty.event_q.api_queue }) ∧
    (Console_Draw_resume env s.tty = Pass.undefined →
      ∃ n s2, Threads.run env (List.replicate n Move.render) s = some s2 ∧
        s2.render = RenderPc.undefined) := by
  by_cases hg : s.tty.event_q.got_some = true
  · obtain ⟨q, hq⟩ : ∃ q : EventQueue, q = { s.tty.event_q with got_some := false } := ⟨_, rfl⟩
    obtain ⟨tty0, htty0⟩ : ∃ tty0 : Console_tty, tty0 = { s.tty with event_q := q } := ⟨_, rfl⟩
    have hwait : s.tty.event_q.wait_for_events = some q := by rw [hq]; exact wait_eq_some hg
    have hres : Console_Draw_resume env s.tty =
        match (apply_events env s.tty.event_q.sdl_queue tty0).bind
            (apply_calls s.tty.event_q.api_queue) with
        | none => Pass.undefined
        | some t => if t.status = State.shutdown then Pass.exit t 0 else Pass.again t := by
      unfold Console_Draw_resume
      rw [hwait]
      simp only
      rw [← htty0, Console_Draw_drain_eq]
      have e1 : tty0.event_q.sdl_queue = s.tty.event_q.sdl_queue := by rw [htty0, hq]
      have e2 : tty0.event_q.api_queue = s.tty.event_q.api_queue := by rw [htty0, hq]
      rw [e1, e2]
    have hstep1 : s.render_step env = some { s with render := RenderPc.woken } := by
      simp [Threads.render_step, hr, hwait]
    have hstep2 : Threads.render_step env { s with render := RenderPc.woken }
        = some { s with tty := tty0, render := RenderPc.drain_sdl } := by
      simp [Threads.render_step, h1, h2, hwait, htty0]
    have hstart : Threads.run env (List.replicate 2 Move.render) s
        = some { s with tty := tty0, render := RenderPc.drain_sdl } :=
      Threads.run_render_succ env hstep1 (Threads.run_render_one env hstep2)
    obtain ⟨sdl1, sdl2⟩ := Threads.drain_sdl_run env s.tty.event_q.sdl_queue
      { s with tty := tty0, render := RenderPc.drain_sdl } rfl h1 (by rw [htty0, hq])
    cases hev : apply_events env s.tty.event_q.sdl_queue tty0 with
    | none =>
      rw [hev] at hres
      simp only [Option.none_bind] at hres
      obtain ⟨n, s2, hrun, hpc⟩ := sdl2 hev
      refine ⟨fun t h => ?_, fun t h => ?_, fun t ret h => ?_, fun _ =>
        ⟨2 + n, s2, Threads.run_render_add env hstart hrun, hpc⟩⟩
      · rw [hres] at h; cases h
      · rw [hres] at h; cases h
      · rw [hres] at h; cases h
    | some t1 =>
      rw [hev] at hres
      simp only [Option.some_bind] at hres
      obtain ⟨n, hrun1⟩ := sdl1 t1 hev
      have hrun1b := Threads.run_render_add env hstart hrun1
      have hapi : t1.event_q.api_queue = s.tty.event_q.api_queue := by
        rcases apply_events_event_q env _ _ _ hev with h | ⟨-, h⟩
        · rw [h, htty0, hq]
        · rw [h, htty0, hq]
      obtain ⟨api1, api2⟩ := Threads.drain_api_run env s.tty.event_q.api_queue
        { s with tty := t1, render := RenderPc.drain_api,
                 sdl_drained := s.sdl_drained ++ s.tty.event_q.sdl_queue } rfl h2 hapi
      cases hca : apply_calls s.tty.event_q.api_queue t1 with
      | none =>
        rw [hca] at hres
        obtain ⟨m, s2, hrun, hpc⟩ := api2 hca
        refine ⟨fun t h => ?_, fun t h => ?_, fun t ret h => ?_, fun _ =>
          ⟨2 + n + m, s2, Threads.run_render_add env hrun1b hrun, hpc⟩⟩
        · rw [hres] at h; cases h
        · rw [hres] at h; cases h
        · rw [hres] at h; cases h
      | some t2 =>
        rw [hca] at hres
        simp only at hres
        obtain ⟨m, hrun2⟩ := api1 t2 hca
        have hrun := Threads.run_render_add env hrun1b hrun2
        by_cases hst : t2.status = State.shutdown
        · rw [if_pos hst] at hres hrun
          refine ⟨fun t h => ?_, fun t h => ?_, fun t ret h => ?_, fun h => ?_⟩
          · rw [hres] at h; cases h
          · rw [hres] at h; cases h
          · rw [hres] at h
            cases h
            exact ⟨2 + n + m, hrun⟩
          · rw [hres] at h; cases h
        · rw [if_neg hst] at hres hrun
          refine ⟨fun t h => ?_, fun t h => ?_, fun t ret h => ?_, fun h => ?_⟩
          · rw [hres] at h; cases h
          · rw [hres] at h
            cases h
            exact ⟨2 + n + m, hrun⟩
          · rw [hres] at h; cases h
          · rw [hres] at h; cases h
  · have hg2 : s.tty.event_q.got_some = false := by simpa using hg
    have hwait : s.tty.event_q.wait_for_events = none := by
      simp [EventQueue.wait_for_events, hg2]
    have hres : Console_Draw_resume env s.tty = Pass.blocked s.tty := by
      simp [Console_Draw_resume, hwait]
    refine ⟨fun t _ => ?_, fun t h => ?_, fun t ret h => ?_, fun h => ?_⟩
    · simp [Threads.render_step, hr, hwait]
    · rw [hres] at h; cases h
    · rw [hres] at h; cases h
    · rw [hres] at h; cases h

theorem Threads.exited_stays (env : SDL_Env) : ∀ (moves : List Move) {s s2 : Threads},
    s.render = RenderPc.exited → Threads.run env moves s = some s2 →
    s2.render = RenderPc.exited ∧ s2.sdl_drained = s.sdl_drained ∧
      s2.api_drained = s.api_drained
  | [], s, s2, hr, h => by
    have := Option.some.inj h
    subst this
    exact ⟨hr, rfl, rfl⟩
  | m :: rest, s, s2, hr, h => by
    simp only [Threads.run, Option.bind_eq_some] at h
    obtain ⟨s1, hm, hrest⟩ := h
    have key : s1.render = RenderPc.exited ∧ s1.sdl_drained = s.sdl_drained ∧
        s1.api_drained = s.api_drained := by
      cases m <;> simp only [Threads.move] at hm
      case push_sdl_begin thread event =>
        split at hm
        · cases hm; exact ⟨hr, rfl, rfl⟩
        · cases hm
      case push_sdl_end thread =>
        split at hm
        · cases hm; exact ⟨hr, rfl, rfl⟩
        · cases hm
      case push_api_begin thread func =>
        split at hm
        · cases hm; exact ⟨hr, rfl, rfl⟩
        · cases hm
      case push_api_end thread =>
        split at hm
        · cases hm; exact ⟨hr, rfl, rfl⟩
        · cases hm
      case render =>
        simp [Threads.render_step, hr] at hm
    obtain ⟨h1, h2, h3⟩ := Threads.exited_stays env rest key.1 hrest
    exact ⟨h1, by rw [h2, key.2.1], by rw [h3, key.2.2]⟩

/-- C20, as amended.  The drain block of `Console_Draw`, with no push while it
runs, equals applying the queued raw events one after the other in queue
order, each once, and then the queued calls in queue order, each once; when
it returns, both queues are empty.  The queue order is the order of the
pushes: `push_sdl` and `push_api` append at the end of their own queue and
leave the other queue alone.  With pushes going on at any point, in every
state that an interleaving of pushing threads and render thread reaches from
empty queues, what has been pushed on a queue is what the render thread has
popped from it followed by what is queued: the pops are in the order of the
pushes and no item is popped twice. -/
theorem drain_cycle_fifo (env : SDL_Env) (tty : Console_tty) :
    Console_Draw_drain env tty =
      (apply_events env tty.event_q.sdl_queue tty).bind
        (apply_calls tty.event_q.api_queue) ∧
    (∀ s, Console_Draw_drain env tty = some s →
      s.event_q.sdl_queue = [] ∧ s.event_q.api_queue = []) ∧
    (∀ (q : EventQueue) (e : SDL_Event),
      (q.push_sdl e).sdl_queue = q.sdl_queue ++ [e] ∧ (q.push_sdl e).api_queue = q.api_queue) ∧
    (∀ (q : EventQueue) (f : ApiCall),
      (q.push_api f).api_queue = q.api_queue ++ [f] ∧ (q.push_api f).sdl_queue = q.sdl_queue) ∧
    (∀ (moves : List Move) (s : Threads),
      tty.event_q = { sdl_queue := [], api_queue := [], got_some := false } →
      Threads.run env moves (Threads.start tty) = some s →
      s.sdl_pushed = s.sdl_drained ++ s.tty.event_q.sdl_queue ∧
      s.api_pushed = s.api_drained ++ s.tty.event_q.api_queue) :=
  ⟨Console_Draw_drain_eq env tty,
    fun s h => by rw [Console_Draw_drain_empty h]; exact ⟨rfl, rfl⟩,
    fun _ _ => ⟨rfl, rfl⟩, fun _ _ => ⟨rfl, rfl⟩,
    fun moves s h0 hrun =>
      ⟨(Threads.Inv.run moves (Threads.Inv.start h0) hrun).sdl,
        (Threads.Inv.run moves (Threads.Inv.start h0) hrun).api⟩⟩

/-- C20 as stated fails: a prompt update is pushed and the render thread wakes
and drains; while it is in the loop over the calls a thread pushes a text
event; the render thread runs the prompt update, finds no further call and is
back at its wait: the cycle has ended and the queue of raw events holds the
text event, which has not been applied. -/
theorem drain_cycle_fifo_counterexample :
    (Threads.run { ctrl := false, clipboard := [], rows := 24 }
        [Move.push_api_begin 1 (ApiCall.set_prompt ['$', ' ']), Move.push_api_end 1,
          Move.render, Move.render, Move.render,
          Move.push_sdl_begin 2 (SDL_Event.textinput ['a']), Move.push_sdl_end 2,
          Move.render, Move.render]
        (Threads.start Console_tty.init)).map
      (fun s => (s.render, s.tty.event_q.sdl_queue, s.tty.event_q.api_queue,
        s.sdl_drained, s.api_drained))
      = some (RenderPc.waiting, [SDL_Event.textinput ['a']], [], [],
          [ApiCall.set_prompt ['$', ' ']]) := by
  rfl

/-- C21 as stated fails.  First run: a shutdown call is pushed, the render
thread drains it and `Console_Draw` returns; an output line pushed after that
stays queued, and the render thread has no further step: the item is never
drained.  Second run: a thread is inside `push_sdl`, past `queue.push` and
before `got_some = true`; the render thread waits with the flag clear while
the queue of raw events is not empty. -/
theorem no_lost_wakeup_counterexample :
    (Threads.run { ctrl := false, clipboard := [], rows := 24 }
        [Move.push_api_begin 1 ApiCall.shutdown, Move.push_api_end 1,
          Move.render, Move.render, Move.render, Move.render, Move.render,
          Move.push_api_begin 2 (ApiCall.add_line ['x']), Move.push_api_end 2]
        (Threads.start Console_tty.init)).map
      (fun s => (s.render, s.tty.event_q.api_queue, s.api_drained,
        (s.render_step { ctrl := false, clipboard := [], rows := 24 }).isSome))
      = some (RenderPc.exited, [ApiCall.add_line ['x']], [ApiCall.shutdown], false) ∧
    (Threads.run { ctrl := false, clipboard := [], rows := 24 }
        [Move.push_sdl_begin 1 (SDL_Event.textinput ['a'])]
        (Threads.start Console_tty.init)).map
      (fun s => (s.render, s.tty.event_q.got_some, s.tty.event_q.sdl_queue, s.sdl_mutex))
      = some (RenderPc.waiting, false, [SDL_Event.textinput ['a']], some 1) := by
  exact ⟨rfl, rfl⟩

/-- C21, as amended.  Take any interleaving of the moves of any number of
pushing threads (each `push_sdl` and `push_api` in its two halves, under the
mutex of its queue) and of the render thread in the loop of `Console_Draw`,
from a console whose queues are empty and whose flag is clear.  In the state
reached: (1) if the render thread waits in `wait_for_events` with `got_some`
clear, a queue is empty unless a thread is inside a push on it, holding its
mutex, past `queue.push` and about to set the flag.  (2) On each queue, what
has been pushed is what the render thread has popped, followed by what is
queued, in this order: nothing is lost, doubled or overtaken.  (3) A thread
inside a push can always finish it, and that sets the flag.  (4) Once no push
is under way, the render thread on its own reaches, after finitely many steps,
its wait with the flag clear, both queues empty and everything pushed popped,
unless a handler runs into undefined behaviour or `Console_Draw` returns
because the status is `shutdown`.  (5) The two halves of a push together are
`push_sdl`, respectively `push_api`.  (6) From its wait, with no push under
way, the steps of the render thread make up one pass of `Console_Draw`, which
is `wait_for_events` followed by the drain block: the render thread has no
step where the pass blocks, and otherwise it reaches the state of the pass,
with all that was queued popped.  (7) After `Console_Draw` has returned the
render thread pops nothing more, whatever is pushed. -/
theorem no_lost_wakeup (env : SDL_Env) (tty : Console_tty) (moves : List Move) (s : Threads)
    (h0 : tty.event_q = { sdl_queue := [], api_queue := [], got_some := false })
    (hrun : Threads.run env moves (Threads.start tty) = some s) :
    (s.render = RenderPc.waiting → s.tty.event_q.got_some = false →
      (s.sdl_mutex = none → s.tty.event_q.sdl_queue = []) ∧
      (s.api_mutex = none → s.tty.event_q.api_queue = [])) ∧
    s.sdl_pushed = s.sdl_drained ++ s.tty.event_q.sdl_queue ∧
    s.api_pushed = s.api_drained ++ s.tty.event_q.api_queue ∧
    (∀ thread, s.sdl_mutex = some thread →
      ∃ s1, s.move env (Move.push_sdl_end thread) = some s1 ∧
        s1.tty.event_q.got_some = true ∧ s1.sdl_mutex = none) ∧
    (∀ thread, s.api_mutex = some thread →
      ∃ s1, s.move env (Move.push_api_end thread) = some s1 ∧
        s1.tty.event_q.got_some = true ∧ s1.api_mutex = none) ∧
    (s.sdl_mutex = none → s.api_mutex = none →
      ∃ n s2, Threads.run env (List.replicate n Move.render) s = some s2 ∧
        (s2.render = RenderPc.undefined ∨ s2.render = RenderPc.exited ∨
          (s2.render = RenderPc.waiting ∧ s2.tty.event_q.got_some = false ∧
            s2.tty.event_q.sdl_queue = [] ∧ s2.tty.event_q.api_queue = [] ∧
            s2.sdl_drained = s.sdl_pushed ∧ s2.api_drained = s.api_pushed))) ∧
    (∀ (thread : Nat) (event : SDL_Event) (s1 s2 : Threads),
      s.move env (Move.push_sdl_begin thread event) = some s1 →
      s1.move env (Move.push_sdl_end thread) = some s2 →
      s2.tty.event_q = s.tty.event_q.push_sdl event) ∧
    (∀ (thread : Nat) (func : ApiCall) (s1 s2 : Threads),
      s.move env (Move.push_api_begin thread func) = some s1 →
      s1.move env (Move.push_api_end thread) = some s2 →
      s2.tty.event_q = s.tty.event_q.push_api func) ∧
    (s.render = RenderPc.waiting → s.sdl_mutex = none → s.api_mutex = none →
      (∀ t, Console_Draw_resume env s.tty = Pass.blocked t → s.render_step env = none) ∧
      (∀ t, Console_Draw_resume env s.tty = Pass.again t →
        ∃ n, Threads.run env (List.replicate n Move.render) s = some
          { s with
            tty := console_render t, render := RenderPc.waiting,
            sdl_drained := s.sdl_drained ++ s.tty.event_q.sdl_queue,
            api_drained := s.api_drained ++ s.tty.event_q.api_queue }) ∧
      (∀ t ret, Console_Draw_resume env s.tty = Pass.exit t ret →
        ∃ n, Threads.run env (List.replicate n Move.render) s = some
          { s with
            tty := t, render := RenderPc.exited,
            sdl_drained := s.sdl_drained ++ s.tty.event_q.sdl_queue,
            api_drained := s.api_drained ++ s.tty.event_q.api_queue }) ∧
      (Console_Draw_resume env s.tty = Pass.undefined →
        ∃ n s2, Threads.run env (List.replicate n Move.render) s = some s2 ∧
          s2.render = RenderPc.undefined)) ∧
    (∀ (more : List Move) (s2 : Threads), s.render = RenderPc.exited →
      Threads.run env more s = some s2 →
      s2.render = RenderPc.exited ∧ s2.sdl_drained = s.sdl_drained ∧
        s2.api_drained = s.api_drained) := by
  have hinv : s.Inv := Threads.Inv.run moves (Threads.Inv.start h0) hrun
  refine ⟨fun hr hg => ⟨hinv.waiting_sdl hr hg, hinv.waiting_api hr hg⟩, hinv.sdl, hinv.api,
    ?_, ?_, ?_, ?_, ?_, fun hr h1 h2 => Threads.cycle env s hr h1 h2,
    fun more s2 hr h => Threads.exited_stays env more hr h⟩
  · intro thread hm
    refine ⟨{ s with
      tty := { s.tty with event_q := { s.tty.event_q with got_some := true } }
      sdl_mutex := none }, ?_, rfl, rfl⟩
    simp only [Threads.move, hm, if_true]
  · intro thread hm
    refine ⟨{ s with
      tty := { s.tty with event_q := { s.tty.event_q with got_some := true } }
      api_mutex := none }, ?_, rfl, rfl⟩
    simp only [Threads.move, hm, if_true]
  · intro h1 h2
    obtain ⟨n, s2, hrun2, hm1, hm2, hpc⟩ := Threads.settles env s hinv h1 h2
    refine ⟨n, s2, hrun2, ?_⟩
    rcases hpc with hpc | hpc | ⟨hpc, hg⟩
    · exact Or.inl hpc
    · exact Or.inr (Or.inl hpc)
    · have hinv2 : s2.Inv := Threads.Inv.run _ hinv hrun2
      have hq1 := hinv2.waiting_sdl hpc hg hm1
      have hq2 := hinv2.waiting_api hpc hg hm2
      obtain ⟨hp1, hp2⟩ := Threads.run_render_pushed env n hrun2
      refine Or.inr (Or.inr ⟨hpc, hg, hq1, hq2, ?_, ?_⟩)
      · rw [← hp1, hinv2.sdl, hq1, List.append_nil]
      · rw [← hp2, hinv2.api, hq2, List.append_nil]
  · intro thread event s1 s2 hb he
    simp only [Threads.move] at hb
    split at hb
    · have := Option.some.inj hb
      subst this
      simp only [Threads.move, if_true] at he
      have := Option.some.inj he
      subst this
      rfl
    · cases hb
  · intro thread func s1 s2 hb he
    simp only [Threads.move] at hb
    split at hb
    · have := Option.some.inj hb
      subst this
      simp only [Threads.move, if_true] at he
      have := Option.some.inj he
      subst this
      rfl
    · cases hb

/-- C21, as amended, on an interleaving of three pushing threads with the
render thread, which ends with all three items popped in the order of their
pushes. -/
theorem no_lost_wakeup_witness :
    Console_tty.init.event_q = { sdl_queue := [], api_queue := [], got_some := false } ∧
    Threads.run { ctrl := false, clipboard := [], rows := 24 } interleaving_example
      (Threads.start Console_tty.init) = some interleaved_example ∧
    interleaved_example.sdl_drained
      = [SDL_Event.textinput ['a'], SDL_Event.textinput ['b']] ∧
    interleaved_example.api_drained = [ApiCall.set_prompt ['$', ' ']] ∧
    (interleaved_example.render = RenderPc.waiting → interleaved_example.tty.event_q.got_some = false →
      (interleaved_example.sdl_mutex = none → interleaved_example.tty.event_q.sdl_queue = []) ∧
      (interleaved_example.api_mutex = none → interleaved_example.tty.event_q.api_queue = [])) ∧
    interleaved_example.sdl_pushed = interleaved_example.sdl_drained ++ interleaved_example.tty.event_q.sdl_queue ∧
    interleaved_example.api_pushed = interleaved_example.api_drained ++ interleaved_example.tty.event_q.api_queue ∧
    (∀ thread, interleaved_example.sdl_mutex = some thread →
      ∃ s1, interleaved_example.move { ctrl := false, clipboard := [], rows := 24 } (Move.push_sdl_end thread) = some s1 ∧
        s1.tty.event_q.got_some = true ∧ s1.sdl_mutex = none) ∧
    (∀ thread, interleaved_example.api_mutex = some thread →
      ∃ s1, interleaved_example.move { ctrl := false, clipboard := [], rows := 24 } (Move.push_api_end thread) = some s1 ∧
        s1.tty.event_q.got_some = true ∧ s1.api_mutex = none) ∧
    (interleaved_example.sdl_mutex = none → interleaved_example.api_mutex = none →
      ∃ n s2, Threads.run { ctrl := false, clipboard := [], rows := 24 } (List.replicate n Move.render) interleaved_example = some s2 ∧
        (s2.render = RenderPc.undefined ∨ s2.render = RenderPc.exited ∨
          (s2.render = RenderPc.waiting ∧ s2.tty.event_q.got_some = false ∧
            s2.tty.event_q.sdl_queue = [] ∧ s2.tty.event_q.api_queue = [] ∧
            s2.sdl_drained = interleaved_example.sdl_pushed ∧ s2.api_drained = interleaved_example.api_pushed))) ∧
    (∀ (thread : Nat) (event : SDL_Event) (s1 s2 : Threads),
      interleaved_example.move { ctrl := false, clipboard := [], rows := 24 } (Move.push_sdl_begin thread event) = some s1 →
      s1.move { ctrl := false, clipboard := [], rows := 24 } (Move.push_sdl_end thread) = some s2 →
      s2.tty.event_q = interleaved_example.tty.event_q.push_sdl event) ∧
    (∀ (thread : Nat) (func : ApiCall) (s1 s2 : Threads),
      interleaved_example.move { ctrl := false, clipboard := [], rows := 24 } (Move.push_api_begin thread func) = some s1 →
      s1.move { ctrl := false, clipboard := [], rows := 24 } (Move.push_api_end thread) = some s2 →
      s2.tty.event_q = interleaved_example.tty.event_q.push_api func) ∧
    (interleaved_example.render = RenderPc.waiting → interleaved_example.sdl_mutex = none → interleaved_example.api_mutex = none →
      (∀ t, Console_Draw_resume { ctrl := false, clipboard := [], rows := 24 } interleaved_example.tty = Pass.blocked t → interleaved_example.render_step { ctrl := false, clipboard := [], rows := 24 } = none) ∧
      (∀ t, Console_Draw_resume { ctrl := false, clipboard := [], rows := 24 } interleaved_example.tty = Pass.again t →
        ∃ n, Threads.run { ctrl := false, clipboard := [], rows := 24 } (List.replicate n Move.render) interleaved_example = some
          { interleaved_example with
            tty := console_render t, render := RenderPc.waiting,
            sdl_drained := interleaved_example.sdl_drained ++ interleaved_example.tty.event_q.sdl_queue,
            api_drained := interleaved_example.api_drained ++ interleaved_example.tty.event_q.api_queue }) ∧
      (∀ t ret, Console_Draw_resume { ctrl := false, clipboard := [], rows := 24 } interleaved_example.tty = Pass.exit t ret →
        ∃ n, Threads.run { ctrl := false, clipboard := [], rows := 24 } (List.replicate n Move.render) interleaved_example = some
          { interleaved_example with
            tty := t, render := RenderPc.exited,
            sdl_drained := interleaved_example.sdl_drained ++ interleaved_example.tty.event_q.sdl_queue,
            api_drained := interleaved_example.api_drained ++ interleaved_example.tty.event_q.api_queue }) ∧
      (Console_Draw_resume { ctrl := false, clipboard := [], rows := 24 } interleaved_example.tty = Pass.undefined →
        ∃ n s2, Threads.run { ctrl := false, clipboard := [], rows := 24 } (List.replicate n Move.render) interleaved_example = some s2 ∧
          s2.render = RenderPc.undefined)) ∧
    (∀ (more : List Move) (s2 : Threads), interleaved_example.render = RenderPc.exited →
      Threads.run { ctrl := false, clipboard := [], rows := 24 } more interleaved_example = some s2 →
      s2.render = RenderPc.exited ∧ s2.sdl_drained = interleaved_example.sdl_drained ∧
        s2.api_drained = interleaved_example.api_drained) :=
  ⟨rfl, rfl, rfl, rfl,
    no_lost_wakeup { ctrl := false, clipboard := [], rows := 24 } Console_tty.init
      interleaving_example interleaved_example rfl rfl⟩

end SDLConsole

namespace DFHack

open SDLConsole

end DFHack
